import Mathlib

/-!
# Piece-extent coordination of `vtkXMLPStructuredDataReader`

A shallow embedding of `IO/vtkXMLPStructuredDataReader.cxx`: extents, the
block copy `CopySubExtent`, the progress fractions of `ReadXMLData` and the
control flow of the read loop.

Conventions of the embedding.
* Extent bounds, dimensions and the `vtkIdType` tuple offsets and counts are
  unbounded integers (`vtkIdType` is declared outside this file).  The
  products of dimensions that the code forms in a 32-bit type are embedded
  with their wrap-around: the byte count of the whole-volume copy, an
  `unsigned int` (`% 2^32`), the tuple count of a slice and the volume of a
  sub-extent in the progress loop, `int` products (`mulInt`).  Theorems that
  need the exact product state the bound.
* A data array is its component count, the byte width of one component and
  its raw bytes.  `memcpy` is bounds checked: a call that would touch a byte
  outside either buffer yields `none`.
* Loops `for (k = 0; k < n; ++k)` run over `List.range n.toNat`.
-/

namespace VTK

/-! ## Data model -/

/-- The six integers `extent[0..5]`: inclusive lower and upper index bounds
for axes 0, 1 and 2. -/
structure Extent where
  e0 : Int
  e1 : Int
  e2 : Int
  e3 : Int
  e4 : Int
  e5 : Int
deriving DecidableEq, Repr

/-- A three element integer array (`int dimensions[3]`, `vtkIdType increments[3]`). -/
structure Int3 where
  v0 : Int
  v1 : Int
  v2 : Int
deriving DecidableEq, Repr

/-- The part of a `vtkDataArray` that `CopySubExtent` touches: the number of
components of a tuple, the byte width of one component, and the raw bytes
behind `GetVoidPointer(0)`. -/
structure vtkDataArray where
  NumberOfComponents : Nat
  DataTypeSize : Nat
  data : List Nat
deriving DecidableEq, Repr

/-- Modelled from the spec: `vtkXMLStructuredDataReader::ComputeDimensions` is
inherited from the superclass, outside the file verified here.  Point dimensions are
`hi - lo + 1`, cell dimensions are `hi - lo`, per axis. -/
def ComputeDimensions (extent : Extent) (isPoint : Bool) : Int3 :=
  if isPoint then
    ⟨extent.e1 - extent.e0 + 1, extent.e3 - extent.e2 + 1, extent.e5 - extent.e4 + 1⟩
  else
    ⟨extent.e1 - extent.e0, extent.e3 - extent.e2, extent.e5 - extent.e4⟩

/-- Modelled from the spec: `vtkXMLStructuredDataReader::ComputeIncrements` is
inherited from the superclass, outside the file verified here.  Strides are counted in tuples
(the copy multiplies by the component count itself): axis 0 has stride 1,
axis 1 has stride `dim0`, axis 2 has stride `dim0 * dim1`. -/
def ComputeIncrements (extent : Extent) (isPoint : Bool) : Int3 :=
  let dimensions := ComputeDimensions extent isPoint
  ⟨1, 1 * dimensions.v0, 1 * dimensions.v0 * dimensions.v1⟩

/-- Modelled from the spec: `vtkXMLStructuredDataReader::GetStartTuple` is
inherited from the superclass, outside the file verified here.
`(x-extent.lo0)*stride0 + (y-extent.lo1)*stride1 + (z-extent.lo2)*stride2`. -/
def GetStartTuple (extent : Extent) (increments : Int3) (i j k : Int) : Int :=
  (i - extent.e0) * increments.v0 + (j - extent.e2) * increments.v1 +
    (k - extent.e4) * increments.v2

/-- Byte offset of `GetVoidPointer(id)`: `id` counts components. -/
def GetVoidPointer (a : vtkDataArray) (id : Int) : Int :=
  id * (a.DataTypeSize : Int)

/-! ## 32-bit arithmetic -/

/-- The value of an `int` expression whose mathematical value is `x`: the
representative of `x` modulo 2^32 in `[-2^31, 2^31)`.  (C++ leaves signed
overflow undefined; this is the two's-complement result.) -/
def wrapInt (x : Int) : Int :=
  (x + 2147483648) % 4294967296 - 2147483648

/-- The product `a*b` of two `int` values, formed in `int`. -/
def mulInt (a b : Int) : Int :=
  wrapInt (a * b)

/-- The integer is a value of `int`: it lies in `[-2^31, 2^31)`. -/
def FitsInt (x : Int) : Prop :=
  -2147483648 ≤ x ∧ x < 2147483648

instance (x : Int) : Decidable (FitsInt x) := by
  unfold FitsInt; infer_instance

/-! ## `memcpy` on bounds-checked buffers -/

/-- One `memcpy(out + dest, in + src, count)`: byte offsets into the
destination and source buffers and the byte count. -/
structure MemcpyCall where
  dest : Int
  src : Int
  count : Int
deriving DecidableEq, Repr

/-- A call is within bounds when it touches no byte, or when every byte read
lies in a source buffer of `srcLen` bytes and every byte written in a
destination buffer of `dstLen` bytes.  A negative count stands for the huge
unsigned value it converts to and is never within bounds. -/
def MemcpyCall.InBounds (c : MemcpyCall) (srcLen dstLen : Nat) : Prop :=
  c.count = 0 ∨
    (0 < c.count ∧ 0 ≤ c.dest ∧ 0 ≤ c.src ∧
      c.src + c.count ≤ (srcLen : Int) ∧ c.dest + c.count ≤ (dstLen : Int))

instance (c : MemcpyCall) (srcLen dstLen : Nat) : Decidable (c.InBounds srcLen dstLen) := by
  unfold MemcpyCall.InBounds; infer_instance

/-- Bounds-checked `memcpy`: the destination with bytes
`[dest, dest + count)` replaced by bytes `[src, src + count)` of the source. -/
def memcpy (dst src : List Nat) (c : MemcpyCall) : Option (List Nat) :=
  if c.InBounds src.length dst.length then
    some (dst.take c.dest.toNat ++ (src.drop c.src.toNat).take c.count.toNat ++
      dst.drop (c.dest + c.count).toNat)
  else
    none

/-- Executes `memcpy` calls in order on the destination buffer. -/
def runCopies (src : List Nat) (calls : List MemcpyCall) (dst : List Nat) :
    Option (List Nat) :=
  calls.foldlM (fun out c => memcpy out src c) dst

/-! ## `CopySubExtent` -/

/-- The `memcpy` calls issued by `CopySubExtent`, in program order.  The
arguments are those of the source function; reading the arrays only through
`GetNumberOfComponents`, `GetDataTypeSize` and `GetVoidPointer`, the sequence
of calls does not depend on the bytes stored.  In the whole-volume branch
`volumeTuples` and `volumeTuples*tupleSize` are `unsigned int` values: each is
taken modulo 2^32 = 4294967296.  In the slice branch the product
`inDimensions[0]*inDimensions[1]` is formed in `int` before it is widened to
`vtkIdType`. -/
def CopySubExtentCalls (inExtent : Extent) (inDimensions inIncrements : Int3)
    (outExtent : Extent) (outDimensions outIncrements : Int3)
    (subExtent : Extent) (subDimensions : Int3)
    (inArray outArray : vtkDataArray) : List MemcpyCall :=
  let components : Int := inArray.NumberOfComponents
  let tupleSize : Int := (inArray.DataTypeSize : Int) * components
  if inDimensions.v0 = outDimensions.v0 ∧ inDimensions.v1 = outDimensions.v1 then
    if inDimensions.v2 = outDimensions.v2 then
      -- Copy the whole volume at once.
      let volumeTuples := (inDimensions.v0 * inDimensions.v1 * inDimensions.v2) % 4294967296
      [⟨GetVoidPointer outArray 0, GetVoidPointer inArray 0,
        (volumeTuples * tupleSize) % 4294967296⟩]
    else
      -- Copy an entire slice at a time.
      let sliceTuples := mulInt inDimensions.v0 inDimensions.v1
      (List.range subDimensions.v2.toNat).map fun (k : Nat) =>
        let sourceTuple := GetStartTuple inExtent inIncrements
          subExtent.e0 subExtent.e2 (subExtent.e4 + k)
        let destTuple := GetStartTuple outExtent outIncrements
          subExtent.e0 subExtent.e2 (subExtent.e4 + k)
        ⟨GetVoidPointer outArray (destTuple * components),
         GetVoidPointer inArray (sourceTuple * components),
         sliceTuples * tupleSize⟩
  else
    -- Copy a row at a time.
    let rowTuples := subDimensions.v0
    (List.range subDimensions.v2.toNat).flatMap fun (k : Nat) =>
      (List.range subDimensions.v1.toNat).map fun (j : Nat) =>
        let sourceTuple := GetStartTuple inExtent inIncrements
          subExtent.e0 (subExtent.e2 + j) (subExtent.e4 + k)
        let destTuple := GetStartTuple outExtent outIncrements
          subExtent.e0 (subExtent.e2 + j) (subExtent.e4 + k)
        ⟨GetVoidPointer outArray (destTuple * components),
         GetVoidPointer inArray (sourceTuple * components),
         rowTuples * tupleSize⟩

/-- `vtkXMLPStructuredDataReader::CopySubExtent`: the new contents of
`outArray`, or `none` when a copy leaves one of the two buffers. -/
def CopySubExtent (inExtent : Extent) (inDimensions inIncrements : Int3)
    (outExtent : Extent) (outDimensions outIncrements : Int3)
    (subExtent : Extent) (subDimensions : Int3)
    (inArray outArray : vtkDataArray) : Option vtkDataArray :=
  (runCopies inArray.data
    (CopySubExtentCalls inExtent inDimensions inIncrements outExtent outDimensions
      outIncrements subExtent subDimensions inArray outArray) outArray.data).map
    fun bytes => { outArray with data := bytes }

/-! ## Vocabulary of the contract -/

/-- Every index of `inner` is an index of `outer`, axis by axis. -/
def Extent.Contains (outer inner : Extent) : Prop :=
  outer.e0 ≤ inner.e0 ∧ inner.e1 ≤ outer.e1 ∧
  outer.e2 ≤ inner.e2 ∧ inner.e3 ≤ outer.e3 ∧
  outer.e4 ≤ inner.e4 ∧ inner.e5 ≤ outer.e5

instance (outer inner : Extent) : Decidable (outer.Contains inner) := by
  unfold Extent.Contains; infer_instance

/-- A non-empty extent: `lo ≤ hi` on every axis. -/
def Extent.NonEmpty (e : Extent) : Prop :=
  e.e0 ≤ e.e1 ∧ e.e2 ≤ e.e3 ∧ e.e4 ≤ e.e5

instance (e : Extent) : Decidable e.NonEmpty := by
  unfold Extent.NonEmpty; infer_instance

/-- The tuple index `(x, y, z)` belongs to the extent in the given addressing
mode: `lo ≤ x < lo + dim` on every axis (points `lo .. hi`, cells `lo .. hi-1`). -/
def Extent.HasIndex (e : Extent) (isPoint : Bool) (x y z : Int) : Prop :=
  e.e0 ≤ x ∧ x < e.e0 + (ComputeDimensions e isPoint).v0 ∧
  e.e2 ≤ y ∧ y < e.e2 + (ComputeDimensions e isPoint).v1 ∧
  e.e4 ≤ z ∧ z < e.e4 + (ComputeDimensions e isPoint).v2

instance (e : Extent) (isPoint : Bool) (x y z : Int) : Decidable (e.HasIndex isPoint x y z) := by
  unfold Extent.HasIndex; infer_instance

/-- Number of tuples of an array laid out over the extent. -/
def Extent.volume (e : Extent) (isPoint : Bool) : Int :=
  (ComputeDimensions e isPoint).v0 * (ComputeDimensions e isPoint).v1 *
    (ComputeDimensions e isPoint).v2

/-- Bytes of one tuple: component byte width times component count. -/
def vtkDataArray.tupleSize (a : vtkDataArray) : Nat :=
  a.DataTypeSize * a.NumberOfComponents

/-- The array holds exactly the tuples of the extent. -/
def vtkDataArray.Covers (a : vtkDataArray) (e : Extent) (isPoint : Bool) : Prop :=
  (a.data.length : Int) = e.volume isPoint * (a.tupleSize : Int)

instance (a : vtkDataArray) (e : Extent) (isPoint : Bool) : Decidable (a.Covers e isPoint) := by
  unfold vtkDataArray.Covers; infer_instance

/-- The bytes of tuple number `t`. -/
def vtkDataArray.tuple (a : vtkDataArray) (t : Int) : List Nat :=
  (a.data.drop (t * (a.tupleSize : Int)).toNat).take a.tupleSize

/-- The region spans the source extent wherever the copy takes a contiguous
shortcut: on axes 0 and 1 when source and destination dimensions agree there,
and on axis 2 as well when they agree on all three axes.  It holds in
particular when the source extent is the region itself. -/
def SpansFastAxes (inExtent : Extent) (inDimensions outDimensions : Int3)
    (subExtent : Extent) : Prop :=
  (inDimensions.v0 = outDimensions.v0 ∧ inDimensions.v1 = outDimensions.v1 →
    subExtent.e0 = inExtent.e0 ∧ subExtent.e1 = inExtent.e1 ∧
    subExtent.e2 = inExtent.e2 ∧ subExtent.e3 = inExtent.e3) ∧
  (inDimensions.v0 = outDimensions.v0 ∧ inDimensions.v1 = outDimensions.v1 ∧
    inDimensions.v2 = outDimensions.v2 →
    subExtent.e4 = inExtent.e4 ∧ subExtent.e5 = inExtent.e5)

instance (inExtent : Extent) (inDimensions outDimensions : Int3) (subExtent : Extent) :
    Decidable (SpansFastAxes inExtent inDimensions outDimensions subExtent) := by
  unfold SpansFastAxes; infer_instance

/-- The counts of the two contiguous shortcuts are formed without wrap-around:
where source and destination dimensions agree on all three axes, the source
volume has fewer than 2^32 bytes (the `unsigned int` byte count); where they
agree on axes 0 and 1 only, a source slice has fewer than 2^31 tuples (the
`int` product). -/
def ShortcutCountsFit (inDimensions outDimensions : Int3) (inArray : vtkDataArray) : Prop :=
  (inDimensions.v0 = outDimensions.v0 ∧ inDimensions.v1 = outDimensions.v1 ∧
      inDimensions.v2 = outDimensions.v2 →
    inDimensions.v0 * inDimensions.v1 * inDimensions.v2 * (inArray.tupleSize : Int) <
      4294967296) ∧
  (inDimensions.v0 = outDimensions.v0 ∧ inDimensions.v1 = outDimensions.v1 ∧
      inDimensions.v2 ≠ outDimensions.v2 →
    inDimensions.v0 * inDimensions.v1 < 2147483648)

instance (inDimensions outDimensions : Int3) (inArray : vtkDataArray) :
    Decidable (ShortcutCountsFit inDimensions outDimensions inArray) := by
  unfold ShortcutCountsFit; infer_instance

/-- `CopySubExtent` as the reader calls it: dimensions and increments of the
three extents computed in one addressing mode (`CopyArrayForPoints` with
`isPoint = true`, `CopyArrayForCells` with `isPoint = false`). -/
def copyRegion (isPoint : Bool) (inExtent outExtent subExtent : Extent)
    (inArray outArray : vtkDataArray) : Option vtkDataArray :=
  CopySubExtent inExtent (ComputeDimensions inExtent isPoint)
    (ComputeIncrements inExtent isPoint)
    outExtent (ComputeDimensions outExtent isPoint) (ComputeIncrements outExtent isPoint)
    subExtent (ComputeDimensions subExtent isPoint) inArray outArray

/-- The summand that turns `hi - lo` into a dimension: 1 for points, 0 for cells. -/
def modeOffset (isPoint : Bool) : Int :=
  if isPoint then 1 else 0

/-- What a correct block copy looks like, tuple by tuple: the call moves `n`
whole tuples from source tuple `sT` to destination tuple `dT`, inside both
arrays, and every destination index it covers is an index of the region that
receives the source tuple of the same index. -/
def CopiesRegionTuples (isPoint : Bool) (inE outE subE : Extent) (ts : Int)
    (c : MemcpyCall) : Prop :=
  ∃ dT sT n : Int,
    c = ⟨dT * ts, sT * ts, n * ts⟩ ∧
    0 ≤ n ∧ 0 ≤ sT ∧ sT + n ≤ inE.volume isPoint ∧ 0 ≤ dT ∧ dT + n ≤ outE.volume isPoint ∧
    ∀ x y z : Int, outE.HasIndex isPoint x y z →
      dT ≤ GetStartTuple outE (ComputeIncrements outE isPoint) x y z →
      GetStartTuple outE (ComputeIncrements outE isPoint) x y z < dT + n →
      subE.HasIndex isPoint x y z ∧
        sT + (GetStartTuple outE (ComputeIncrements outE isPoint) x y z - dT) =
          GetStartTuple inE (ComputeIncrements inE isPoint) x y z

/-- The call covers destination tuple `t`. -/
def CoversTuple (ts : Int) (t : Int) (c : MemcpyCall) : Prop :=
  ∃ dT n : Int, c.dest = dT * ts ∧ c.count = n * ts ∧ dT ≤ t ∧ t < dT + n

/-! ## The reader -/

/-- The extent `(0,-1, 0,-1, 0,-1)`: empty on every axis. -/
def emptyExtent : Extent := ⟨0, -1, 0, -1, 0, -1⟩

/-- The state of a `vtkExtentSplitter` that the reader observes: the
registered sources `(id, priority, extent)` in registration order, the
extents queued for splitting, and the computed sub-extents with the id of
their source (negative: no source). -/
structure vtkExtentSplitter where
  Sources : List (Int × Int × Extent)
  Queue : List Extent
  SubExtents : List (Extent × Int)
deriving DecidableEq, Repr

/-- Modelled from the spec: `vtkExtentSplitter::RemoveAllExtentSources` lies
outside the file verified here; it is the splitter's `reset()`. -/
def vtkExtentSplitter.RemoveAllExtentSources (_s : vtkExtentSplitter) : vtkExtentSplitter :=
  ⟨[], [], []⟩

/-- Modelled from the spec: `vtkExtentSplitter::AddExtentSource` lies outside
the file verified here; `addSource(id, extent)` registers a piece's coverage, the
last registration of an id winning. -/
def vtkExtentSplitter.AddExtentSource (s : vtkExtentSplitter) (id priority : Int)
    (extent : Extent) : vtkExtentSplitter :=
  { s with Sources := s.Sources.filter (fun src => src.1 ≠ id) ++ [(id, priority, extent)] }

/-- Modelled from the spec: `vtkExtentSplitter::AddExtent` lies outside the
file verified here; `addRequest(extent)` adds a region that must be covered. -/
def vtkExtentSplitter.AddExtent (s : vtkExtentSplitter) (extent : Extent) :
    vtkExtentSplitter :=
  { s with Queue := s.Queue ++ [extent] }

/-- Modelled from the spec: `vtkExtentSplitter::ComputeSubExtents` lies outside
the file verified here.  The partition algorithm is the parameter `split`;
`compute()` stores the full list, boxes without source included, and reports
partial coverage (0) exactly when some box has no source. -/
def vtkExtentSplitter.ComputeSubExtents
    (split : List (Int × Int × Extent) → List Extent → List (Extent × Int))
    (s : vtkExtentSplitter) : vtkExtentSplitter × Int :=
  let subs := split s.Sources s.Queue
  ({ s with Queue := [], SubExtents := subs }, if subs.any (fun e => e.2 < 0) then 0 else 1)

/-- Number of computed sub-extents, `GetNumberOfSubExtents`. -/
def vtkExtentSplitter.GetNumberOfSubExtents (s : vtkExtentSplitter) : Int :=
  s.SubExtents.length

/-- Source id of sub-extent `i`, `GetSubExtentSource`. -/
def vtkExtentSplitter.GetSubExtentSource (s : vtkExtentSplitter) (i : Nat) : Int :=
  (s.SubExtents.getD i (emptyExtent, -1)).2

/-- Sub-extent `i`, `GetSubExtent`. -/
def vtkExtentSplitter.GetSubExtent (s : vtkExtentSplitter) (i : Nat) : Extent :=
  (s.SubExtents.getD i (emptyExtent, -1)).1

/-- What the reader does to its collaborators while reading pieces. -/
inductive Event where
  /-- `input->SetUpdateExtent(SubExtent); input->Update()` on the piece. -/
  | UpdatePiece (piece : Int) (subExtent : Extent)
  /-- `Superclass::ReadPieceData()`: the arrays the piece delivered over
  `subPieceExtent` are copied into the output for the region `subExtent`. -/
  | CopyPiece (piece : Int) (subExtent subPieceExtent : Extent)
deriving DecidableEq, Repr

/-- The members of the reader that this file reads or writes, the extent last
passed to `SetOutputExtent`, and the log of piece reads. -/
structure Reader where
  NumberOfPieces : Int
  Piece : Int
  DataError : Int
  AbortExecute : Int
  UpdateExtent : Extent
  PointDimensions : Int3
  PointIncrements : Int3
  CellDimensions : Int3
  CellIncrements : Int3
  SubExtent : Extent
  SubPointDimensions : Int3
  SubCellDimensions : Int3
  SubPieceExtent : Extent
  SubPiecePointDimensions : Int3
  SubPiecePointIncrements : Int3
  SubPieceCellDimensions : Int3
  SubPieceCellIncrements : Int3
  ExtentSplitter : vtkExtentSplitter
  OutputExtent : Extent
  Log : List Event
deriving DecidableEq, Repr

/-- The collaborators of the reader, whose code lies outside the file verified
here: the output data set, the piece readers, the partition algorithm of the
splitter, the abort signal and the superclass. -/
structure Collaborators where
  /-- `GetOutputAsDataSet(0)->GetUpdateExtent`. -/
  GetUpdateExtent : Extent
  /-- `CanReadPiece(i)`. -/
  CanReadPiece : Int → Bool
  /-- Whole extent of piece `i` after `UpdateInformation()`. -/
  PieceWholeExtent : Int → Extent
  /-- The partition algorithm of `vtkExtentSplitter::ComputeSubExtents`. -/
  split : List (Int × Int × Extent) → List Extent → List (Extent × Int)
  /-- `GetPieceInputExtent`: the extent the piece delivered when asked for an extent. -/
  PieceInputExtent : Int → Extent → Extent
  /-- The abort signal is raised while the piece updates for the extent. -/
  AbortDuringUpdate : Int → Extent → Bool
  /-- The abort signal is raised while the superclass copies the piece's arrays. -/
  AbortDuringCopy : Int → Extent → Bool
  /-- Return value of `Superclass::ReadPieceData()` for the piece and extent. -/
  SuperclassReadPieceData : Int → Extent → Int

/-- A reader before any request, with no piece and an empty log. -/
def Reader.initial : Reader where
  NumberOfPieces := 0
  Piece := 0
  DataError := 0
  AbortExecute := 0
  UpdateExtent := emptyExtent
  PointDimensions := ⟨0, 0, 0⟩
  PointIncrements := ⟨0, 0, 0⟩
  CellDimensions := ⟨0, 0, 0⟩
  CellIncrements := ⟨0, 0, 0⟩
  SubExtent := emptyExtent
  SubPointDimensions := ⟨0, 0, 0⟩
  SubCellDimensions := ⟨0, 0, 0⟩
  SubPieceExtent := emptyExtent
  SubPiecePointDimensions := ⟨0, 0, 0⟩
  SubPiecePointIncrements := ⟨0, 0, 0⟩
  SubPieceCellDimensions := ⟨0, 0, 0⟩
  SubPieceCellIncrements := ⟨0, 0, 0⟩
  ExtentSplitter := ⟨[], [], []⟩
  OutputExtent := emptyExtent
  Log := []

/-- `vtkXMLPStructuredDataReader::CopyArrayForPoints`; a null array is `none`.
The result is the destination array afterwards, `none` when a copy leaves a
buffer. -/
def CopyArrayForPoints (r : Reader) (inArray outArray : Option vtkDataArray) :
    Option (Option vtkDataArray) :=
  match inArray, outArray with
  | some i, some o =>
    (CopySubExtent r.SubPieceExtent r.SubPiecePointDimensions r.SubPiecePointIncrements
      r.UpdateExtent r.PointDimensions r.PointIncrements r.SubExtent r.SubPointDimensions
      i o).map some
  | _, o => some o

/-- `vtkXMLPStructuredDataReader::CopyArrayForCells`; a null array is `none`.
The result is the destination array afterwards, `none` when a copy leaves a
buffer. -/
def CopyArrayForCells (r : Reader) (inArray outArray : Option vtkDataArray) :
    Option (Option vtkDataArray) :=
  match inArray, outArray with
  | some i, some o =>
    (CopySubExtent r.SubPieceExtent r.SubPieceCellDimensions r.SubPieceCellIncrements
      r.UpdateExtent r.CellDimensions r.CellIncrements r.SubExtent r.SubCellDimensions
      i o).map some
  | _, o => some o

/-- The dimension and increment members as `ReadXMLData` (update extent, sub-extent)
and `ReadPieceData` (delivered piece extent) compute them. -/
def Reader.withExtents (r : Reader) (update sub subPiece : Extent) : Reader :=
  { r with
    UpdateExtent := update
    PointDimensions := ComputeDimensions update true
    PointIncrements := ComputeIncrements update true
    CellDimensions := ComputeDimensions update false
    CellIncrements := ComputeIncrements update false
    SubExtent := sub
    SubPointDimensions := ComputeDimensions sub true
    SubCellDimensions := ComputeDimensions sub false
    SubPieceExtent := subPiece
    SubPiecePointDimensions := ComputeDimensions subPiece true
    SubPiecePointIncrements := ComputeIncrements subPiece true
    SubPieceCellDimensions := ComputeDimensions subPiece false
    SubPieceCellIncrements := ComputeIncrements subPiece false }

/-- `vtkXMLPStructuredDataReader::ComputePieceSubExtents`: the reader with its
splitter updated, and the return value. -/
def ComputePieceSubExtents (env : Collaborators) (r : Reader) : Reader × Int :=
  -- Reset the extent splitter.
  let s0 := r.ExtentSplitter.RemoveAllExtentSources
  -- Add each readable piece as an extent source.
  let s1 := (List.range r.NumberOfPieces.toNat).foldl
    (fun s (i : Nat) =>
      if env.CanReadPiece i then s.AddExtentSource i 0 (env.PieceWholeExtent i) else s) s0
  -- We want to split the entire update extent across the pieces.
  let s2 := s1.AddExtent r.UpdateExtent
  -- Compute the sub-extents.
  let res := s2.ComputeSubExtents env.split
  if res.2 = 0 then
    -- A portion of the extent is not available.
    ({ r with ExtentSplitter := res.1 }, 0)
  else
    ({ r with ExtentSplitter := res.1 }, 1)

/-- `vtkXMLPStructuredDataReader::ReadPieceData()`: the reader afterwards and
the return value. -/
def ReadPieceData (env : Collaborators) (r : Reader) : Reader × Int :=
  -- Use the internal reader to read the piece.
  let r1 := { r with
    Log := r.Log ++ [Event.UpdatePiece r.Piece r.SubExtent]
    AbortExecute := if env.AbortDuringUpdate r.Piece r.SubExtent then 1 else r.AbortExecute }
  -- Skip rest of read if aborting.
  if r1.AbortExecute ≠ 0 then
    (r1, 0)
  else
    -- Get the actual portion of the piece that was read.
    let subPieceExtent := env.PieceInputExtent r1.Piece r1.SubExtent
    let r2 := { r1 with
      SubPieceExtent := subPieceExtent
      SubPiecePointDimensions := ComputeDimensions subPieceExtent true
      SubPiecePointIncrements := ComputeIncrements subPieceExtent true
      SubPieceCellDimensions := ComputeDimensions subPieceExtent false
      SubPieceCellIncrements := ComputeIncrements subPieceExtent false }
    -- Let the superclass read the data it wants.
    let r3 := { r2 with
      Log := r2.Log ++ [Event.CopyPiece r2.Piece r2.SubExtent r2.SubPieceExtent]
      AbortExecute := if env.AbortDuringCopy r2.Piece r2.SubExtent then 1 else r2.AbortExecute }
    (r3, env.SuperclassReadPieceData r3.Piece r3.SubExtent)

/-- Modelled from the spec: `Superclass::ReadPieceData(int)` lies outside the
file verified here.  For each sub-extent the coordinator selects the source piece
and runs the piece read of this class (`ReadPieceData()`), whose result it
returns. -/
def SuperclassReadPieceData (env : Collaborators) (piece : Int) (r : Reader) : Reader × Int :=
  ReadPieceData env { r with Piece := piece }

/-- The body of the read loop of `ReadXMLData` for sub-extent `i`. -/
def readStep (env : Collaborators) (i : Nat) (r : Reader) : Reader :=
  -- Get this sub-extent and the piece from which to read it.
  let piece := r.ExtentSplitter.GetSubExtentSource i
  let subExtent := r.ExtentSplitter.GetSubExtent i
  let r1 := { r with
    SubExtent := subExtent
    SubPointDimensions := ComputeDimensions subExtent true
    SubCellDimensions := ComputeDimensions subExtent false }
  -- Read the data from this piece.
  let res := SuperclassReadPieceData env piece r1
  if res.2 = 0 then
    -- An error occurred while reading the piece.
    { res.1 with DataError := 1 }
  else
    res.1

/-- The read loop `for(i=0;(i < n && !AbortExecute && !DataError);++i)` over
the indices still to visit. -/
def readLoop (env : Collaborators) : List Nat → Reader → Reader
  | [], r => r
  | i :: rest, r =>
    if r.AbortExecute = 0 ∧ r.DataError = 0 then readLoop env rest (readStep env i r) else r

/-- The start of `ReadXMLData`: the requested update extent and its
dimensions and increments. -/
def prepareUpdate (env : Collaborators) (r : Reader) : Reader :=
  { r with
    UpdateExtent := env.GetUpdateExtent
    PointDimensions := ComputeDimensions env.GetUpdateExtent true
    PointIncrements := ComputeIncrements env.GetUpdateExtent true
    CellDimensions := ComputeDimensions env.GetUpdateExtent false
    CellIncrements := ComputeIncrements env.GetUpdateExtent false }

/-- `vtkXMLPStructuredDataReader::ReadXMLData`.  The superclass call allocates
the output and the progress calls report the fractions of
`progressFractions`; neither touches a member modelled here. -/
def ReadXMLData (env : Collaborators) (r : Reader) : Reader :=
  let r1 := prepareUpdate env r
  -- Use the ExtentSplitter to split the update extent into sub-extents.
  let res := ComputePieceSubExtents env r1
  if res.2 = 0 then
    -- Not all needed data are available.
    { res.1 with DataError := 1 }
  else
    let n := res.1.ExtentSplitter.GetNumberOfSubExtents
    -- Read the data needed from each sub-extent.
    let r2 := readLoop env (List.range n.toNat) res.1
    -- We filled the exact update extent in the output.
    { r2 with OutputExtent := r2.UpdateExtent }

/-- The cumulative progress fractions of `ReadXMLData`: the array `fractions`
after the accumulation loop, the guard against a zero total and the
normalisation loop.  The volume of a sub-extent is the `int` product
`pieceDims[0]*pieceDims[1]*pieceDims[2]`; the `float` array holding the sums
and quotients is taken as exact rationals. -/
def progressFractions (s : vtkExtentSplitter) : List ℚ :=
  let n := s.GetNumberOfSubExtents.toNat
  -- float* fractions = new float[n+1]; fractions[0] = 0;
  let fractions0 : List ℚ := (List.replicate (n + 1) 0).set 0 0
  let fractions1 := (List.range n).foldl
    (fun (fractions : List ℚ) (i : Nat) =>
      -- Add this sub-extent's volume to the cumulative volume.
      let pieceDims := ComputeDimensions (s.GetSubExtent i) true
      fractions.set (i + 1)
        (fractions.getD i 0 + ((mulInt (mulInt pieceDims.v0 pieceDims.v1) pieceDims.v2 : Int) : ℚ)))
    fractions0
  let fractions2 := if fractions1.getD n 0 = 0 then fractions1.set n 1 else fractions1
  (List.range' 1 n).foldl
    (fun (fractions : List ℚ) (i : Nat) =>
      fractions.set i (fractions.getD i 0 / fractions.getD n 0))
    fractions2

/-- Sum of the point volumes of the first `i` sub-extents. -/
def volumeSum (s : vtkExtentSplitter) (i : Nat) : Int :=
  ((s.SubExtents.take i).map fun e => e.1.volume true).sum

/-! ## Scenarios -/

/-- The scenario of the spec with partial coverage: the request is the plane
`[0,9][0,9][0,0]`, the only piece covers `[0,4][0,9][0,0]`, and the splitter
answers with that half from piece 0 and the other half without source. -/
def halfCoverage : Collaborators where
  GetUpdateExtent := ⟨0, 9, 0, 9, 0, 0⟩
  CanReadPiece := fun _ => true
  PieceWholeExtent := fun _ => ⟨0, 4, 0, 9, 0, 0⟩
  split := fun sources queue =>
    if sources = [(0, 0, ⟨0, 4, 0, 9, 0, 0⟩)] ∧ queue = [⟨0, 9, 0, 9, 0, 0⟩] then
      [(⟨0, 4, 0, 9, 0, 0⟩, 0), (⟨5, 9, 0, 9, 0, 0⟩, -1)]
    else []
  PieceInputExtent := fun _ e => e
  AbortDuringUpdate := fun _ _ => false
  AbortDuringCopy := fun _ _ => false
  SuperclassReadPieceData := fun _ _ => 1

/-- One piece covers the whole request `[0,9][0,9][0,0]` and reads without
error, but the abort signal is raised while the piece updates. -/
def abortDuringUpdate : Collaborators where
  GetUpdateExtent := ⟨0, 9, 0, 9, 0, 0⟩
  CanReadPiece := fun _ => true
  PieceWholeExtent := fun _ => ⟨0, 9, 0, 9, 0, 0⟩
  split := fun _ _ => [(⟨0, 9, 0, 9, 0, 0⟩, 0)]
  PieceInputExtent := fun _ e => e
  AbortDuringUpdate := fun _ _ => true
  AbortDuringCopy := fun _ _ => false
  SuperclassReadPieceData := fun _ _ => 1

/-- The request is `[1,2]` on axis 0; piece 0 holds `[0,1]` and piece 1 holds
`[2,3]`, the splitter takes `[2,2]` from piece 1 and `[1,1]` from piece 0, and
each piece delivers its whole extent whatever part of it was asked for. -/
def deliversWholePiece : Collaborators where
  GetUpdateExtent := ⟨1, 2, 0, 0, 0, 0⟩
  CanReadPiece := fun _ => true
  PieceWholeExtent := fun i => if i = 0 then ⟨0, 1, 0, 0, 0, 0⟩ else ⟨2, 3, 0, 0, 0, 0⟩
  split := fun _ _ => [(⟨2, 2, 0, 0, 0, 0⟩, 1), (⟨1, 1, 0, 0, 0, 0⟩, 0)]
  PieceInputExtent := fun i _ => if i = 0 then ⟨0, 1, 0, 0, 0, 0⟩ else ⟨2, 3, 0, 0, 0, 0⟩
  AbortDuringUpdate := fun _ _ => false
  AbortDuringCopy := fun _ _ => false
  SuperclassReadPieceData := fun _ _ => 1

/-- The naive copy of the claim, stated from its words: one `memcpy` of a
single tuple for every index `(x, y, z)` of the region, from the source offset
`GetStartTuple(inExtent, ..)` to the destination offset
`GetStartTuple(outExtent, ..)`. -/
def naiveCopyCalls (isPoint : Bool) (inExtent outExtent subExtent : Extent)
    (inArray outArray : vtkDataArray) : List MemcpyCall :=
  let subDimensions := ComputeDimensions subExtent isPoint
  let components : Int := inArray.NumberOfComponents
  let tupleSize : Int := (inArray.DataTypeSize : Int) * components
  (List.range subDimensions.v2.toNat).flatMap fun (k : Nat) =>
    (List.range subDimensions.v1.toNat).flatMap fun (j : Nat) =>
      (List.range subDimensions.v0.toNat).map fun (i : Nat) =>
        let sourceTuple := GetStartTuple inExtent (ComputeIncrements inExtent isPoint)
          (subExtent.e0 + i) (subExtent.e2 + j) (subExtent.e4 + k)
        let destTuple := GetStartTuple outExtent (ComputeIncrements outExtent isPoint)
          (subExtent.e0 + i) (subExtent.e2 + j) (subExtent.e4 + k)
        ⟨GetVoidPointer outArray (destTuple * components),
         GetVoidPointer inArray (sourceTuple * components),
         1 * tupleSize⟩

/-- The destination after the naive tuple-by-tuple copy, `none` when a copy
leaves one of the two buffers. -/
def naiveCopy (isPoint : Bool) (inExtent outExtent subExtent : Extent)
    (inArray outArray : vtkDataArray) : Option vtkDataArray :=
  (runCopies inArray.data
    (naiveCopyCalls isPoint inExtent outExtent subExtent inArray outArray) outArray.data).map
    fun bytes => { outArray with data := bytes }

/-- Three pieces split the row `[0,9]`, piece 1 cannot be read, and the
splitter covers the request `[0,5]` from pieces 0 and 2. -/
def unreadablePiece : Collaborators where
  GetUpdateExtent := ⟨0, 5, 0, 0, 0, 0⟩
  CanReadPiece := fun i => i ≠ 1
  PieceWholeExtent := fun i => if i = 0 then ⟨0, 3, 0, 0, 0, 0⟩ else ⟨3, 9, 0, 0, 0, 0⟩
  split := fun sources queue =>
    if sources = [(0, 0, ⟨0, 3, 0, 0, 0, 0⟩), (2, 0, ⟨3, 9, 0, 0, 0, 0⟩)] ∧
        queue = [⟨0, 5, 0, 0, 0, 0⟩] then
      [(⟨0, 3, 0, 0, 0, 0⟩, 0), (⟨4, 5, 0, 0, 0, 0⟩, 2)]
    else []
  PieceInputExtent := fun _ e => e
  AbortDuringUpdate := fun _ _ => false
  AbortDuringCopy := fun _ _ => false
  SuperclassReadPieceData := fun _ _ => 1

/-- The piece reads attempted according to a log: the piece and the
sub-extent of every `UpdatePiece` event, in order. -/
def attemptedReads (log : List Event) : List (Int × Extent) :=
  log.filterMap fun ev =>
    match ev with
    | Event.UpdatePiece piece subExtent => some (piece, subExtent)
    | Event.CopyPiece _ _ _ => none

/-- The pieces copied into the output according to a log: the piece and the
sub-extent of every `CopyPiece` event, in order. -/
def copiedReads (log : List Event) : List (Int × Extent) :=
  log.filterMap fun ev =>
    match ev with
    | Event.UpdatePiece _ _ => none
    | Event.CopyPiece piece subExtent _ => some (piece, subExtent)

/-- The value that the piece read of loop round `i` returns to `ReadXMLData`. -/
def readReturn (env : Collaborators) (i : Nat) (r : Reader) : Int :=
  (SuperclassReadPieceData env (r.ExtentSplitter.GetSubExtentSource i)
    { r with
      SubExtent := r.ExtentSplitter.GetSubExtent i
      SubPointDimensions := ComputeDimensions (r.ExtentSplitter.GetSubExtent i) true
      SubCellDimensions := ComputeDimensions (r.ExtentSplitter.GetSubExtent i) false }).2

/-- Two pieces cover the two halves of the request `[0,9][0,9][0,0]` and the
splitter assigns each half to its piece, but the read of piece 0 fails. -/
def firstReadFails : Collaborators where
  GetUpdateExtent := ⟨0, 9, 0, 9, 0, 0⟩
  CanReadPiece := fun _ => true
  PieceWholeExtent := fun i => if i = 0 then ⟨0, 4, 0, 9, 0, 0⟩ else ⟨5, 9, 0, 9, 0, 0⟩
  split := fun _ _ => [(⟨0, 4, 0, 9, 0, 0⟩, 0), (⟨5, 9, 0, 9, 0, 0⟩, 1)]
  PieceInputExtent := fun _ e => e
  AbortDuringUpdate := fun _ _ => false
  AbortDuringCopy := fun _ _ => false
  SuperclassReadPieceData := fun piece _ => if piece = 0 then 0 else 1

/-! ## Setting up the pieces -/

/-- The reader's `vtkTableExtentTranslator`, observed through the calls the
reader makes on it: the table size and ghost level last set, and the
`SetExtentForPiece` and `SetPieceAvailable` calls in order. -/
structure vtkTableExtentTranslator where
  NumberOfPiecesInTable : Int
  MaximumGhostLevel : Int
  ExtentForPiece : List (Int × Extent)
  PieceAvailable : List (Int × Bool)
deriving DecidableEq, Repr

/-- Records `SetNumberOfPiecesInTable(n)`. -/
def vtkTableExtentTranslator.SetNumberOfPiecesInTable (t : vtkTableExtentTranslator)
    (n : Int) : vtkTableExtentTranslator :=
  { t with NumberOfPiecesInTable := n }

/-- Records `SetMaximumGhostLevel(g)`. -/
def vtkTableExtentTranslator.SetMaximumGhostLevel (t : vtkTableExtentTranslator)
    (g : Int) : vtkTableExtentTranslator :=
  { t with MaximumGhostLevel := g }

/-- Records `SetExtentForPiece(piece, extent)`. -/
def vtkTableExtentTranslator.SetExtentForPiece (t : vtkTableExtentTranslator)
    (piece : Int) (extent : Extent) : vtkTableExtentTranslator :=
  { t with ExtentForPiece := t.ExtentForPiece ++ [(piece, extent)] }

/-- Records `SetPieceAvailable(piece, available)`. -/
def vtkTableExtentTranslator.SetPieceAvailable (t : vtkTableExtentTranslator)
    (piece : Int) (available : Bool) : vtkTableExtentTranslator :=
  { t with PieceAvailable := t.PieceAvailable ++ [(piece, available)] }

/-- An XML element as the reader sees it: for an attribute name, the integers
that `GetVectorAttribute(name, target)` stores into its target array, whose
number is its return value. -/
structure vtkXMLDataElement where
  VectorAttribute : String → List Int

/-- The members of the reader that `SetupPieces`, `ReadPiece` and
`ReadPrimaryElement` read or write, and the whole extent last given to the
output: `PieceExtents` is the array of `6*NumberOfPieces` integers. -/
structure ReaderSetup where
  NumberOfPieces : Int
  GhostLevel : Int
  Piece : Int
  PieceExtents : List Int
  ExtentTranslator : vtkTableExtentTranslator
  OutputWholeExtent : Extent
deriving DecidableEq, Repr

/-- The collaborators of the set-up functions, whose code lies outside the
file verified here. -/
structure SetupCollaborators where
  /-- Return value of `Superclass::ReadPiece(ePiece)`. -/
  SuperclassReadPiece : vtkXMLDataElement → Int
  /-- Return value of `Superclass::ReadPrimaryElement(ePrimary)`. -/
  SuperclassReadPrimaryElement : vtkXMLDataElement → Int
  /-- `CanReadPiece(i)`. -/
  CanReadPiece : Int → Bool

/-- Modelled from the spec: `Superclass::SetupPieces` lies outside the file
verified here; `setup(numPieces)` allocates `numPieces` piece descriptors, so
the reader has `numPieces` pieces afterwards. -/
def SuperclassSetupPieces (numPieces : Int) (r : ReaderSetup) : ReaderSetup :=
  { r with NumberOfPieces := numPieces }

/-- The six integers stored for piece `i`, `PieceExtents + i*6`. -/
def GetPieceExtent (r : ReaderSetup) (i : Nat) : Extent :=
  ⟨r.PieceExtents.getD (i * 6 + 0) 0, r.PieceExtents.getD (i * 6 + 1) 0,
   r.PieceExtents.getD (i * 6 + 2) 0, r.PieceExtents.getD (i * 6 + 3) 0,
   r.PieceExtents.getD (i * 6 + 4) 0, r.PieceExtents.getD (i * 6 + 5) 0⟩

/-- `vtkXMLPStructuredDataReader::SetupPieces`.  The fresh array
`new int[6*NumberOfPieces]` starts as zeros here; every entry is written
before it is read. -/
def SetupPieces (numPieces : Int) (r : ReaderSetup) : ReaderSetup :=
  let r1 := SuperclassSetupPieces numPieces r
  let translator := (r1.ExtentTranslator.SetNumberOfPiecesInTable
    r1.NumberOfPieces).SetMaximumGhostLevel r1.GhostLevel
  let pieceExtents0 : List Int := List.replicate (6 * r1.NumberOfPieces).toNat 0
  let pieceExtents := (List.range r1.NumberOfPieces.toNat).foldl
    (fun (extents : List Int) (i : Nat) =>
      (((((extents.set (i * 6 + 0) 0).set (i * 6 + 1) (-1)).set (i * 6 + 2) 0).set
        (i * 6 + 3) (-1)).set (i * 6 + 4) 0).set (i * 6 + 5) (-1))
    pieceExtents0
  { r1 with ExtentTranslator := translator, PieceExtents := pieceExtents }

/-- Stores integers into an array from position `start` on. -/
def writeInts : List Int → Nat → List Int → List Int
  | array, _, [] => array
  | array, start, v :: vs => writeInts (array.set start v) (start + 1) vs

/-- `vtkXMLPStructuredDataReader::ReadPiece`: the reader afterwards and the
return value. -/
def ReadPiece (env : SetupCollaborators) (ePiece : vtkXMLDataElement) (r : ReaderSetup) :
    ReaderSetup × Int :=
  -- Superclass will create a reader for the piece's file.
  if env.SuperclassReadPiece ePiece = 0 then (r, 0)
  else
    -- Get the extent of the piece.
    let values := ePiece.VectorAttribute "Extent"
    let r1 := { r with PieceExtents := writeInts r.PieceExtents (r.Piece * 6).toNat values }
    if (values.length : Int) < 6 then
      (r1, 0)
    else
      -- Set this table entry in the extent translator.
      let pieceExtent := GetPieceExtent r1 r1.Piece.toNat
      let translator := (r1.ExtentTranslator.SetExtentForPiece r1.Piece
        pieceExtent).SetPieceAvailable r1.Piece (env.CanReadPiece r1.Piece)
      ({ r1 with ExtentTranslator := translator }, 1)

/-- `vtkXMLPStructuredDataReader::ReadPrimaryElement`: the reader afterwards
and the return value. -/
def ReadPrimaryElement (env : SetupCollaborators) (ePrimary : vtkXMLDataElement)
    (r : ReaderSetup) : ReaderSetup × Int :=
  if env.SuperclassReadPrimaryElement ePrimary = 0 then (r, 0)
  else
    -- Read information about the structured data.
    let extent := ePrimary.VectorAttribute "WholeExtent"
    if (extent.length : Int) < 6 then
      (r, 0)
    else
      ({ r with OutputWholeExtent :=
          ⟨extent.getD 0 0, extent.getD 1 0, extent.getD 2 0, extent.getD 3 0,
            extent.getD 4 0, extent.getD 5 0⟩ }, 1)

/-- A reader before `SetupPieces`. -/
def ReaderSetup.initial : ReaderSetup where
  NumberOfPieces := 0
  GhostLevel := 0
  Piece := 0
  PieceExtents := []
  ExtentTranslator := ⟨0, 0, [], []⟩
  OutputWholeExtent := emptyExtent

/-- Collaborators for which the superclass calls succeed and every piece can
be read. -/
def setupSucceeds : SetupCollaborators where
  SuperclassReadPiece := fun _ => 1
  SuperclassReadPrimaryElement := fun _ => 1
  CanReadPiece := fun _ => true

/-! ## `ParseColorNames` of the named-colour test -/

/-- The linefeed character, the delimiter `"\n"`. -/
def linefeed : Char := Char.ofNat 10

/-- Index of the first linefeed of a string, if any. -/
def firstLinefeed : List Char → Option Nat
  | [] => none
  | c :: cs => if c = linefeed then some 0 else (firstLinefeed cs).map (· + 1)

/-- `colorNames.find(colorDelimiter, pos)` for the one-character delimiter
`"\n"`: the index of the first linefeed at or after `pos`, `none` for `npos`. -/
def find (colorNames : List Char) (pos : Nat) : Option Nat :=
  if pos ≤ colorNames.length then (firstLinefeed (colorNames.drop pos)).map (· + pos)
  else none

/-- `colorNames.substr(pos, n)`. -/
def substr (colorNames : List Char) (pos n : Nat) : List Char :=
  (colorNames.drop pos).take n

/-- The `while(end != std::string::npos)` loop of `ParseColorNames`, run with
fuel: the values of `start` and `cn` when the loop is left, or `none` when
the fuel runs out first. -/
def parseLoop (colorNames : List Char) :
    Nat → Nat → Option Nat → List (List Char) → Option (Nat × List (List Char))
  | _, start, none, cn => some (start, cn)
  | 0, _, some _, _ => none
  | fuel + 1, start, some e, cn =>
    parseLoop colorNames fuel (e + 1) (find colorNames (e + 1))
      (cn ++ [substr colorNames start (e - start)])

/-- `ParseColorNames` of `TestNamedColors.cxx`, the loop run with
`size() + 1` rounds of fuel; `none` would mean that the fuel did not suffice. -/
def ParseColorNames (colorNames : List Char) : Option (List (List Char)) :=
  match parseLoop colorNames (colorNames.length + 1) 0 (find colorNames 0) [] with
  | none => none
  | some (start, cn) =>
    -- Get the last color.
    some (if colorNames ≠ [] then
        cn ++ [substr colorNames start (colorNames.length - start)]
      else cn)

/-- The reference split of a string at every linefeed. -/
def splitLinefeed : List Char → List (List Char)
  | [] => [[]]
  | c :: cs =>
    if c = linefeed then [] :: splitLinefeed cs
    else
      match splitLinefeed cs with
      | [] => [[c]]
      | name :: names => (c :: name) :: names

/-! ## Bounds-checked copies, byte by byte -/

theorem splice_length (dst src : List Nat) (d s n : Nat)
    (hd : d + n ≤ dst.length) (hs : s + n ≤ src.length) :
    (dst.take d ++ (src.drop s).take n ++ dst.drop (d + n)).length = dst.length := by
  simp only [List.length_append, List.length_take, List.length_drop]
  omega

theorem splice_getElem? (dst src : List Nat) (d s n i : Nat)
    (hd : d + n ≤ dst.length) (hs : s + n ≤ src.length) :
    (dst.take d ++ (src.drop s).take n ++ dst.drop (d + n))[i]? =
      if d ≤ i ∧ i < d + n then src[s + (i - d)]? else dst[i]? := by
  have hlen1 : (dst.take d).length = d := by simp only [List.length_take]; omega
  have hlen2 : ((src.drop s).take n).length = n := by
    simp only [List.length_take, List.length_drop]; omega
  by_cases h1 : i < d
  · rw [if_neg (by omega), List.append_assoc, List.getElem?_append_left (by omega),
      List.getElem?_take, if_pos h1]
  · by_cases h2 : i < d + n
    · rw [if_pos ⟨by omega, h2⟩, List.append_assoc, List.getElem?_append_right (by omega),
        List.getElem?_append_left (by omega), hlen1, List.getElem?_take, if_pos (by omega),
        List.getElem?_drop]
    · rw [if_neg (by omega), List.getElem?_append_right
          (by simp only [List.length_append, hlen1, hlen2]; omega),
        List.length_append, hlen1, hlen2, List.getElem?_drop]
      congr 1; omega

theorem memcpy_length {dst src r : List Nat} {c : MemcpyCall}
    (h : memcpy dst src c = some r) : r.length = dst.length := by
  unfold memcpy at h
  split at h
  · rename_i hb
    injection h with h
    subst h
    rcases hb with h0 | ⟨hpos, hd, hs, hsl, hdl⟩
    · rw [h0]
      simp
    · have e : (c.dest + c.count).toNat = c.dest.toNat + c.count.toNat := by omega
      rw [e]
      exact splice_length dst src _ _ _ (by omega) (by omega)
  · exact absurd h (by simp)

/-- Byte `i` of the destination after one `memcpy`. -/
theorem memcpy_getElem? {dst src r : List Nat} {c : MemcpyCall}
    (h : memcpy dst src c = some r) (i : Nat) :
    r[i]? = if c.dest ≤ (i : Int) ∧ (i : Int) < c.dest + c.count then
      src[(c.src + ((i : Int) - c.dest)).toNat]? else dst[i]? := by
  unfold memcpy at h
  split at h
  · rename_i hb
    injection h with h
    subst h
    rcases hb with h0 | ⟨hpos, hd, hs, hsl, hdl⟩
    · rw [h0, if_neg (by omega)]
      simp
    · have e : (c.dest + c.count).toNat = c.dest.toNat + c.count.toNat := by omega
      rw [e, splice_getElem? dst src _ _ _ i (by omega) (by omega)]
      by_cases hc : c.dest ≤ (i : Int) ∧ (i : Int) < c.dest + c.count
      · rw [if_pos hc, if_pos (by omega)]
        congr 1; omega
      · rw [if_neg hc, if_neg (by omega)]
  · exact absurd h (by simp)

theorem memcpy_isSome {dst src : List Nat} {c : MemcpyCall}
    (h : c.InBounds src.length dst.length) : ∃ r, memcpy dst src c = some r := by
  unfold memcpy
  rw [if_pos h]
  exact ⟨_, rfl⟩

theorem runCopies_nil (src dst : List Nat) : runCopies src [] dst = some dst := rfl

theorem runCopies_cons (src dst : List Nat) (c : MemcpyCall) (cs : List MemcpyCall) :
    runCopies src (c :: cs) dst = (memcpy dst src c).bind (runCopies src cs) := by
  unfold runCopies
  rw [List.foldlM_cons]
  rfl

theorem runCopies_length {src : List Nat} {cs : List MemcpyCall} :
    ∀ {dst r : List Nat}, runCopies src cs dst = some r → r.length = dst.length := by
  induction cs with
  | nil =>
    intro dst r h
    rw [runCopies_nil] at h
    injection h with h
    rw [h]
  | cons c cs ih =>
    intro dst r h
    rw [runCopies_cons] at h
    cases hm : memcpy dst src c with
    | none => rw [hm] at h; exact absurd h (by simp)
    | some d1 =>
      rw [hm] at h
      rw [ih h, memcpy_length hm]

/-- Copies that all stay within the two buffers run to completion. -/
theorem runCopies_isSome {src : List Nat} {cs : List MemcpyCall} :
    ∀ {dst : List Nat}, (∀ c ∈ cs, c.InBounds src.length dst.length) →
      ∃ r, runCopies src cs dst = some r := by
  induction cs with
  | nil => intro dst _; exact ⟨dst, rfl⟩
  | cons c cs ih =>
    intro dst h
    obtain ⟨d1, hd1⟩ := memcpy_isSome (h c (List.mem_cons_self _ _))
    have hl := memcpy_length hd1
    obtain ⟨r, hr⟩ := @ih d1 (fun c' hc' => by
      rw [hl]; exact h c' (List.mem_cons_of_mem _ hc'))
    exact ⟨r, by rw [runCopies_cons, hd1]; exact hr⟩

/-- A run that completes issued only calls within bounds. -/
theorem runCopies_inBounds {src : List Nat} {cs : List MemcpyCall} :
    ∀ {dst r : List Nat}, runCopies src cs dst = some r →
      ∀ c ∈ cs, c.InBounds src.length dst.length := by
  induction cs with
  | nil => intro dst r _ c hc; exact absurd hc (List.not_mem_nil _)
  | cons c cs ih =>
    intro dst r h c' hc'
    rw [runCopies_cons] at h
    cases hm : memcpy dst src c with
    | none => rw [hm] at h; exact absurd h (by simp)
    | some d1 =>
      rw [hm] at h
      rcases List.mem_cons.mp hc' with rfl | hin
      · unfold memcpy at hm
        by_contra hb
        rw [if_neg hb] at hm
        exact absurd hm (by simp)
      · have := ih h c' hin
        rwa [memcpy_length hm] at this

/-- Byte `i` after a run of copies: if every call that writes byte `i` writes
the value `v` there, the byte is `v`, unless no call writes it at all and it
keeps its old value. -/
theorem runCopies_getElem? {src : List Nat} {cs : List MemcpyCall} (i : Nat) (v : Option Nat) :
    ∀ {dst r : List Nat}, runCopies src cs dst = some r →
      (∀ c ∈ cs, c.dest ≤ (i : Int) ∧ (i : Int) < c.dest + c.count →
        src[(c.src + ((i : Int) - c.dest)).toNat]? = v) →
      r[i]? = v ∨
        (r[i]? = dst[i]? ∧ ∀ c ∈ cs, ¬ (c.dest ≤ (i : Int) ∧ (i : Int) < c.dest + c.count)) := by
  induction cs with
  | nil =>
    intro dst r h _
    rw [runCopies_nil] at h
    injection h with h
    subst h
    exact Or.inr ⟨rfl, fun c hc => absurd hc (List.not_mem_nil _)⟩
  | cons c cs ih =>
    intro dst r h hv
    rw [runCopies_cons] at h
    cases hm : memcpy dst src c with
    | none => rw [hm] at h; exact absurd h (by simp)
    | some d1 =>
      rw [hm] at h
      rcases ih h (fun c' hc' => hv c' (List.mem_cons_of_mem _ hc')) with h1 | ⟨h1, h2⟩
      · exact Or.inl h1
      · have hg := memcpy_getElem? hm i
        by_cases hc : c.dest ≤ (i : Int) ∧ (i : Int) < c.dest + c.count
        · rw [if_pos hc, hv c (List.mem_cons_self _ _) hc] at hg
          exact Or.inl (h1.trans hg)
        · rw [if_neg hc] at hg
          refine Or.inr ⟨h1.trans hg, fun c' hc' => ?_⟩
          rcases List.mem_cons.mp hc' with rfl | hin
          · exact hc
          · exact h2 c' hin

/-! ## Index arithmetic -/

theorem radix2 (M a q a' q' : Int) (ha : 0 ≤ a) (haM : a < M) (ha' : 0 ≤ a') (haM' : a' < M)
    (h : a + q * M = a' + q' * M) : q = q' ∧ a = a' := by
  have hq : q = q' := by
    rcases lt_trichotomy q q' with hlt | heq | hgt
    · exfalso
      have : M ≤ (q' - q) * M := le_mul_of_one_le_left (by omega) (by omega)
      nlinarith
    · exact heq
    · exfalso
      have : M ≤ (q - q') * M := le_mul_of_one_le_left (by omega) (by omega)
      nlinarith
  subst hq
  exact ⟨rfl, by linarith⟩

theorem radix3 (D0 D1 X Y Z X' Y' Z' : Int)
    (hX : 0 ≤ X) (hXD : X < D0) (hX' : 0 ≤ X') (hXD' : X' < D0)
    (hY : 0 ≤ Y) (hYD : Y < D1) (hY' : 0 ≤ Y') (hYD' : Y' < D1)
    (h : X + Y * D0 + Z * (D0 * D1) = X' + Y' * D0 + Z' * (D0 * D1)) :
    X = X' ∧ Y = Y' ∧ Z = Z' := by
  have hD0 : 0 ≤ D0 := by omega
  have hA : 0 ≤ X + Y * D0 := add_nonneg hX (mul_nonneg hY hD0)
  have hA' : 0 ≤ X' + Y' * D0 := add_nonneg hX' (mul_nonneg hY' hD0)
  have hAM : X + Y * D0 < D0 * D1 := by nlinarith
  have hAM' : X' + Y' * D0 < D0 * D1 := by nlinarith
  obtain ⟨hz, hxy⟩ := radix2 (D0 * D1) _ Z _ Z' hA hAM hA' hAM' h
  obtain ⟨hy, hx⟩ := radix2 D0 X Y X' Y' hX hXD hX' hXD' hxy
  exact ⟨hx, hy, hz⟩

theorem radix_bound (D0 D1 D2 X Y Z n : Int) (hn : 0 ≤ n)
    (hX : 0 ≤ X) (hXD : X + n ≤ D0)
    (hY : 0 ≤ Y) (hYD : Y < D1) (hZ : 0 ≤ Z) (hZD : Z < D2) :
    0 ≤ X + Y * D0 + Z * (D0 * D1) ∧ X + Y * D0 + Z * (D0 * D1) + n ≤ D0 * D1 * D2 := by
  have hD0 : 0 ≤ D0 := by omega
  have hD1 : 0 ≤ D1 := by omega
  have h1 : 0 ≤ Y * D0 := mul_nonneg hY hD0
  have h2 : 0 ≤ Z * (D0 * D1) := mul_nonneg hZ (mul_nonneg hD0 hD1)
  have h3 : (Y + 1) * D0 ≤ D1 * D0 := mul_le_mul_of_nonneg_right (by omega) hD0
  have h4 : (Z + 1) * (D0 * D1) ≤ D2 * (D0 * D1) :=
    mul_le_mul_of_nonneg_right (by omega) (mul_nonneg hD0 hD1)
  constructor
  · linarith
  · nlinarith

theorem block_range_iff (D R off b ts : Int) (hb0 : 0 ≤ b) (hb : b < ts) :
    (D * ts ≤ off * ts + b ∧ off * ts + b < D * ts + R * ts) ↔ (D ≤ off ∧ off < D + R) := by
  have hts : 0 < ts := by omega
  constructor
  · rintro ⟨h1, h2⟩
    constructor
    · by_contra hc
      have : (off + 1) * ts ≤ D * ts := mul_le_mul_of_nonneg_right (by omega) hts.le
      nlinarith
    · by_contra hc
      have : (D + R) * ts ≤ off * ts := mul_le_mul_of_nonneg_right (by omega) hts.le
      nlinarith
  · rintro ⟨h1, h2⟩
    have e1 : D * ts ≤ off * ts := mul_le_mul_of_nonneg_right h1 hts.le
    have e2 : (off + 1) * ts ≤ (D + R) * ts := mul_le_mul_of_nonneg_right (by omega) hts.le
    constructor
    · linarith
    · nlinarith

/-- A value of `int` is not changed by the wrap-around. -/
theorem wrapInt_of_fits (x : Int) (h : FitsInt x) : wrapInt x = x := by
  unfold FitsInt at h
  unfold wrapInt
  omega

/-- Wrapping after each multiplication is wrapping the exact product once. -/
theorem mulInt_mulInt (a b c : Int) : mulInt (mulInt a b) c = wrapInt (a * b * c) := by
  have h1 : wrapInt (a * b) ≡ a * b [ZMOD 4294967296] := by
    have h := (Int.mod_modEq (a * b + 2147483648) 4294967296).sub_right 2147483648
    rwa [add_sub_cancel_right] at h
  have h2 : wrapInt (a * b) * c + 2147483648 ≡ a * b * c + 2147483648 [ZMOD 4294967296] :=
    (h1.mul_right c).add_right 2147483648
  unfold mulInt
  show (wrapInt (a * b) * c + 2147483648) % 4294967296 - 2147483648 =
    (a * b * c + 2147483648) % 4294967296 - 2147483648
  rw [h2.eq]

/-- A product that is a value of `int` is formed without wrap-around. -/
theorem mulInt_of_fits (a b : Int) (h : FitsInt (a * b)) : mulInt a b = a * b :=
  wrapInt_of_fits _ h

/-- A byte count below 2^32 is formed without wrap-around in `unsigned int`. -/
theorem wrap_count (V ts : Int) (hV : 0 ≤ V) (hts : 0 ≤ ts) (h : V * ts < 4294967296) :
    V % 4294967296 * ts % 4294967296 = V * ts := by
  by_cases h0 : ts = 0
  · subst h0
    simp
  · have h1 : 1 ≤ ts := by omega
    have hle : V ≤ V * ts := by nlinarith
    have hVlt : V < 4294967296 := by omega
    rw [Int.emod_eq_of_lt hV hVlt, Int.emod_eq_of_lt (mul_nonneg hV hts) h]

theorem modeOffset_nonneg (isPoint : Bool) : 0 ≤ modeOffset isPoint := by
  cases isPoint <;> simp [modeOffset]

theorem ComputeDimensions_eq (e : Extent) (isPoint : Bool) :
    ComputeDimensions e isPoint =
      ⟨e.e1 - e.e0 + modeOffset isPoint, e.e3 - e.e2 + modeOffset isPoint,
        e.e5 - e.e4 + modeOffset isPoint⟩ := by
  cases isPoint <;> simp [ComputeDimensions, modeOffset]

theorem tupleSize_cast (a : vtkDataArray) :
    (a.tupleSize : Int) = (a.DataTypeSize : Int) * (a.NumberOfComponents : Int) := by
  simp [vtkDataArray.tupleSize]

/-! ## The copies of `CopySubExtent`, tuple by tuple -/

/-- Row tier: every call copies one row of the region, inside both buffers,
and a destination index it covers is the same index of the source. -/
theorem calls_form_rows (isPoint : Bool) (inE outE subE : Extent) (inA outA : vtkDataArray)
    (hsize : outA.DataTypeSize = inA.DataTypeSize)
    (hin : inE.Contains subE) (hout : outE.Contains subE) (hne : subE.NonEmpty)
    (htier : ¬ ((ComputeDimensions inE isPoint).v0 = (ComputeDimensions outE isPoint).v0 ∧
      (ComputeDimensions inE isPoint).v1 = (ComputeDimensions outE isPoint).v1)) :
    ∀ c ∈ CopySubExtentCalls inE (ComputeDimensions inE isPoint) (ComputeIncrements inE isPoint)
        outE (ComputeDimensions outE isPoint) (ComputeIncrements outE isPoint)
        subE (ComputeDimensions subE isPoint) inA outA,
      CopiesRegionTuples isPoint inE outE subE (inA.tupleSize : Int) c := by
  intro c hc
  have hδ := modeOffset_nonneg isPoint
  obtain ⟨a0, a1, a2, a3, a4, a5⟩ := inE
  obtain ⟨o0, o1, o2, o3, o4, o5⟩ := outE
  obtain ⟨s0, s1, s2, s3, s4, s5⟩ := subE
  simp only [Extent.Contains, Extent.NonEmpty] at hin hout hne
  simp only [CopySubExtentCalls, ComputeIncrements, ComputeDimensions_eq, Extent.volume,
    Extent.HasIndex, GetStartTuple, GetVoidPointer, tupleSize_cast, hsize,
    CopiesRegionTuples] at hc htier ⊢
  rw [if_neg htier] at hc
  simp only [List.mem_flatMap, List.mem_map, List.mem_range] at hc
  obtain ⟨k, hk, j, hj, rfl⟩ := hc
  generalize modeOffset isPoint = δ at *
  have hk' : (k : Int) < s5 - s4 + δ := by omega
  have hj' : (j : Int) < s3 - s2 + δ := by omega
  refine ⟨(s0 - o0) * 1 + (s2 + j - o2) * (1 * (o1 - o0 + δ)) +
      (s4 + k - o4) * (1 * (o1 - o0 + δ) * (o3 - o2 + δ)),
    (s0 - a0) * 1 + (s2 + j - a2) * (1 * (a1 - a0 + δ)) +
      (s4 + k - a4) * (1 * (a1 - a0 + δ) * (a3 - a2 + δ)),
    s1 - s0 + δ, ?_, by omega, ?_, ?_, ?_, ?_, ?_⟩
  · rw [MemcpyCall.mk.injEq]
    refine ⟨?_, ?_, rfl⟩ <;> ring
  · have := radix_bound (a1 - a0 + δ) (a3 - a2 + δ) (a5 - a4 + δ) (s0 - a0) (s2 + j - a2)
      (s4 + k - a4) (s1 - s0 + δ) (by omega) (by omega) (by omega) (by omega) (by omega)
      (by omega) (by omega)
    linarith [this.1]
  · have := radix_bound (a1 - a0 + δ) (a3 - a2 + δ) (a5 - a4 + δ) (s0 - a0) (s2 + j - a2)
      (s4 + k - a4) (s1 - s0 + δ) (by omega) (by omega) (by omega) (by omega) (by omega)
      (by omega) (by omega)
    linarith [this.2]
  · have := radix_bound (o1 - o0 + δ) (o3 - o2 + δ) (o5 - o4 + δ) (s0 - o0) (s2 + j - o2)
      (s4 + k - o4) (s1 - s0 + δ) (by omega) (by omega) (by omega) (by omega) (by omega)
      (by omega) (by omega)
    linarith [this.1]
  · have := radix_bound (o1 - o0 + δ) (o3 - o2 + δ) (o5 - o4 + δ) (s0 - o0) (s2 + j - o2)
      (s4 + k - o4) (s1 - s0 + δ) (by omega) (by omega) (by omega) (by omega) (by omega)
      (by omega) (by omega)
    linarith [this.2]
  · intro x y z hxyz h1 h2
    obtain ⟨t, ht⟩ : ∃ t : Int, t = (x - o0) * 1 + (y - o2) * (1 * (o1 - o0 + δ)) +
        (z - o4) * (1 * (o1 - o0 + δ) * (o3 - o2 + δ)) -
        ((s0 - o0) * 1 + (s2 + j - o2) * (1 * (o1 - o0 + δ)) +
          (s4 + k - o4) * (1 * (o1 - o0 + δ) * (o3 - o2 + δ))) := ⟨_, rfl⟩
    have ht0 : 0 ≤ t := by omega
    have ht1 : t < s1 - s0 + δ := by omega
    obtain ⟨hx, hy, hz⟩ := radix3 (o1 - o0 + δ) (o3 - o2 + δ) (x - o0) (y - o2) (z - o4)
      (s0 + t - o0) (s2 + j - o2) (s4 + k - o4) (by omega) (by omega) (by omega) (by omega)
      (by omega) (by omega) (by omega) (by omega) (by rw [ht]; ring)
    have ex : x = s0 + t := by omega
    have ey : y = s2 + j := by omega
    have ez : z = s4 + k := by omega
    refine ⟨⟨by omega, by omega, by omega, by omega, by omega, by omega⟩, ?_⟩
    rw [← ht, ex, ey, ez]
    ring

/-- Slice tier, the region spanning the source on axes 0 and 1: every call
copies one slice of the region, inside both buffers. -/
theorem calls_form_slices (isPoint : Bool) (inE outE subE : Extent) (inA outA : vtkDataArray)
    (hsize : outA.DataTypeSize = inA.DataTypeSize)
    (hin : inE.Contains subE) (hout : outE.Contains subE) (hne : subE.NonEmpty)
    (hspan : SpansFastAxes inE (ComputeDimensions inE isPoint) (ComputeDimensions outE isPoint)
      subE)
    (hfit : ShortcutCountsFit (ComputeDimensions inE isPoint) (ComputeDimensions outE isPoint)
      inA)
    (htier : (ComputeDimensions inE isPoint).v0 = (ComputeDimensions outE isPoint).v0 ∧
      (ComputeDimensions inE isPoint).v1 = (ComputeDimensions outE isPoint).v1)
    (htier2 : ¬ (ComputeDimensions inE isPoint).v2 = (ComputeDimensions outE isPoint).v2) :
    ∀ c ∈ CopySubExtentCalls inE (ComputeDimensions inE isPoint) (ComputeIncrements inE isPoint)
        outE (ComputeDimensions outE isPoint) (ComputeIncrements outE isPoint)
        subE (ComputeDimensions subE isPoint) inA outA,
      CopiesRegionTuples isPoint inE outE subE (inA.tupleSize : Int) c := by
  intro c hc
  have hδ := modeOffset_nonneg isPoint
  obtain ⟨a0, a1, a2, a3, a4, a5⟩ := inE
  obtain ⟨o0, o1, o2, o3, o4, o5⟩ := outE
  obtain ⟨s0, s1, s2, s3, s4, s5⟩ := subE
  simp only [Extent.Contains, Extent.NonEmpty] at hin hout hne
  simp only [CopySubExtentCalls, ComputeIncrements, ComputeDimensions_eq, Extent.volume,
    Extent.HasIndex, GetStartTuple, GetVoidPointer, tupleSize_cast, hsize,
    CopiesRegionTuples, SpansFastAxes, ShortcutCountsFit] at hc htier htier2 hspan hfit ⊢
  rw [if_pos htier, if_neg htier2] at hc
  simp only [List.mem_map, List.mem_range] at hc
  obtain ⟨k, hk, rfl⟩ := hc
  obtain ⟨e0, e1, e2, e3⟩ := hspan.1 htier
  have hf := hfit.2 ⟨htier.1, htier.2, htier2⟩
  generalize modeOffset isPoint = δ at *
  have hk' : (k : Int) < s5 - s4 + δ := by omega
  have f0 : o0 = a0 := by omega
  have f1 : o1 = a1 := by omega
  have f2 : o2 = a2 := by omega
  have f3 : o3 = a3 := by omega
  subst e0 e1 e2 e3 f0 f1 f2 f3
  have hD0 : 0 ≤ o1 - o0 + δ := by omega
  have hD1 : 0 ≤ o3 - o2 + δ := by omega
  have hM : 0 ≤ (o1 - o0 + δ) * (o3 - o2 + δ) := mul_nonneg hD0 hD1
  have hsZ : 0 ≤ (s4 + k - a4) * ((o1 - o0 + δ) * (o3 - o2 + δ)) := mul_nonneg (by omega) hM
  have hsZ' : (s4 + k - a4 + 1) * ((o1 - o0 + δ) * (o3 - o2 + δ)) ≤
      (a5 - a4 + δ) * ((o1 - o0 + δ) * (o3 - o2 + δ)) :=
    mul_le_mul_of_nonneg_right (by omega) hM
  have hdZ : 0 ≤ (s4 + k - o4) * ((o1 - o0 + δ) * (o3 - o2 + δ)) := mul_nonneg (by omega) hM
  have hdZ' : (s4 + k - o4 + 1) * ((o1 - o0 + δ) * (o3 - o2 + δ)) ≤
      (o5 - o4 + δ) * ((o1 - o0 + δ) * (o3 - o2 + δ)) :=
    mul_le_mul_of_nonneg_right (by omega) hM
  refine ⟨(o0 - o0) * 1 + (o2 - o2) * (1 * (o1 - o0 + δ)) +
      (s4 + k - o4) * (1 * (o1 - o0 + δ) * (o3 - o2 + δ)),
    (o0 - o0) * 1 + (o2 - o2) * (1 * (o1 - o0 + δ)) +
      (s4 + k - a4) * (1 * (o1 - o0 + δ) * (o3 - o2 + δ)),
    (o1 - o0 + δ) * (o3 - o2 + δ), ?_, hM, ?_, ?_, ?_, ?_, ?_⟩
  · rw [MemcpyCall.mk.injEq]
    refine ⟨by ring, by ring, ?_⟩
    rw [mulInt_of_fits _ _ ⟨le_trans (by decide) hM, hf⟩]
  · linarith
  · linarith
  · linarith
  · linarith
  · intro x y z hxyz h1 h2
    obtain ⟨hx0, hx1, hy0, hy1, hz0, hz1⟩ := hxyz
    have hA := radix_bound (o1 - o0 + δ) (o3 - o2 + δ) 1 (x - o0) (y - o2) 0 1 (by omega)
      (by omega) (by omega) (by omega) (by omega) (by omega) (by omega)
    obtain ⟨t, ht⟩ : ∃ t : Int, t = (x - o0) * 1 + (y - o2) * (1 * (o1 - o0 + δ)) +
        (z - o4) * (1 * (o1 - o0 + δ) * (o3 - o2 + δ)) -
        ((o0 - o0) * 1 + (o2 - o2) * (1 * (o1 - o0 + δ)) +
          (s4 + k - o4) * (1 * (o1 - o0 + δ) * (o3 - o2 + δ))) := ⟨_, rfl⟩
    obtain ⟨hz, hta⟩ := radix2 ((o1 - o0 + δ) * (o3 - o2 + δ)) t (s4 + k - o4)
      ((x - o0) + (y - o2) * (o1 - o0 + δ)) (z - o4) (by omega) (by omega) (by linarith [hA.1])
      (by linarith [hA.2]) (by rw [ht]; ring)
    have ez : z = s4 + k := by omega
    refine ⟨⟨by omega, by omega, by omega, by omega, by omega, by omega⟩, ?_⟩
    rw [← ht, hta, ez]
    ring

/-- Whole-volume tier, the region being the source extent: the single call
copies the whole volume, which is the region. -/
theorem calls_form_volume (isPoint : Bool) (inE outE subE : Extent) (inA outA : vtkDataArray)
    (hin : inE.Contains subE) (hout : outE.Contains subE) (hne : subE.NonEmpty)
    (hspan : SpansFastAxes inE (ComputeDimensions inE isPoint) (ComputeDimensions outE isPoint)
      subE)
    (hfit : ShortcutCountsFit (ComputeDimensions inE isPoint) (ComputeDimensions outE isPoint) inA)
    (htier : (ComputeDimensions inE isPoint).v0 = (ComputeDimensions outE isPoint).v0 ∧
      (ComputeDimensions inE isPoint).v1 = (ComputeDimensions outE isPoint).v1)
    (htier2 : (ComputeDimensions inE isPoint).v2 = (ComputeDimensions outE isPoint).v2) :
    ∀ c ∈ CopySubExtentCalls inE (ComputeDimensions inE isPoint) (ComputeIncrements inE isPoint)
        outE (ComputeDimensions outE isPoint) (ComputeIncrements outE isPoint)
        subE (ComputeDimensions subE isPoint) inA outA,
      CopiesRegionTuples isPoint inE outE subE (inA.tupleSize : Int) c := by
  intro c hc
  have hδ := modeOffset_nonneg isPoint
  obtain ⟨a0, a1, a2, a3, a4, a5⟩ := inE
  obtain ⟨o0, o1, o2, o3, o4, o5⟩ := outE
  obtain ⟨s0, s1, s2, s3, s4, s5⟩ := subE
  simp only [Extent.Contains, Extent.NonEmpty] at hin hout hne
  simp only [CopySubExtentCalls, ComputeIncrements, ComputeDimensions_eq, Extent.volume,
    Extent.HasIndex, GetStartTuple, GetVoidPointer, tupleSize_cast,
    CopiesRegionTuples, SpansFastAxes, ShortcutCountsFit] at hc htier htier2 hspan hfit ⊢
  rw [if_pos htier, if_pos htier2, List.mem_singleton] at hc
  subst hc
  obtain ⟨e0, e1, e2, e3⟩ := hspan.1 htier
  obtain ⟨e4, e5⟩ := hspan.2 ⟨htier.1, htier.2, htier2⟩
  have hf := hfit.1 ⟨htier.1, htier.2, htier2⟩
  generalize modeOffset isPoint = δ at *
  have f0 : o0 = a0 := by omega
  have f1 : o1 = a1 := by omega
  have f2 : o2 = a2 := by omega
  have f3 : o3 = a3 := by omega
  have f4 : o4 = a4 := by omega
  have f5 : o5 = a5 := by omega
  subst e0 e1 e2 e3 e4 e5 f0 f1 f2 f3 f4 f5
  have hD0 : 0 ≤ o1 - o0 + δ := by omega
  have hD1 : 0 ≤ o3 - o2 + δ := by omega
  have hD2 : 0 ≤ o5 - o4 + δ := by omega
  have hV : 0 ≤ (o1 - o0 + δ) * (o3 - o2 + δ) * (o5 - o4 + δ) :=
    mul_nonneg (mul_nonneg hD0 hD1) hD2
  refine ⟨0, 0, (o1 - o0 + δ) * (o3 - o2 + δ) * (o5 - o4 + δ), ?_, hV, le_refl _, ?_,
    le_refl _, ?_, ?_⟩
  · rw [MemcpyCall.mk.injEq]
    refine ⟨by ring, by ring, ?_⟩
    exact wrap_count _ _ hV (mul_nonneg (Int.natCast_nonneg _) (Int.natCast_nonneg _)) hf
  · linarith
  · linarith
  · intro x y z hxyz _ _
    exact ⟨hxyz, by ring⟩

/-- Under the containment precondition, with the region spanning the source
on the axes of the contiguous shortcuts and the counts of the shortcuts
formed without wrap-around, every copy of `CopySubExtent` moves
whole tuples of the region between equal indices, inside both arrays. -/
theorem calls_form (isPoint : Bool) (inE outE subE : Extent) (inA outA : vtkDataArray)
    (hsize : outA.DataTypeSize = inA.DataTypeSize)
    (hin : inE.Contains subE) (hout : outE.Contains subE) (hne : subE.NonEmpty)
    (hspan : SpansFastAxes inE (ComputeDimensions inE isPoint) (ComputeDimensions outE isPoint)
      subE)
    (hfit : ShortcutCountsFit (ComputeDimensions inE isPoint) (ComputeDimensions outE isPoint)
      inA) :
    ∀ c ∈ CopySubExtentCalls inE (ComputeDimensions inE isPoint) (ComputeIncrements inE isPoint)
        outE (ComputeDimensions outE isPoint) (ComputeIncrements outE isPoint)
        subE (ComputeDimensions subE isPoint) inA outA,
      CopiesRegionTuples isPoint inE outE subE (inA.tupleSize : Int) c := by
  by_cases htier : (ComputeDimensions inE isPoint).v0 = (ComputeDimensions outE isPoint).v0 ∧
      (ComputeDimensions inE isPoint).v1 = (ComputeDimensions outE isPoint).v1
  · by_cases htier2 : (ComputeDimensions inE isPoint).v2 = (ComputeDimensions outE isPoint).v2
    · exact calls_form_volume isPoint inE outE subE inA outA hin hout hne hspan hfit htier
        htier2
    · exact calls_form_slices isPoint inE outE subE inA outA hsize hin hout hne hspan hfit
        htier htier2
  · exact calls_form_rows isPoint inE outE subE inA outA hsize hin hout hne htier

/-- Every tuple of the region is covered by one of the copies. -/
theorem calls_cover (isPoint : Bool) (inE outE subE : Extent) (inA outA : vtkDataArray)
    (hsize : outA.DataTypeSize = inA.DataTypeSize)
    (hin : inE.Contains subE) (hout : outE.Contains subE)
    (hspan : SpansFastAxes inE (ComputeDimensions inE isPoint) (ComputeDimensions outE isPoint)
      subE)
    (hfit : ShortcutCountsFit (ComputeDimensions inE isPoint) (ComputeDimensions outE isPoint) inA)
    (x y z : Int) (hxyz : subE.HasIndex isPoint x y z) :
    ∃ c ∈ CopySubExtentCalls inE (ComputeDimensions inE isPoint) (ComputeIncrements inE isPoint)
        outE (ComputeDimensions outE isPoint) (ComputeIncrements outE isPoint)
        subE (ComputeDimensions subE isPoint) inA outA,
      CoversTuple (inA.tupleSize : Int)
        (GetStartTuple outE (ComputeIncrements outE isPoint) x y z) c := by
  have hδ := modeOffset_nonneg isPoint
  obtain ⟨a0, a1, a2, a3, a4, a5⟩ := inE
  obtain ⟨o0, o1, o2, o3, o4, o5⟩ := outE
  obtain ⟨s0, s1, s2, s3, s4, s5⟩ := subE
  simp only [Extent.Contains] at hin hout
  simp only [CopySubExtentCalls, ComputeIncrements, ComputeDimensions_eq,
    Extent.HasIndex, GetStartTuple, GetVoidPointer, tupleSize_cast, hsize,
    CoversTuple, SpansFastAxes, ShortcutCountsFit] at hxyz hspan hfit ⊢
  generalize modeOffset isPoint = δ at *
  obtain ⟨hx0, hx1, hy0, hy1, hz0, hz1⟩ := hxyz
  by_cases htier : a1 - a0 + δ = o1 - o0 + δ ∧ a3 - a2 + δ = o3 - o2 + δ
  · obtain ⟨e0, e1, e2, e3⟩ := hspan.1 htier
    have f0 : o0 = a0 := by omega
    have f1 : o1 = a1 := by omega
    have f2 : o2 = a2 := by omega
    have f3 : o3 = a3 := by omega
    by_cases htier2 : a5 - a4 + δ = o5 - o4 + δ
    · obtain ⟨e4, e5⟩ := hspan.2 ⟨htier.1, htier.2, htier2⟩
      have f4 : o4 = a4 := by omega
      have f5 : o5 = a5 := by omega
      have hf := hfit.1 ⟨htier.1, htier.2, htier2⟩
      rw [if_pos htier, if_pos htier2]
      subst e0 e1 e2 e3 e4 e5 f0 f1 f2 f3 f4 f5
      have hA := radix_bound (o1 - o0 + δ) (o3 - o2 + δ) (o5 - o4 + δ) (x - o0) (y - o2)
        (z - o4) 1 (by omega) (by omega) (by omega) (by omega) (by omega) (by omega) (by omega)
      have hV : 0 ≤ (o1 - o0 + δ) * (o3 - o2 + δ) * (o5 - o4 + δ) :=
        mul_nonneg (mul_nonneg (by omega) (by omega)) (by omega)
      refine ⟨_, List.mem_singleton.mpr rfl, 0,
        (o1 - o0 + δ) * (o3 - o2 + δ) * (o5 - o4 + δ), by ring,
        wrap_count _ _ hV (mul_nonneg (Int.natCast_nonneg _) (Int.natCast_nonneg _)) hf, ?_, ?_⟩
      · linarith [hA.1]
      · linarith [hA.2]
    · have hf := hfit.2 ⟨htier.1, htier.2, htier2⟩
      rw [if_pos htier, if_neg htier2]
      subst e0 e1 e2 e3 f0 f1 f2 f3
      have hA := radix_bound (o1 - o0 + δ) (o3 - o2 + δ) 1 (x - o0) (y - o2) 0 1 (by omega)
        (by omega) (by omega) (by omega) (by omega) (by omega) (by omega)
      have hzk : ((z - s4).toNat : Int) = z - s4 := by omega
      have hM : 0 ≤ (o1 - o0 + δ) * (o3 - o2 + δ) := mul_nonneg (by omega) (by omega)
      refine ⟨_, List.mem_map.mpr ⟨(z - s4).toNat, List.mem_range.mpr (by omega), rfl⟩,
        (o0 - o0) * 1 + (o2 - o2) * (1 * (o1 - o0 + δ)) +
          (s4 + (z - s4).toNat - o4) * (1 * (o1 - o0 + δ) * (o3 - o2 + δ)),
        (o1 - o0 + δ) * (o3 - o2 + δ), by ring,
        by rw [mulInt_of_fits _ _ ⟨le_trans (by decide) hM, hf⟩], ?_, ?_⟩
      · rw [hzk]
        linarith [hA.1]
      · rw [hzk]
        linarith [hA.2]
  · rw [if_neg htier]
    have hzk : ((z - s4).toNat : Int) = z - s4 := by omega
    have hyj : ((y - s2).toNat : Int) = y - s2 := by omega
    refine ⟨_, List.mem_flatMap.mpr ⟨(z - s4).toNat, List.mem_range.mpr (by omega),
        List.mem_map.mpr ⟨(y - s2).toNat, List.mem_range.mpr (by omega), rfl⟩⟩,
      (s0 - o0) * 1 + (s2 + (y - s2).toNat - o2) * (1 * (o1 - o0 + δ)) +
        (s4 + (z - s4).toNat - o4) * (1 * (o1 - o0 + δ) * (o3 - o2 + δ)),
      s1 - s0 + δ, by ring, rfl, ?_, ?_⟩
    · rw [hzk, hyj]
      have e : s2 + (y - s2) = y := by ring
      have e' : s4 + (z - s4) = z := by ring
      rw [e, e']
      linarith
    · rw [hzk, hyj]
      have e : s2 + (y - s2) = y := by ring
      have e' : s4 + (z - s4) = z := by ring
      rw [e, e']
      linarith

/-! ## From bytes to tuples -/

theorem tuple_ext (l l' : List Nat) (ts m m' : Nat)
    (h : ∀ b < ts, l[m + b]? = l'[m' + b]?) :
    (l.drop m).take ts = (l'.drop m').take ts := by
  apply List.ext_getElem?
  intro b
  simp only [List.getElem?_take, List.getElem?_drop]
  split
  · exact h b ‹_›
  · rfl

/-- An index of the extent has a tuple offset inside the volume. -/
theorem GetStartTuple_range (e : Extent) (isPoint : Bool) (x y z : Int)
    (h : e.HasIndex isPoint x y z) :
    0 ≤ GetStartTuple e (ComputeIncrements e isPoint) x y z ∧
      GetStartTuple e (ComputeIncrements e isPoint) x y z + 1 ≤ e.volume isPoint := by
  obtain ⟨a0, a1, a2, a3, a4, a5⟩ := e
  simp only [ComputeIncrements, ComputeDimensions_eq, Extent.volume, Extent.HasIndex,
    GetStartTuple] at h ⊢
  generalize modeOffset isPoint = δ at *
  obtain ⟨hx0, hx1, hy0, hy1, hz0, hz1⟩ := h
  have hA := radix_bound (a1 - a0 + δ) (a3 - a2 + δ) (a5 - a4 + δ) (x - a0) (y - a2)
    (z - a4) 1 (by omega) (by omega) (by omega) (by omega) (by omega) (by omega) (by omega)
  constructor
  · linarith [hA.1]
  · linarith [hA.2]

theorem hasIndex_of_contains (outer inner : Extent) (isPoint : Bool) (x y z : Int)
    (hc : outer.Contains inner) (h : inner.HasIndex isPoint x y z) :
    outer.HasIndex isPoint x y z := by
  simp only [Extent.Contains] at hc
  simp only [Extent.HasIndex, ComputeDimensions_eq] at h ⊢
  omega

/-- Calls of the tuple-by-tuple form stay within arrays that cover their extents. -/
theorem inBounds_of_form (isPoint : Bool) (inE outE subE : Extent) (ts : Int) (hts : 0 ≤ ts)
    (srcLen dstLen : Nat) (hs : (srcLen : Int) = inE.volume isPoint * ts)
    (hd : (dstLen : Int) = outE.volume isPoint * ts) (c : MemcpyCall)
    (h : CopiesRegionTuples isPoint inE outE subE ts c) : c.InBounds srcLen dstLen := by
  obtain ⟨dT, sT, n, rfl, hn, hs0, hs1, hd0, hd1, -⟩ := h
  unfold MemcpyCall.InBounds
  by_cases h0 : n * ts = 0
  · exact Or.inl h0
  · right
    have h1 : 0 ≤ n * ts := mul_nonneg hn hts
    have h2 : (sT + n) * ts ≤ inE.volume isPoint * ts := mul_le_mul_of_nonneg_right hs1 hts
    have h3 : (dT + n) * ts ≤ outE.volume isPoint * ts := mul_le_mul_of_nonneg_right hd1 hts
    refine ⟨lt_of_le_of_ne h1 (Ne.symm h0), mul_nonneg hd0 hts, mul_nonneg hs0 hts, ?_, ?_⟩
    · rw [hs]; show sT * ts + n * ts ≤ _; linarith
    · rw [hd]; show dT * ts + n * ts ≤ _; linarith

/-- One byte of the destination after a run of tuple-by-tuple copies: inside
the region it is the byte of the source tuple of the same index, outside the
region it is the old byte. -/
theorem byte_after_run (isPoint : Bool) (inE outE subE : Extent) (ts : Nat)
    (src dst r : List Nat) (cs : List MemcpyCall)
    (hform : ∀ c ∈ cs, CopiesRegionTuples isPoint inE outE subE (ts : Int) c)
    (hr : runCopies src cs dst = some r)
    (x y z : Int) (hidx : outE.HasIndex isPoint x y z) (b : Nat) (hb : b < ts) :
    (subE.HasIndex isPoint x y z →
      (∃ c ∈ cs, CoversTuple (ts : Int)
        (GetStartTuple outE (ComputeIncrements outE isPoint) x y z) c) →
      r[(GetStartTuple outE (ComputeIncrements outE isPoint) x y z * (ts : Int)).toNat + b]? =
        src[(GetStartTuple inE (ComputeIncrements inE isPoint) x y z * (ts : Int)).toNat + b]?) ∧
    (¬ subE.HasIndex isPoint x y z →
      r[(GetStartTuple outE (ComputeIncrements outE isPoint) x y z * (ts : Int)).toNat + b]? =
        dst[(GetStartTuple outE (ComputeIncrements outE isPoint) x y z * (ts : Int)).toNat + b]?) := by
  have hoff := (GetStartTuple_range outE isPoint x y z hidx).1
  generalize hoo : GetStartTuple outE (ComputeIncrements outE isPoint) x y z = off at *
  generalize hoi : GetStartTuple inE (ComputeIncrements inE isPoint) x y z = offIn at *
  have hts : (0 : Int) ≤ ts := Int.natCast_nonneg ts
  have hoffts : 0 ≤ off * (ts : Int) := mul_nonneg hoff hts
  have hi : (((off * (ts : Int)).toNat + b : Nat) : Int) = off * (ts : Int) + (b : Int) := by
    omega
  -- what a covering call implies
  have key : ∀ c ∈ cs, c.dest ≤ (((off * (ts : Int)).toNat + b : Nat) : Int) ∧
      (((off * (ts : Int)).toNat + b : Nat) : Int) < c.dest + c.count →
      subE.HasIndex isPoint x y z ∧
        (c.src + ((((off * (ts : Int)).toNat + b : Nat) : Int) - c.dest)).toNat =
          (offIn * (ts : Int)).toNat + b := by
    intro c hc hcov
    obtain ⟨dT, sT, n, rfl, hn, hs0, hs1, hd0, hd1, hgeo⟩ := hform c hc
    rw [hi] at hcov ⊢
    have hrange := (block_range_iff dT n off b ts (by omega) (by omega)).mp hcov
    have hgeo' := hgeo x y z hidx
    rw [hoo, hoi] at hgeo'
    obtain ⟨hreg, heq⟩ := hgeo' hrange.1 hrange.2
    refine ⟨hreg, ?_⟩
    have e : sT * (ts : Int) + (off * (ts : Int) + (b : Int) - dT * (ts : Int)) =
        offIn * (ts : Int) + (b : Int) := by
      rw [← heq]; ring
    have hin0 : 0 ≤ offIn * (ts : Int) := by
      rw [← heq]
      exact mul_nonneg (by omega) hts
    show (sT * (ts : Int) + (off * (ts : Int) + (b : Int) - dT * (ts : Int))).toNat = _
    rw [e]
    omega
  constructor
  · intro _ hcov
    rcases runCopies_getElem? ((off * (ts : Int)).toNat + b)
      (src[(offIn * (ts : Int)).toNat + b]?) hr
      (fun c hc hcv => by rw [(key c hc hcv).2]) with h | ⟨_, hno⟩
    · exact h
    · exfalso
      obtain ⟨c, hc, dT, n, hd, hn, h1, h2⟩ := hcov
      apply hno c hc
      rw [hi, hd, hn]
      exact (block_range_iff dT n off b ts (by omega) (by omega)).mpr ⟨h1, h2⟩
  · intro hnot
    rcases runCopies_getElem? ((off * (ts : Int)).toNat + b)
      (dst[(off * (ts : Int)).toNat + b]?) hr
      (fun c hc hcv => absurd (key c hc hcv).1 hnot) with h | ⟨h, _⟩
    · exact h
    · exact h

/-- The contract of `CopySubExtent` under the containment precondition, the
region spanning the source on the axes of the contiguous shortcuts and the
counts of the shortcuts formed without wrap-around: the call completes, the destination keeps its shape, every tuple of the region is the
source tuple of the same index, and every other tuple is untouched. -/
theorem copyRegion_spec (isPoint : Bool) (inE outE subE : Extent) (inA outA : vtkDataArray)
    (hsize : outA.DataTypeSize = inA.DataTypeSize)
    (hcomp : outA.NumberOfComponents = inA.NumberOfComponents)
    (hin : inE.Contains subE) (hout : outE.Contains subE) (hne : subE.NonEmpty)
    (hspan : SpansFastAxes inE (ComputeDimensions inE isPoint) (ComputeDimensions outE isPoint)
      subE)
    (hfit : ShortcutCountsFit (ComputeDimensions inE isPoint) (ComputeDimensions outE isPoint) inA)
    (hinA : inA.Covers inE isPoint) (houtA : outA.Covers outE isPoint) :
    ∃ out', copyRegion isPoint inE outE subE inA outA = some out' ∧
      out'.NumberOfComponents = outA.NumberOfComponents ∧
      out'.DataTypeSize = outA.DataTypeSize ∧
      out'.data.length = outA.data.length ∧
      (∀ x y z : Int, subE.HasIndex isPoint x y z →
        out'.tuple (GetStartTuple outE (ComputeIncrements outE isPoint) x y z) =
          inA.tuple (GetStartTuple inE (ComputeIncrements inE isPoint) x y z)) ∧
      (∀ x y z : Int, outE.HasIndex isPoint x y z → ¬ subE.HasIndex isPoint x y z →
        out'.tuple (GetStartTuple outE (ComputeIncrements outE isPoint) x y z) =
          outA.tuple (GetStartTuple outE (ComputeIncrements outE isPoint) x y z)) := by
  have hform := calls_form isPoint inE outE subE inA outA hsize hin hout hne hspan hfit
  have hts : outA.tupleSize = inA.tupleSize := by
    simp [vtkDataArray.tupleSize, hsize, hcomp]
  have hb : ∀ c ∈ CopySubExtentCalls inE (ComputeDimensions inE isPoint)
      (ComputeIncrements inE isPoint) outE (ComputeDimensions outE isPoint)
      (ComputeIncrements outE isPoint) subE (ComputeDimensions subE isPoint) inA outA,
      c.InBounds inA.data.length outA.data.length := fun c hc =>
    inBounds_of_form isPoint inE outE subE _ (Int.natCast_nonneg _) _ _ hinA
      (by rw [← hts]; exact houtA) c (hform c hc)
  obtain ⟨r, hr⟩ := runCopies_isSome hb
  have e : ∀ t : Int, ({ outA with data := r } : vtkDataArray).tuple t =
      (r.drop (t * (inA.tupleSize : Int)).toNat).take inA.tupleSize := by
    intro t
    show (r.drop (t * (outA.tupleSize : Int)).toNat).take outA.tupleSize = _
    rw [hts]
  have e' : ∀ t : Int, outA.tuple t =
      (outA.data.drop (t * (inA.tupleSize : Int)).toNat).take inA.tupleSize := by
    intro t
    show (outA.data.drop (t * (outA.tupleSize : Int)).toNat).take outA.tupleSize = _
    rw [hts]
  refine ⟨{ outA with data := r }, ?_, rfl, rfl, runCopies_length hr, ?_, ?_⟩
  · simp only [copyRegion, CopySubExtent, hr, Option.map_some']
  · intro x y z hreg
    have hidx := hasIndex_of_contains outE subE isPoint x y z hout hreg
    have hcov := calls_cover isPoint inE outE subE inA outA hsize hin hout hspan hfit x y z hreg
    rw [e]
    unfold vtkDataArray.tuple
    apply tuple_ext
    intro b hb'
    exact (byte_after_run isPoint inE outE subE inA.tupleSize inA.data outA.data r _ hform hr
      x y z hidx b hb').1 hreg hcov
  · intro x y z hidx hnot
    rw [e, e']
    apply tuple_ext
    intro b hb'
    exact (byte_after_run isPoint inE outE subE inA.tupleSize inA.data outA.data r _ hform hr
      x y z hidx b hb').2 hnot

/-! ## Claims about `CopySubExtent` -/

/-- C1, evaluated at a failing input.  The request is `[1,2]` on axis 0 and
piece 0, which holds `[0,1]`, delivers all of it when asked for the region
`[1,1]`; the reader reaches the copy of this piece without an error, with
these extents in its members.  The region is contained in both extents and
the arrays cover them, but source and destination dimensions agree, so the
whole volume is copied offset for offset: the destination tuple of index 1
receives the source tuple of index 0, where the tuple-by-tuple copy of the
region delivers the tuple of index 1. -/
theorem CopySubExtent_region_counterexample :
    (ReadXMLData deliversWholePiece { Reader.initial with NumberOfPieces := 2 }).DataError = 0 ∧
    (ReadXMLData deliversWholePiece { Reader.initial with NumberOfPieces := 2 }).Log =
      [Event.UpdatePiece 1 ⟨2, 2, 0, 0, 0, 0⟩,
        Event.CopyPiece 1 ⟨2, 2, 0, 0, 0, 0⟩ ⟨2, 3, 0, 0, 0, 0⟩,
        Event.UpdatePiece 0 ⟨1, 1, 0, 0, 0, 0⟩,
        Event.CopyPiece 0 ⟨1, 1, 0, 0, 0, 0⟩ ⟨0, 1, 0, 0, 0, 0⟩] ∧
    (ReadXMLData deliversWholePiece { Reader.initial with NumberOfPieces := 2 }).SubPieceExtent =
      ⟨0, 1, 0, 0, 0, 0⟩ ∧
    (ReadXMLData deliversWholePiece { Reader.initial with NumberOfPieces := 2 }).UpdateExtent =
      ⟨1, 2, 0, 0, 0, 0⟩ ∧
    (ReadXMLData deliversWholePiece { Reader.initial with NumberOfPieces := 2 }).SubExtent =
      ⟨1, 1, 0, 0, 0, 0⟩ ∧
    CopyArrayForPoints
      (ReadXMLData deliversWholePiece { Reader.initial with NumberOfPieces := 2 })
      (some ⟨1, 1, [7, 8]⟩) (some ⟨1, 1, [0, 0]⟩) = some (some ⟨1, 1, [7, 8]⟩) ∧
    (⟨0, 1, 0, 0, 0, 0⟩ : Extent).Contains ⟨1, 1, 0, 0, 0, 0⟩ ∧
    (⟨1, 2, 0, 0, 0, 0⟩ : Extent).Contains ⟨1, 1, 0, 0, 0, 0⟩ ∧
    (⟨1, 1, 0, 0, 0, 0⟩ : Extent).HasIndex true 1 0 0 ∧
    (⟨1, 1, [7, 8]⟩ : vtkDataArray).Covers ⟨0, 1, 0, 0, 0, 0⟩ true ∧
    (⟨1, 1, [0, 0]⟩ : vtkDataArray).Covers ⟨1, 2, 0, 0, 0, 0⟩ true ∧
    copyRegion true ⟨0, 1, 0, 0, 0, 0⟩ ⟨1, 2, 0, 0, 0, 0⟩ ⟨1, 1, 0, 0, 0, 0⟩
      ⟨1, 1, [7, 8]⟩ ⟨1, 1, [0, 0]⟩ = some ⟨1, 1, [7, 8]⟩ ∧
    (⟨1, 1, [7, 8]⟩ : vtkDataArray).tuple
        (GetStartTuple ⟨1, 2, 0, 0, 0, 0⟩ (ComputeIncrements ⟨1, 2, 0, 0, 0, 0⟩ true) 1 0 0) ≠
      (⟨1, 1, [7, 8]⟩ : vtkDataArray).tuple
        (GetStartTuple ⟨0, 1, 0, 0, 0, 0⟩ (ComputeIncrements ⟨0, 1, 0, 0, 0, 0⟩ true) 1 0 0) ∧
    naiveCopy true ⟨0, 1, 0, 0, 0, 0⟩ ⟨1, 2, 0, 0, 0, 0⟩ ⟨1, 1, 0, 0, 0, 0⟩
      ⟨1, 1, [7, 8]⟩ ⟨1, 1, [0, 0]⟩ = some ⟨1, 1, [8, 0]⟩ := by
  decide

/-- C2, evaluated at a failing input.  Source and destination are `[0,1]` on
axis 0 and the region is `[0,0]`, contained in both; the dimensions agree, so
the whole volume is copied and the destination tuple of index 1, outside the
region, is overwritten, where the tuple-by-tuple copy of the region leaves it
as it was. -/
theorem CopySubExtent_frame_counterexample :
    (⟨0, 1, 0, 0, 0, 0⟩ : Extent).Contains ⟨0, 0, 0, 0, 0, 0⟩ ∧
    (⟨0, 1, 0, 0, 0, 0⟩ : Extent).HasIndex true 1 0 0 ∧
    ¬ (⟨0, 0, 0, 0, 0, 0⟩ : Extent).HasIndex true 1 0 0 ∧
    (⟨1, 1, [7, 8]⟩ : vtkDataArray).Covers ⟨0, 1, 0, 0, 0, 0⟩ true ∧
    (⟨1, 1, [0, 0]⟩ : vtkDataArray).Covers ⟨0, 1, 0, 0, 0, 0⟩ true ∧
    copyRegion true ⟨0, 1, 0, 0, 0, 0⟩ ⟨0, 1, 0, 0, 0, 0⟩ ⟨0, 0, 0, 0, 0, 0⟩
      ⟨1, 1, [7, 8]⟩ ⟨1, 1, [0, 0]⟩ = some ⟨1, 1, [7, 8]⟩ ∧
    (⟨1, 1, [7, 8]⟩ : vtkDataArray).tuple
        (GetStartTuple ⟨0, 1, 0, 0, 0, 0⟩ (ComputeIncrements ⟨0, 1, 0, 0, 0, 0⟩ true) 1 0 0) ≠
      (⟨1, 1, [0, 0]⟩ : vtkDataArray).tuple
        (GetStartTuple ⟨0, 1, 0, 0, 0, 0⟩ (ComputeIncrements ⟨0, 1, 0, 0, 0, 0⟩ true) 1 0 0) ∧
    naiveCopy true ⟨0, 1, 0, 0, 0, 0⟩ ⟨0, 1, 0, 0, 0, 0⟩ ⟨0, 0, 0, 0, 0, 0⟩
      ⟨1, 1, [7, 8]⟩ ⟨1, 1, [0, 0]⟩ = some ⟨1, 1, [7, 0]⟩ := by
  decide

/-- C3, evaluated at a failing input.  Source `[0,1]x[0,0]x[0,0]`, destination
`[0,1]x[0,0]x[0,1]` and region `[1,1]x[0,0]x[0,0]`, contained in both, agree in
dimension on axes 0 and 1, so a slice of two tuples is copied from source
tuple 1 on: the copy reads tuple offset 2 of a source of volume 2 and the
bounds check fails, where the tuple-by-tuple copy of the region stays inside
both buffers. -/
theorem CopySubExtent_bounds_counterexample :
    (⟨0, 1, 0, 0, 0, 0⟩ : Extent).Contains ⟨1, 1, 0, 0, 0, 0⟩ ∧
    (⟨0, 1, 0, 0, 0, 1⟩ : Extent).Contains ⟨1, 1, 0, 0, 0, 0⟩ ∧
    (⟨1, 1, [7, 8]⟩ : vtkDataArray).Covers ⟨0, 1, 0, 0, 0, 0⟩ true ∧
    (⟨1, 1, [0, 0, 0, 0]⟩ : vtkDataArray).Covers ⟨0, 1, 0, 0, 0, 1⟩ true ∧
    CopySubExtentCalls ⟨0, 1, 0, 0, 0, 0⟩ (ComputeDimensions ⟨0, 1, 0, 0, 0, 0⟩ true)
      (ComputeIncrements ⟨0, 1, 0, 0, 0, 0⟩ true) ⟨0, 1, 0, 0, 0, 1⟩
      (ComputeDimensions ⟨0, 1, 0, 0, 0, 1⟩ true) (ComputeIncrements ⟨0, 1, 0, 0, 0, 1⟩ true)
      ⟨1, 1, 0, 0, 0, 0⟩ (ComputeDimensions ⟨1, 1, 0, 0, 0, 0⟩ true)
      ⟨1, 1, [7, 8]⟩ ⟨1, 1, [0, 0, 0, 0]⟩ = [⟨1, 1, 2⟩] ∧
    ¬ (⟨1, 1, 2⟩ : MemcpyCall).InBounds 2 4 ∧
    copyRegion true ⟨0, 1, 0, 0, 0, 0⟩ ⟨0, 1, 0, 0, 0, 1⟩ ⟨1, 1, 0, 0, 0, 0⟩
      ⟨1, 1, [7, 8]⟩ ⟨1, 1, [0, 0, 0, 0]⟩ = none ∧
    naiveCopy true ⟨0, 1, 0, 0, 0, 0⟩ ⟨0, 1, 0, 0, 0, 1⟩ ⟨1, 1, 0, 0, 0, 0⟩
      ⟨1, 1, [7, 8]⟩ ⟨1, 1, [0, 0, 0, 0]⟩ = some ⟨1, 1, [0, 8, 0, 0]⟩ := by
  decide

theorem getD_set (f : List ℚ) (i j : Nat) (a : ℚ) (hi : i < f.length) :
    (f.set i a).getD j 0 = if i = j then a else f.getD j 0 := by
  simp only [List.getD_eq_getElem?_getD, List.getElem?_set]
  by_cases h : i = j
  · simp [h, hi]
    subst h
    simp [hi]
  · simp [h]

theorem volumeSum_succ (s : vtkExtentSplitter) (i : Nat) (hi : i < s.SubExtents.length) :
    volumeSum s (i + 1) = volumeSum s i + (s.GetSubExtent i).volume true := by
  unfold volumeSum vtkExtentSplitter.GetSubExtent
  rw [List.take_succ, List.map_append, List.sum_append, List.getD_eq_getElem?_getD,
    List.getElem?_eq_getElem hi]
  simp

theorem GetSubExtent_mem (s : vtkExtentSplitter) (i : Nat) (hi : i < s.SubExtents.length) :
    ∃ e ∈ s.SubExtents, s.GetSubExtent i = e.1 := by
  refine ⟨s.SubExtents[i], List.getElem_mem _, ?_⟩
  unfold vtkExtentSplitter.GetSubExtent
  rw [List.getD_eq_getElem?_getD, List.getElem?_eq_getElem hi]
  rfl

/-- The `int` product of the dimensions of a sub-extent is its point volume
when the volume is a value of `int`. -/
theorem mulInt_volume (e : Extent) (h : FitsInt (e.volume true)) :
    mulInt (mulInt (ComputeDimensions e true).v0 (ComputeDimensions e true).v1)
      (ComputeDimensions e true).v2 = e.volume true := by
  rw [mulInt_mulInt]
  exact wrapInt_of_fits _ h

/-- The accumulation loop: after `m` rounds entries `0..m` are the prefix sums. -/
theorem accumulate_spec (s : vtkExtentSplitter)
    (hfit : ∀ e ∈ s.SubExtents, FitsInt (e.1.volume true)) (f0 : List ℚ)
    (hlen : f0.length = s.SubExtents.length + 1) (h0 : f0.getD 0 0 = 0) (m : Nat)
    (hm : m ≤ s.SubExtents.length) :
    ((List.range m).foldl
      (fun (fractions : List ℚ) (i : Nat) =>
        fractions.set (i + 1)
          (fractions.getD i 0 +
            ((mulInt (mulInt (ComputeDimensions (s.GetSubExtent i) true).v0
              (ComputeDimensions (s.GetSubExtent i) true).v1)
              (ComputeDimensions (s.GetSubExtent i) true).v2 : Int) : ℚ)))
      f0).length = s.SubExtents.length + 1 ∧
    ∀ j ≤ m, ((List.range m).foldl
      (fun (fractions : List ℚ) (i : Nat) =>
        fractions.set (i + 1)
          (fractions.getD i 0 +
            ((mulInt (mulInt (ComputeDimensions (s.GetSubExtent i) true).v0
              (ComputeDimensions (s.GetSubExtent i) true).v1)
              (ComputeDimensions (s.GetSubExtent i) true).v2 : Int) : ℚ)))
      f0).getD j 0 = (volumeSum s j : ℚ) := by
  induction m with
  | zero =>
    refine ⟨hlen, fun j hj => ?_⟩
    have : j = 0 := by omega
    subst this
    rw [List.range_zero, List.foldl_nil, h0]
    simp [volumeSum]
  | succ m ih =>
    obtain ⟨ihl, ihv⟩ := ih (by omega)
    rw [List.range_succ, List.foldl_append, List.foldl_cons, List.foldl_nil]
    refine ⟨by rw [List.length_set]; exact ihl, fun j hj => ?_⟩
    rw [getD_set _ _ _ _ (by rw [ihl]; omega)]
    by_cases hj' : m + 1 = j
    · obtain ⟨e, he, heq⟩ := GetSubExtent_mem s m (by omega)
      rw [if_pos hj', ← hj', ihv m (le_refl _), volumeSum_succ s m (by omega),
        mulInt_volume _ (by rw [heq]; exact hfit e he)]
      push_cast
      rfl
    · rw [if_neg hj']
      exact ihv j (by omega)

/-- The normalisation loop: after rounds `1..m` those entries are divided by
entry `n`, which is still untouched while `m < n`. -/
theorem normalise_spec (n : Nat) (g : List ℚ) (hlen : g.length = n + 1) (m : Nat)
    (hm : m ≤ n) :
    ((List.range' 1 m).foldl
      (fun (fractions : List ℚ) (i : Nat) =>
        fractions.set i (fractions.getD i 0 / fractions.getD n 0)) g).length = n + 1 ∧
    ∀ j, ((List.range' 1 m).foldl
      (fun (fractions : List ℚ) (i : Nat) =>
        fractions.set i (fractions.getD i 0 / fractions.getD n 0)) g).getD j 0 =
      if 1 ≤ j ∧ j ≤ m then g.getD j 0 / g.getD n 0 else g.getD j 0 := by
  induction m with
  | zero =>
    refine ⟨hlen, fun j => ?_⟩
    rw [if_neg (show ¬ (1 ≤ j ∧ j ≤ 0) by omega)]
    rfl
  | succ m ih =>
    obtain ⟨ihl, ihv⟩ := ih (by omega)
    rw [List.range'_1_concat, List.foldl_append, List.foldl_cons, List.foldl_nil]
    refine ⟨by rw [List.length_set]; exact ihl, fun j => ?_⟩
    rw [getD_set _ _ _ _ (by rw [ihl]; omega), ihv (1 + m), ihv n, ihv j,
      if_neg (show ¬ (1 ≤ 1 + m ∧ 1 + m ≤ m) by omega),
      if_neg (show ¬ (1 ≤ n ∧ n ≤ m) by omega)]
    by_cases hj' : 1 + m = j
    · subst hj'
      rw [if_pos rfl, if_pos (show 1 ≤ 1 + m ∧ 1 + m ≤ m + 1 by omega)]
    · rw [if_neg hj']
      by_cases hj2 : 1 ≤ j ∧ j ≤ m
      · rw [if_pos hj2, if_pos (show 1 ≤ j ∧ j ≤ m + 1 by omega)]
      · rw [if_neg hj2, if_neg (show ¬ (1 ≤ j ∧ j ≤ m + 1) by omega)]

/-- Closed form of the progress fractions: entry 0 is what the guard left
there, entry `j ≥ 1` is the prefix sum over the guarded total. -/
theorem progressFractions_closed (s : vtkExtentSplitter)
    (hfit : ∀ e ∈ s.SubExtents, FitsInt (e.1.volume true)) :
    (progressFractions s).length = s.SubExtents.length + 1 ∧
    ∀ j ≤ s.SubExtents.length, (progressFractions s).getD j 0 =
      if j = 0 then (if s.SubExtents.length = 0 then 1 else 0)
      else (if j = s.SubExtents.length then
          (if (volumeSum s s.SubExtents.length : ℚ) = 0 then 1
            else (volumeSum s s.SubExtents.length : ℚ))
        else (volumeSum s j : ℚ)) /
        (if (volumeSum s s.SubExtents.length : ℚ) = 0 then 1
          else (volumeSum s s.SubExtents.length : ℚ)) := by
  have hn : s.GetNumberOfSubExtents.toNat = s.SubExtents.length := by
    simp [vtkExtentSplitter.GetNumberOfSubExtents]
  obtain ⟨h1l, h1v⟩ := accumulate_spec s hfit
    ((List.replicate (s.SubExtents.length + 1) 0).set 0 0)
    (by simp) (by rw [getD_set _ _ _ _ (by simp)]; simp) s.SubExtents.length (le_refl _)
  simp only [progressFractions, hn]
  generalize List.foldl _ ((List.replicate (s.SubExtents.length + 1) (0 : ℚ)).set 0 0)
    (List.range s.SubExtents.length) = f1 at h1l h1v ⊢
  generalize hT : (if (volumeSum s s.SubExtents.length : ℚ) = 0 then (1 : ℚ)
    else (volumeSum s s.SubExtents.length : ℚ)) = T
  -- the array after the guard
  have h2 : (if f1.getD s.SubExtents.length 0 = 0 then f1.set s.SubExtents.length 1
        else f1).length = s.SubExtents.length + 1 ∧
      ∀ j ≤ s.SubExtents.length,
        (if f1.getD s.SubExtents.length 0 = 0 then f1.set s.SubExtents.length 1
          else f1).getD j 0 =
        if j = s.SubExtents.length then T else (volumeSum s j : ℚ) := by
    rw [h1v _ (le_refl _)]
    by_cases h0 : (volumeSum s s.SubExtents.length : ℚ) = 0
    · rw [if_pos h0] at hT
      rw [if_pos h0]
      refine ⟨by rw [List.length_set]; exact h1l, fun j hj => ?_⟩
      rw [getD_set _ _ _ _ (by rw [h1l]; omega), hT]
      by_cases hjn : s.SubExtents.length = j
      · rw [if_pos hjn, if_pos hjn.symm]
      · rw [if_neg hjn, if_neg (Ne.symm hjn), h1v j hj]
    · rw [if_neg h0] at hT
      rw [if_neg h0]
      refine ⟨h1l, fun j hj => ?_⟩
      by_cases hjn : j = s.SubExtents.length
      · rw [if_pos hjn, hjn, h1v _ (le_refl _), hT]
      · rw [if_neg hjn, h1v j hj]
  generalize (if f1.getD s.SubExtents.length 0 = 0 then f1.set s.SubExtents.length 1
    else f1) = f2 at h2 ⊢
  obtain ⟨h2l, h2v⟩ := h2
  obtain ⟨h3l, h3v⟩ := normalise_spec s.SubExtents.length f2 h2l s.SubExtents.length (le_refl _)
  refine ⟨h3l, fun j hj => ?_⟩
  rw [h3v j]
  by_cases hj0 : j = 0
  · subst hj0
    rw [if_neg (show ¬ (1 ≤ 0 ∧ 0 ≤ s.SubExtents.length) by omega), if_pos rfl,
      h2v 0 (Nat.zero_le _)]
    by_cases hn0 : s.SubExtents.length = 0
    · rw [if_pos hn0.symm, if_pos hn0, ← hT, hn0]
      simp [volumeSum]
    · rw [if_neg (Ne.symm hn0), if_neg hn0]
      simp [volumeSum]
  · rw [if_pos (show 1 ≤ j ∧ j ≤ s.SubExtents.length by omega), if_neg hj0, h2v j hj,
      h2v _ (le_refl _), if_pos rfl]

/-- The guarded total: the sum of all volumes, or 1 when that sum is 0. -/
theorem progressFractions_value (s : vtkExtentSplitter)
    (hfit : ∀ e ∈ s.SubExtents, FitsInt (e.1.volume true)) (j : Nat)
    (hj : j ≤ s.SubExtents.length) :
    (progressFractions s).getD j 0 =
      if j = s.SubExtents.length then 1
      else (volumeSum s j : ℚ) /
        (if (volumeSum s s.SubExtents.length : ℚ) = 0 then 1
          else (volumeSum s s.SubExtents.length : ℚ)) := by
  rw [(progressFractions_closed s hfit).2 j hj]
  have hT : (if (volumeSum s s.SubExtents.length : ℚ) = 0 then (1 : ℚ)
      else (volumeSum s s.SubExtents.length : ℚ)) ≠ 0 := by
    split
    · exact one_ne_zero
    · assumption
  by_cases hj0 : j = 0
  · subst hj0
    rw [if_pos rfl]
    by_cases hn0 : s.SubExtents.length = 0
    · rw [if_pos hn0, if_pos hn0.symm]
    · rw [if_neg hn0, if_neg (Ne.symm hn0)]
      simp [volumeSum]
  · rw [if_neg hj0]
    by_cases hjn : j = s.SubExtents.length
    · rw [if_pos hjn, if_pos hjn, div_self hT]
    · rw [if_neg hjn, if_neg hjn]

theorem volumeSum_zero (s : vtkExtentSplitter) : volumeSum s 0 = 0 := by
  simp [volumeSum]

/-- With non-negative volumes the prefix sums grow. -/
theorem volumeSum_mono (s : vtkExtentSplitter)
    (hvol : ∀ e ∈ s.SubExtents, 0 ≤ e.1.volume true) (i j : Nat) (hij : i ≤ j)
    (hj : j ≤ s.SubExtents.length) : volumeSum s i ≤ volumeSum s j := by
  induction j with
  | zero =>
    have : i = 0 := by omega
    rw [this]
  | succ j ih =>
    by_cases hi : i = j + 1
    · rw [hi]
    · have h1 := ih (by omega) (by omega)
      obtain ⟨e, he, heq⟩ := GetSubExtent_mem s j (by omega)
      have h2 := hvol e he
      rw [volumeSum_succ s j (by omega), heq]
      omega

theorem getElem?_eq_some_getD (l : List ℚ) (j : Nat) (hj : j < l.length) :
    l[j]? = some (l.getD j 0) := by
  rw [List.getD_eq_getElem?_getD, List.getElem?_eq_getElem hj]
  rfl

/-- C9, refuted as stated: with no sub-extent (`n = 0`) the guard against a
zero total overwrites entry 0, and the array is the single entry 1, not 0. -/
theorem progressFractions_empty_counterexample :
    (⟨[], [], []⟩ : vtkExtentSplitter).GetNumberOfSubExtents = 0 ∧
    progressFractions ⟨[], [], []⟩ = [1] ∧
    (progressFractions ⟨[], [], []⟩).getD 0 0 ≠ 0 := by
  have h : progressFractions ⟨[], [], []⟩ = [1] := by
    simp [progressFractions, vtkExtentSplitter.GetNumberOfSubExtents]
  refine ⟨rfl, h, ?_⟩
  rw [h]
  simp

/-- C9, amended: for every sequence of `n ≥ 0` sub-extents with non-negative
point volumes below 2^31 (the values of the `int` product) the cumulative
fraction array has length `n+1`, ends in 1, has every value in `[0,1]` and is
non-decreasing; entry 0 is 0 when `n ≥ 1`, while for `n = 0` the array is the
single entry 1; when all `n ≥ 1` volumes are zero the array is 0 everywhere
except the last entry, which is 1. -/
theorem progressFractions_invariants (s : vtkExtentSplitter)
    (hbound : ∀ e ∈ s.SubExtents, 0 ≤ e.1.volume true ∧ e.1.volume true < 2147483648) :
    (progressFractions s).length = s.SubExtents.length + 1 ∧
    (progressFractions s).getD s.SubExtents.length 0 = 1 ∧
    (∀ j ≤ s.SubExtents.length,
      0 ≤ (progressFractions s).getD j 0 ∧ (progressFractions s).getD j 0 ≤ 1) ∧
    (∀ i j, i ≤ j → j ≤ s.SubExtents.length →
      (progressFractions s).getD i 0 ≤ (progressFractions s).getD j 0) ∧
    (1 ≤ s.SubExtents.length → (progressFractions s).getD 0 0 = 0) ∧
    (s.SubExtents.length = 0 → progressFractions s = [1]) ∧
    (1 ≤ s.SubExtents.length → (∀ e ∈ s.SubExtents, e.1.volume true = 0) →
      progressFractions s = List.replicate s.SubExtents.length 0 ++ [1]) := by
  have hvol : ∀ e ∈ s.SubExtents, 0 ≤ e.1.volume true := fun e he => (hbound e he).1
  have hfit : ∀ e ∈ s.SubExtents, FitsInt (e.1.volume true) := fun e he =>
    ⟨le_trans (by decide) (hbound e he).1, (hbound e he).2⟩
  have hlen := (progressFractions_closed s hfit).1
  have hS0 : ∀ j ≤ s.SubExtents.length, (0 : ℚ) ≤ (volumeSum s j : ℚ) := fun j hj => by
    have := volumeSum_mono s hvol 0 j (Nat.zero_le _) hj
    rw [volumeSum_zero] at this
    exact_mod_cast this
  have hSn : ∀ j ≤ s.SubExtents.length,
      (volumeSum s j : ℚ) ≤ (volumeSum s s.SubExtents.length : ℚ) := fun j hj => by
    exact_mod_cast volumeSum_mono s hvol j _ hj (le_refl _)
  have hTpos : (0 : ℚ) < (if (volumeSum s s.SubExtents.length : ℚ) = 0 then (1 : ℚ)
      else (volumeSum s s.SubExtents.length : ℚ)) := by
    split
    · exact one_pos
    · exact lt_of_le_of_ne (hS0 _ (le_refl _)) (Ne.symm ‹_›)
  have hST : ∀ j ≤ s.SubExtents.length, (volumeSum s j : ℚ) ≤
      (if (volumeSum s s.SubExtents.length : ℚ) = 0 then (1 : ℚ)
        else (volumeSum s s.SubExtents.length : ℚ)) := fun j hj => by
    split
    · rename_i h0
      have := hSn j hj
      rw [h0] at this
      linarith
    · exact hSn j hj
  have hrange : ∀ j ≤ s.SubExtents.length,
      0 ≤ (progressFractions s).getD j 0 ∧ (progressFractions s).getD j 0 ≤ 1 := by
    intro j hj
    rw [progressFractions_value s hfit j hj]
    split
    · exact ⟨zero_le_one, le_refl _⟩
    · exact ⟨div_nonneg (hS0 j hj) hTpos.le, (div_le_one hTpos).mpr (hST j hj)⟩
  refine ⟨hlen, ?_, hrange, ?_, ?_, ?_, ?_⟩
  · rw [progressFractions_value s hfit _ (le_refl _), if_pos rfl]
  · intro i j hij hj
    by_cases hjn : j = s.SubExtents.length
    · rw [progressFractions_value s hfit j hj, if_pos hjn]
      exact (hrange i (by omega)).2
    · rw [progressFractions_value s hfit j hj, progressFractions_value s hfit i (by omega),
        if_neg hjn, if_neg (show ¬ i = s.SubExtents.length by omega)]
      exact div_le_div_of_nonneg_right
        (by exact_mod_cast volumeSum_mono s hvol i j hij hj) hTpos.le
  · intro hn
    rw [progressFractions_value s hfit 0 (Nat.zero_le _),
      if_neg (show ¬ 0 = s.SubExtents.length by omega), volumeSum_zero]
    simp
  · intro hn
    apply List.ext_getElem?
    intro j
    by_cases hj : j = 0
    · subst hj
      rw [getElem?_eq_some_getD _ _ (by rw [hlen]; omega),
        progressFractions_value s hfit 0 (Nat.zero_le _), if_pos hn.symm]
      rfl
    · rw [List.getElem?_eq_none (by rw [hlen]; omega), List.getElem?_eq_none (by simp; omega)]
  · intro hn hzero
    have hSzero : ∀ j ≤ s.SubExtents.length, volumeSum s j = 0 := by
      intro j hj
      induction j with
      | zero => exact volumeSum_zero s
      | succ j ih =>
        obtain ⟨e, he, heq⟩ := GetSubExtent_mem s j (by omega)
        rw [volumeSum_succ s j (by omega), ih (by omega), heq, hzero e he]
        rfl
    apply List.ext_getElem?
    intro j
    by_cases hj : j ≤ s.SubExtents.length
    · rw [getElem?_eq_some_getD _ _ (by rw [hlen]; omega), progressFractions_value s hfit j hj]
      by_cases hjn : j = s.SubExtents.length
      · rw [if_pos hjn, hjn, List.getElem?_append_right (by simp)]
        simp
      · have hjlt : j < s.SubExtents.length := by omega
        rw [if_neg hjn, hSzero j hj,
          List.getElem?_append_left (by rw [List.length_replicate]; exact hjlt),
          List.getElem?_replicate, if_pos hjlt]
        simp
    · rw [List.getElem?_eq_none (by rw [hlen]; omega), List.getElem?_eq_none (by simp; omega)]

/-- Witness for C9 amended: the two halves of a 10x10 plane. -/
theorem progressFractions_invariants_witness :
    (progressFractions ⟨[], [], [(⟨0, 4, 0, 9, 0, 0⟩, 0), (⟨5, 9, 0, 9, 0, 0⟩, 1)]⟩).length =
      2 + 1 ∧
    (progressFractions ⟨[], [], [(⟨0, 4, 0, 9, 0, 0⟩, 0), (⟨5, 9, 0, 9, 0, 0⟩, 1)]⟩).getD 2 0
      = 1 :=
  ⟨(progressFractions_invariants ⟨[], [], [(⟨0, 4, 0, 9, 0, 0⟩, 0), (⟨5, 9, 0, 9, 0, 0⟩, 1)]⟩
      (by decide)).1,
    (progressFractions_invariants ⟨[], [], [(⟨0, 4, 0, 9, 0, 0⟩, 0), (⟨5, 9, 0, 9, 0, 0⟩, 1)]⟩
      (by decide)).2.1⟩

/-- C6, evaluated at a failing input.  The piece delivered
`[0,1]x[0,1]x[0,1]`, the request is the same extent and the region
`[0,0]x[0,1]x[0,1]`, contained in both, has no cell along axis 0.  Source and
destination cell dimensions agree, so the whole volume of one cell is copied
and the destination changes, where the tuple-by-tuple copy of the region
copies nothing. -/
theorem CopyArrayForCells_degenerate_counterexample :
    (⟨0, 1, 0, 1, 0, 1⟩ : Extent).Contains ⟨0, 0, 0, 1, 0, 1⟩ ∧
    (ComputeDimensions ⟨0, 0, 0, 1, 0, 1⟩ false).v0 = 0 ∧
    (⟨1, 1, [7]⟩ : vtkDataArray).Covers ⟨0, 1, 0, 1, 0, 1⟩ false ∧
    (⟨1, 1, [0]⟩ : vtkDataArray).Covers ⟨0, 1, 0, 1, 0, 1⟩ false ∧
    CopyArrayForCells
      (Reader.initial.withExtents ⟨0, 1, 0, 1, 0, 1⟩ ⟨0, 0, 0, 1, 0, 1⟩ ⟨0, 1, 0, 1, 0, 1⟩)
      (some ⟨1, 1, [7]⟩) (some ⟨1, 1, [0]⟩) = some (some ⟨1, 1, [7]⟩) ∧
    CopySubExtentCalls ⟨0, 1, 0, 1, 0, 1⟩ (ComputeDimensions ⟨0, 1, 0, 1, 0, 1⟩ false)
      (ComputeIncrements ⟨0, 1, 0, 1, 0, 1⟩ false) ⟨0, 1, 0, 1, 0, 1⟩
      (ComputeDimensions ⟨0, 1, 0, 1, 0, 1⟩ false) (ComputeIncrements ⟨0, 1, 0, 1, 0, 1⟩ false)
      ⟨0, 0, 0, 1, 0, 1⟩ (ComputeDimensions ⟨0, 0, 0, 1, 0, 1⟩ false)
      ⟨1, 1, [7]⟩ ⟨1, 1, [0]⟩ = [⟨0, 0, 1⟩] ∧
    naiveCopyCalls false ⟨0, 1, 0, 1, 0, 1⟩ ⟨0, 1, 0, 1, 0, 1⟩ ⟨0, 0, 0, 1, 0, 1⟩
      ⟨1, 1, [7]⟩ ⟨1, 1, [0]⟩ = [] ∧
    naiveCopy false ⟨0, 1, 0, 1, 0, 1⟩ ⟨0, 1, 0, 1, 0, 1⟩ ⟨0, 0, 0, 1, 0, 1⟩
      ⟨1, 1, [7]⟩ ⟨1, 1, [0]⟩ = some ⟨1, 1, [0]⟩ := by
  decide

/-! ## The read loop -/

/-- C7, refuted as stated: in the scenario with request `[0,9][0,9][0,0]` and
only the source `[0,4][0,9][0,0]`, the splitter assigns the first half to
piece 0, yet `ReadXMLData` sets `DataError` and returns before the read loop:
no piece is updated and nothing is copied. -/
theorem ReadXMLData_uncovered_counterexample :
    (ReadXMLData halfCoverage { Reader.initial with NumberOfPieces := 1 }).ExtentSplitter.SubExtents
      = [(⟨0, 4, 0, 9, 0, 0⟩, 0), (⟨5, 9, 0, 9, 0, 0⟩, -1)] ∧
    (ReadXMLData halfCoverage { Reader.initial with NumberOfPieces := 1 }).DataError = 1 ∧
    (ReadXMLData halfCoverage { Reader.initial with NumberOfPieces := 1 }).Log = [] := by
  decide

/-- C7, amended: when `ComputePieceSubExtents` reports that part of the update
extent has no source piece, `ReadXMLData` marks the read with `DataError` and
returns at once: no piece is updated, nothing is copied into the output and
the output extent is not set. -/
theorem ReadXMLData_uncovered (env : Collaborators) (r : Reader)
    (h : (ComputePieceSubExtents env (prepareUpdate env r)).2 = 0) :
    (ReadXMLData env r).DataError = 1 ∧
    (ReadXMLData env r).Log = r.Log ∧
    (ReadXMLData env r).OutputExtent = r.OutputExtent := by
  have e : ReadXMLData env r =
      { (ComputePieceSubExtents env (prepareUpdate env r)).1 with DataError := 1 } := by
    unfold ReadXMLData
    simp only [h, if_true]
  rw [e]
  refine ⟨rfl, ?_, ?_⟩
  · show (ComputePieceSubExtents env (prepareUpdate env r)).1.Log = r.Log
    unfold ComputePieceSubExtents
    simp only []
    split <;> rfl
  · show (ComputePieceSubExtents env (prepareUpdate env r)).1.OutputExtent = r.OutputExtent
    unfold ComputePieceSubExtents
    simp only []
    split <;> rfl

/-- Witness for C7 amended: the partial coverage scenario, started with a
piece read already in the log. -/
theorem ReadXMLData_uncovered_witness :
    (ReadXMLData halfCoverage { Reader.initial with
      NumberOfPieces := 1, Log := [Event.UpdatePiece 7 emptyExtent] }).DataError = 1 ∧
    (ReadXMLData halfCoverage { Reader.initial with
      NumberOfPieces := 1, Log := [Event.UpdatePiece 7 emptyExtent] }).Log =
      ({ Reader.initial with
        NumberOfPieces := 1, Log := [Event.UpdatePiece 7 emptyExtent] } : Reader).Log ∧
    (ReadXMLData halfCoverage { Reader.initial with
      NumberOfPieces := 1, Log := [Event.UpdatePiece 7 emptyExtent] }).OutputExtent =
      ({ Reader.initial with
        NumberOfPieces := 1, Log := [Event.UpdatePiece 7 emptyExtent] } : Reader).OutputExtent :=
  ReadXMLData_uncovered halfCoverage
    { Reader.initial with NumberOfPieces := 1, Log := [Event.UpdatePiece 7 emptyExtent] }
    (by decide)

/-- C8, refuted as stated: one piece covers the request and reads without
error, the abort signal is raised while the piece updates; `ReadPieceData`
returns 0 and `ReadXMLData` ends with `DataError` set, from a clean start. -/
theorem ReadXMLData_abort_counterexample :
    ({ Reader.initial with NumberOfPieces := 1 } : Reader).DataError = 0 ∧
    (ReadXMLData abortDuringUpdate { Reader.initial with NumberOfPieces := 1 }).AbortExecute = 1 ∧
    (ReadXMLData abortDuringUpdate { Reader.initial with NumberOfPieces := 1 }).Log =
      [Event.UpdatePiece 0 ⟨0, 9, 0, 9, 0, 0⟩] ∧
    (ReadXMLData abortDuringUpdate { Reader.initial with NumberOfPieces := 1 }).DataError = 1 := by
  decide

/-- C8, amended: an abort seen at the loop boundary ends the read loop with
the reader unchanged, so the remaining sub-extents are skipped and
`DataError` is not set by it; an abort raised while the piece of sub-extent
`i` updates makes `ReadPieceData` return 0 before anything is copied, the
loop body sets `DataError` to 1, and the remaining sub-extents are skipped;
an abort raised later in that iteration, while the arrays are copied, is seen
at the next loop test and leaves `DataError` at 0. -/
theorem ReadXMLData_abort (env : Collaborators) :
    (∀ (rest : List Nat) (r : Reader), r.AbortExecute ≠ 0 → readLoop env rest r = r) ∧
    (∀ (i : Nat) (rest : List Nat) (r : Reader), r.AbortExecute = 0 → r.DataError = 0 →
      env.AbortDuringUpdate (r.ExtentSplitter.GetSubExtentSource i)
        (r.ExtentSplitter.GetSubExtent i) = true →
      readLoop env (i :: rest) r = readStep env i r ∧
      (readStep env i r).DataError = 1 ∧
      (readStep env i r).AbortExecute = 1 ∧
      (readStep env i r).Log = r.Log ++
        [Event.UpdatePiece (r.ExtentSplitter.GetSubExtentSource i)
          (r.ExtentSplitter.GetSubExtent i)]) ∧
    (∀ (i : Nat) (rest : List Nat) (r : Reader), r.AbortExecute = 0 → r.DataError = 0 →
      env.AbortDuringUpdate (r.ExtentSplitter.GetSubExtentSource i)
        (r.ExtentSplitter.GetSubExtent i) = false →
      env.AbortDuringCopy (r.ExtentSplitter.GetSubExtentSource i)
        (r.ExtentSplitter.GetSubExtent i) = true →
      env.SuperclassReadPieceData (r.ExtentSplitter.GetSubExtentSource i)
        (r.ExtentSplitter.GetSubExtent i) ≠ 0 →
      readLoop env (i :: rest) r = readStep env i r ∧
      (readStep env i r).DataError = 0 ∧
      (readStep env i r).AbortExecute = 1) := by
  have hstop : ∀ (rest : List Nat) (r : Reader), r.AbortExecute ≠ 0 →
      readLoop env rest r = r := by
    intro rest r h
    cases rest with
    | nil => rfl
    | cons i rest =>
      unfold readLoop
      rw [if_neg (fun hc => h hc.1)]
  refine ⟨hstop, ?_, ?_⟩
  · intro i rest r ha hd habort
    have hstep : readStep env i r =
        { r with
          Piece := r.ExtentSplitter.GetSubExtentSource i
          SubExtent := r.ExtentSplitter.GetSubExtent i
          SubPointDimensions := ComputeDimensions (r.ExtentSplitter.GetSubExtent i) true
          SubCellDimensions := ComputeDimensions (r.ExtentSplitter.GetSubExtent i) false
          Log := r.Log ++ [Event.UpdatePiece (r.ExtentSplitter.GetSubExtentSource i)
            (r.ExtentSplitter.GetSubExtent i)]
          AbortExecute := 1
          DataError := 1 } := by
      simp [readStep, SuperclassReadPieceData, ReadPieceData, habort]
    refine ⟨?_, ?_, ?_, ?_⟩
    · have hnext : readLoop env rest (readStep env i r) = readStep env i r := by
        cases rest with
        | nil => rfl
        | cons i' rest' =>
          unfold readLoop
          rw [if_neg (by rw [hstep]; simp)]
      rw [readLoop, if_pos ⟨ha, hd⟩, hnext]
    · rw [hstep]
    · rw [hstep]
    · rw [hstep]
  · intro i rest r ha hd hupd hcopy hret
    have hda : (readStep env i r).DataError = 0 ∧ (readStep env i r).AbortExecute = 1 := by
      simp [readStep, SuperclassReadPieceData, ReadPieceData, hupd, hcopy, hret, ha, hd]
    refine ⟨?_, hda.1, hda.2⟩
    rw [readLoop, if_pos ⟨ha, hd⟩]
    exact hstop rest _ (by rw [hda.2]; decide)

/-- Witness for C8 amended: the abort scenario, at the loop boundary and
inside the piece read. -/
theorem ReadXMLData_abort_witness :
    readLoop abortDuringUpdate [0, 1] { Reader.initial with AbortExecute := 1 } =
      { Reader.initial with AbortExecute := 1 } ∧
    (readStep abortDuringUpdate 0 Reader.initial).DataError = 1 :=
  ⟨(ReadXMLData_abort abortDuringUpdate).1 [0, 1] { Reader.initial with AbortExecute := 1 }
      (by decide),
    ((ReadXMLData_abort abortDuringUpdate).2.1 0 [1] Reader.initial rfl rfl rfl).2.1⟩

/-- Every offset below the volume has digits in the mixed radix `(D0, D1, D2)`. -/
theorem radix_surj (D0 D1 D2 t : Int) (h0 : 0 ≤ D0) (h1 : 0 ≤ D1) (ht0 : 0 ≤ t)
    (ht : t < D0 * D1 * D2) :
    ∃ X Y Z : Int, 0 ≤ X ∧ X < D0 ∧ 0 ≤ Y ∧ Y < D1 ∧ 0 ≤ Z ∧ Z < D2 ∧
      X + Y * D0 + Z * (D0 * D1) = t := by
  have hD0 : 0 < D0 := by
    rcases h0.lt_or_eq with h | h
    · exact h
    · rw [← h] at ht; simp at ht; omega
  have hD1 : 0 < D1 := by
    rcases h1.lt_or_eq with h | h
    · exact h
    · rw [← h] at ht; simp at ht; omega
  have hq0 : 0 ≤ t / D0 := Int.ediv_nonneg ht0 h0
  have hq1 : t / D0 < D1 * D2 := by
    apply Int.ediv_lt_of_lt_mul hD0
    calc t < D0 * D1 * D2 := ht
      _ = D1 * D2 * D0 := by ring
  have hZ : t / D0 / D1 < D2 := by
    apply Int.ediv_lt_of_lt_mul hD1
    calc t / D0 < D1 * D2 := hq1
      _ = D2 * D1 := by ring
  refine ⟨t % D0, (t / D0) % D1, t / D0 / D1, Int.emod_nonneg _ hD0.ne', Int.emod_lt_of_pos _ hD0,
    Int.emod_nonneg _ hD1.ne', Int.emod_lt_of_pos _ hD1, Int.ediv_nonneg hq0 h1, hZ, ?_⟩
  have e1 := Int.emod_add_ediv t D0
  have e2 := Int.emod_add_ediv (t / D0) D1
  calc t % D0 + t / D0 % D1 * D0 + t / D0 / D1 * (D0 * D1)
      = t % D0 + D0 * (t / D0 % D1 + D1 * (t / D0 / D1)) := by ring
    _ = t % D0 + D0 * (t / D0) := by rw [e2]
    _ = t := e1

/-- C18: for a non-empty extent with the increments `(1, dim0, dim0*dim1)`
derived from its own dimensions, `GetStartTuple` is a bijection from the index
triples inside the extent onto the tuple offsets `0 .. dim0*dim1*dim2 - 1`:
every offset is in range, distinct indices get distinct offsets, and every
offset of the range is taken. -/
theorem GetStartTuple_bijection (isPoint : Bool) (e : Extent) (hne : e.NonEmpty) :
    ComputeIncrements e isPoint =
      ⟨1, (ComputeDimensions e isPoint).v0,
        (ComputeDimensions e isPoint).v0 * (ComputeDimensions e isPoint).v1⟩ ∧
    (∀ x y z : Int, e.HasIndex isPoint x y z →
      0 ≤ GetStartTuple e (ComputeIncrements e isPoint) x y z ∧
      GetStartTuple e (ComputeIncrements e isPoint) x y z ≤ e.volume isPoint - 1) ∧
    (∀ x y z x' y' z' : Int, e.HasIndex isPoint x y z → e.HasIndex isPoint x' y' z' →
      GetStartTuple e (ComputeIncrements e isPoint) x y z =
        GetStartTuple e (ComputeIncrements e isPoint) x' y' z' →
      x = x' ∧ y = y' ∧ z = z') ∧
    (∀ t : Int, 0 ≤ t → t ≤ e.volume isPoint - 1 →
      ∃ x y z : Int, e.HasIndex isPoint x y z ∧
        GetStartTuple e (ComputeIncrements e isPoint) x y z = t) := by
  refine ⟨by simp [ComputeIncrements], ?_, ?_, ?_⟩
  · intro x y z h
    have := GetStartTuple_range e isPoint x y z h
    exact ⟨this.1, by omega⟩
  · intro x y z x' y' z' h h' heq
    have hδ := modeOffset_nonneg isPoint
    obtain ⟨a0, a1, a2, a3, a4, a5⟩ := e
    simp only [ComputeIncrements, ComputeDimensions_eq, Extent.HasIndex, GetStartTuple]
      at h h' heq
    generalize modeOffset isPoint = δ at *
    obtain ⟨hx, hy, hz⟩ := radix3 (a1 - a0 + δ) (a3 - a2 + δ) (x - a0) (y - a2) (z - a4)
      (x' - a0) (y' - a2) (z' - a4) (by omega) (by omega) (by omega) (by omega) (by omega)
      (by omega) (by omega) (by omega) (by linarith)
    exact ⟨by omega, by omega, by omega⟩
  · intro t ht0 ht
    have hδ := modeOffset_nonneg isPoint
    obtain ⟨a0, a1, a2, a3, a4, a5⟩ := e
    simp only [Extent.NonEmpty] at hne
    simp only [ComputeIncrements, ComputeDimensions_eq, Extent.HasIndex, GetStartTuple,
      Extent.volume] at ht ⊢
    generalize modeOffset isPoint = δ at *
    obtain ⟨X, Y, Z, hX0, hX, hY0, hY, hZ0, hZ, heq⟩ := radix_surj (a1 - a0 + δ)
      (a3 - a2 + δ) (a5 - a4 + δ) t (by omega) (by omega) ht0 (by omega)
    refine ⟨a0 + X, a2 + Y, a4 + Z, ⟨by omega, by omega, by omega, by omega, by omega,
      by omega⟩, ?_⟩
    rw [← heq]
    ring

/-- Witness for C18: a 2x3x2 block of points. -/
theorem GetStartTuple_bijection_witness :
    ComputeIncrements ⟨1, 2, 0, 2, 5, 6⟩ true =
      ⟨1, (ComputeDimensions ⟨1, 2, 0, 2, 5, 6⟩ true).v0,
        (ComputeDimensions ⟨1, 2, 0, 2, 5, 6⟩ true).v0 *
          (ComputeDimensions ⟨1, 2, 0, 2, 5, 6⟩ true).v1⟩ ∧
    (∀ x y z : Int, (⟨1, 2, 0, 2, 5, 6⟩ : Extent).HasIndex true x y z →
      0 ≤ GetStartTuple ⟨1, 2, 0, 2, 5, 6⟩ (ComputeIncrements ⟨1, 2, 0, 2, 5, 6⟩ true) x y z ∧
      GetStartTuple ⟨1, 2, 0, 2, 5, 6⟩ (ComputeIncrements ⟨1, 2, 0, 2, 5, 6⟩ true) x y z ≤
        (⟨1, 2, 0, 2, 5, 6⟩ : Extent).volume true - 1) ∧
    (∀ x y z x' y' z' : Int, (⟨1, 2, 0, 2, 5, 6⟩ : Extent).HasIndex true x y z →
      (⟨1, 2, 0, 2, 5, 6⟩ : Extent).HasIndex true x' y' z' →
      GetStartTuple ⟨1, 2, 0, 2, 5, 6⟩ (ComputeIncrements ⟨1, 2, 0, 2, 5, 6⟩ true) x y z =
        GetStartTuple ⟨1, 2, 0, 2, 5, 6⟩ (ComputeIncrements ⟨1, 2, 0, 2, 5, 6⟩ true) x' y' z' →
      x = x' ∧ y = y' ∧ z = z') ∧
    (∀ t : Int, 0 ≤ t → t ≤ (⟨1, 2, 0, 2, 5, 6⟩ : Extent).volume true - 1 →
      ∃ x y z : Int, (⟨1, 2, 0, 2, 5, 6⟩ : Extent).HasIndex true x y z ∧
        GetStartTuple ⟨1, 2, 0, 2, 5, 6⟩ (ComputeIncrements ⟨1, 2, 0, 2, 5, 6⟩ true) x y z = t) :=
  GetStartTuple_bijection true ⟨1, 2, 0, 2, 5, 6⟩ (by decide)

/-- In the row tier the region need not span the source: the contiguous
shortcuts are not taken. -/
theorem spansFastAxes_of_row_tier (inE : Extent) (inD outD : Int3) (subE : Extent)
    (htier : inD.v0 ≠ outD.v0 ∨ inD.v1 ≠ outD.v1) : SpansFastAxes inE inD outD subE := by
  constructor
  · rintro ⟨h0, h1⟩
    rcases htier with h | h
    · exact absurd h0 h
    · exact absurd h1 h
  · rintro ⟨h0, h1, _⟩
    rcases htier with h | h
    · exact absurd h0 h
    · exact absurd h1 h

/-- C17: in the row-at-a-time tier (source and destination dimensions differ
on axis 0 or on axis 1), for every non-empty region contained in both the
source and the destination extent, `CopySubExtent` completes, sets every
destination tuple of the region to the source tuple at the same `(x,y,z)`,
changes no destination tuple outside the region, and every row copy stays
within both buffers. -/
theorem CopySubExtent_row_tier (isPoint : Bool) (inE outE subE : Extent)
    (inA outA : vtkDataArray)
    (hsize : outA.DataTypeSize = inA.DataTypeSize)
    (hcomp : outA.NumberOfComponents = inA.NumberOfComponents)
    (hin : inE.Contains subE) (hout : outE.Contains subE) (hne : subE.NonEmpty)
    (htier : (ComputeDimensions inE isPoint).v0 ≠ (ComputeDimensions outE isPoint).v0 ∨
      (ComputeDimensions inE isPoint).v1 ≠ (ComputeDimensions outE isPoint).v1)
    (hinA : inA.Covers inE isPoint) (houtA : outA.Covers outE isPoint) :
    (∃ out', copyRegion isPoint inE outE subE inA outA = some out' ∧
      (∀ x y z : Int, subE.HasIndex isPoint x y z →
        out'.tuple (GetStartTuple outE (ComputeIncrements outE isPoint) x y z) =
          inA.tuple (GetStartTuple inE (ComputeIncrements inE isPoint) x y z)) ∧
      (∀ x y z : Int, outE.HasIndex isPoint x y z → ¬ subE.HasIndex isPoint x y z →
        out'.tuple (GetStartTuple outE (ComputeIncrements outE isPoint) x y z) =
          outA.tuple (GetStartTuple outE (ComputeIncrements outE isPoint) x y z))) ∧
    (∀ c ∈ CopySubExtentCalls inE (ComputeDimensions inE isPoint)
        (ComputeIncrements inE isPoint) outE (ComputeDimensions outE isPoint)
        (ComputeIncrements outE isPoint) subE (ComputeDimensions subE isPoint) inA outA,
      c.count = (ComputeDimensions subE isPoint).v0 * (inA.tupleSize : Int) ∧
      c.InBounds inA.data.length outA.data.length) := by
  have hspan := spansFastAxes_of_row_tier inE (ComputeDimensions inE isPoint)
    (ComputeDimensions outE isPoint) subE htier
  have hnot : ¬ ((ComputeDimensions inE isPoint).v0 = (ComputeDimensions outE isPoint).v0 ∧
      (ComputeDimensions inE isPoint).v1 = (ComputeDimensions outE isPoint).v1) := by
    rintro ⟨h0, h1⟩
    rcases htier with h | h
    · exact h h0
    · exact h h1
  have hts : outA.tupleSize = inA.tupleSize := by
    simp [vtkDataArray.tupleSize, hsize, hcomp]
  have hfit : ShortcutCountsFit (ComputeDimensions inE isPoint) (ComputeDimensions outE isPoint)
      inA := ⟨fun h => absurd ⟨h.1, h.2.1⟩ hnot, fun h => absurd ⟨h.1, h.2.1⟩ hnot⟩
  constructor
  · obtain ⟨out', h, _, _, _, hreg, hframe⟩ :=
      copyRegion_spec isPoint inE outE subE inA outA hsize hcomp hin hout hne hspan hfit hinA
        houtA
    exact ⟨out', h, hreg, hframe⟩
  · intro c hc
    refine ⟨?_, inBounds_of_form isPoint inE outE subE _ (Int.natCast_nonneg _) _ _ hinA
      (by rw [← hts]; exact houtA) c
      (calls_form_rows isPoint inE outE subE inA outA hsize hin hout hne hnot c hc)⟩
    simp only [CopySubExtentCalls, if_neg hnot, List.mem_flatMap, List.mem_map,
      List.mem_range] at hc
    obtain ⟨k, _, j, _, rfl⟩ := hc
    simp only [tupleSize_cast]

/-- Witness for C17: a 2x2 piece copied into the right part of a 3x2 output. -/
theorem CopySubExtent_row_tier_witness :
    (∃ out', copyRegion true ⟨1, 2, 0, 1, 0, 0⟩ ⟨0, 2, 0, 1, 0, 0⟩ ⟨1, 2, 0, 1, 0, 0⟩
        ⟨1, 1, [1, 2, 3, 4]⟩ ⟨1, 1, [9, 9, 9, 9, 9, 9]⟩ = some out' ∧
      (∀ x y z : Int, (⟨1, 2, 0, 1, 0, 0⟩ : Extent).HasIndex true x y z →
        out'.tuple (GetStartTuple ⟨0, 2, 0, 1, 0, 0⟩
            (ComputeIncrements ⟨0, 2, 0, 1, 0, 0⟩ true) x y z) =
          (⟨1, 1, [1, 2, 3, 4]⟩ : vtkDataArray).tuple (GetStartTuple ⟨1, 2, 0, 1, 0, 0⟩
            (ComputeIncrements ⟨1, 2, 0, 1, 0, 0⟩ true) x y z)) ∧
      (∀ x y z : Int, (⟨0, 2, 0, 1, 0, 0⟩ : Extent).HasIndex true x y z →
        ¬ (⟨1, 2, 0, 1, 0, 0⟩ : Extent).HasIndex true x y z →
        out'.tuple (GetStartTuple ⟨0, 2, 0, 1, 0, 0⟩
            (ComputeIncrements ⟨0, 2, 0, 1, 0, 0⟩ true) x y z) =
          (⟨1, 1, [9, 9, 9, 9, 9, 9]⟩ : vtkDataArray).tuple (GetStartTuple ⟨0, 2, 0, 1, 0, 0⟩
            (ComputeIncrements ⟨0, 2, 0, 1, 0, 0⟩ true) x y z))) ∧
    (∀ c ∈ CopySubExtentCalls ⟨1, 2, 0, 1, 0, 0⟩ (ComputeDimensions ⟨1, 2, 0, 1, 0, 0⟩ true)
        (ComputeIncrements ⟨1, 2, 0, 1, 0, 0⟩ true) ⟨0, 2, 0, 1, 0, 0⟩
        (ComputeDimensions ⟨0, 2, 0, 1, 0, 0⟩ true) (ComputeIncrements ⟨0, 2, 0, 1, 0, 0⟩ true)
        ⟨1, 2, 0, 1, 0, 0⟩ (ComputeDimensions ⟨1, 2, 0, 1, 0, 0⟩ true)
        ⟨1, 1, [1, 2, 3, 4]⟩ ⟨1, 1, [9, 9, 9, 9, 9, 9]⟩,
      c.count = (ComputeDimensions ⟨1, 2, 0, 1, 0, 0⟩ true).v0 *
          ((⟨1, 1, [1, 2, 3, 4]⟩ : vtkDataArray).tupleSize : Int) ∧
      c.InBounds (⟨1, 1, [1, 2, 3, 4]⟩ : vtkDataArray).data.length
        (⟨1, 1, [9, 9, 9, 9, 9, 9]⟩ : vtkDataArray).data.length) :=
  CopySubExtent_row_tier true ⟨1, 2, 0, 1, 0, 0⟩ ⟨0, 2, 0, 1, 0, 0⟩ ⟨1, 2, 0, 1, 0, 0⟩
    ⟨1, 1, [1, 2, 3, 4]⟩ ⟨1, 1, [9, 9, 9, 9, 9, 9]⟩ rfl rfl (by decide) (by decide) (by decide)
    (by decide) (by decide) (by decide)

/-! ## The tiers against the naive copy -/

/-- The registration loop of `ComputePieceSubExtents` on a reset splitter: the
sources are the readable pieces in increasing order. -/
theorem registerLoop_spec (env : Collaborators) (N : Nat) :
    ((List.range N).foldl
      (fun (s : vtkExtentSplitter) (i : Nat) =>
        if env.CanReadPiece i then s.AddExtentSource i 0 (env.PieceWholeExtent i) else s)
      ⟨[], [], []⟩) =
    ⟨((List.range N).filter (fun (i : Nat) => env.CanReadPiece (i : Int))).map
        (fun (i : Nat) => ((i : Int), (0 : Int), env.PieceWholeExtent (i : Int))), [], []⟩ := by
  induction N with
  | zero => rfl
  | succ N ih =>
    rw [List.range_succ, List.foldl_append, ih, List.filter_append, List.map_append]
    simp only [List.foldl_cons, List.foldl_nil]
    by_cases hc : env.CanReadPiece (N : Int) = true
    · rw [if_pos hc]
      simp only [vtkExtentSplitter.AddExtentSource, List.filter_cons, List.filter_nil, hc,
        if_true, List.map_cons, List.map_nil]
      congr 1
      congr 1
      rw [List.filter_eq_self]
      intro a ha
      obtain ⟨i, hi, rfl⟩ := List.mem_map.mp ha
      have hiN : i < N := List.mem_range.mp (List.mem_filter.mp hi).1
      simp only [ne_eq, decide_eq_true_eq, Nat.cast_inj]
      omega
    · rw [if_neg hc]
      simp only [List.filter_cons, List.filter_nil, hc, List.map_nil, List.append_nil]
      simp

/-- C12: `ComputePieceSubExtents` passes to the splitter's computation exactly
the readable pieces `i` of `[0, NumberOfPieces)`, each under id `i` with
priority 0 and that piece's whole extent, in increasing order of `i`,
whatever was registered before, and the update extent as the single request;
an unreadable piece is never registered, and the return value is 0 only when
the computed partition has a sub-extent without source. -/
theorem ComputePieceSubExtents_registers (env : Collaborators) (r : Reader) :
    (ComputePieceSubExtents env r).1.ExtentSplitter.Sources =
      ((List.range r.NumberOfPieces.toNat).filter (fun (i : Nat) => env.CanReadPiece (i : Int))).map
        (fun (i : Nat) => ((i : Int), (0 : Int), env.PieceWholeExtent (i : Int))) ∧
    (∀ (id priority : Int) (extent : Extent),
      (id, priority, extent) ∈ (ComputePieceSubExtents env r).1.ExtentSplitter.Sources ↔
        0 ≤ id ∧ id < r.NumberOfPieces ∧ env.CanReadPiece id = true ∧ priority = 0 ∧
          extent = env.PieceWholeExtent id) ∧
    (ComputePieceSubExtents env r).1.ExtentSplitter.SubExtents =
      env.split (ComputePieceSubExtents env r).1.ExtentSplitter.Sources [r.UpdateExtent] ∧
    (ComputePieceSubExtents env r).2 =
      (if (env.split (ComputePieceSubExtents env r).1.ExtentSplitter.Sources
        [r.UpdateExtent]).any (fun e => e.2 < 0) then 0 else 1) := by
  have hS : (ComputePieceSubExtents env r).1.ExtentSplitter.Sources =
      ((List.range r.NumberOfPieces.toNat).filter (fun (i : Nat) => env.CanReadPiece (i : Int))).map
        (fun (i : Nat) => ((i : Int), (0 : Int), env.PieceWholeExtent (i : Int))) := by
    unfold ComputePieceSubExtents
    simp only [vtkExtentSplitter.RemoveAllExtentSources, registerLoop_spec]
    split <;> rfl
  refine ⟨hS, ?_, ?_, ?_⟩
  · intro id priority extent
    rw [hS]
    simp only [List.mem_map, List.mem_filter, List.mem_range, Prod.mk.injEq]
    constructor
    · rintro ⟨i, ⟨hi, hc⟩, rfl, rfl, rfl⟩
      exact ⟨by omega, by omega, hc, rfl, rfl⟩
    · rintro ⟨h0, hN, hc, rfl, rfl⟩
      refine ⟨id.toNat, ⟨by omega, ?_⟩, by omega, rfl, ?_⟩
      · rw [Int.toNat_of_nonneg h0]; exact hc
      · rw [Int.toNat_of_nonneg h0]
  · rw [hS]
    unfold ComputePieceSubExtents
    simp only [vtkExtentSplitter.RemoveAllExtentSources, registerLoop_spec]
    split <;> rfl
  · rw [hS]
    unfold ComputePieceSubExtents
    simp only [vtkExtentSplitter.RemoveAllExtentSources, registerLoop_spec,
      vtkExtentSplitter.AddExtent, vtkExtentSplitter.ComputeSubExtents, List.nil_append]
    by_cases hany : (env.split
        (((List.range r.NumberOfPieces.toNat).filter
          (fun (i : Nat) => env.CanReadPiece (i : Int))).map
          (fun (i : Nat) => ((i : Int), (0 : Int), env.PieceWholeExtent (i : Int))))
        [r.UpdateExtent]).any (fun e => e.2 < 0) = true
    · simp only [hany, if_true]
    · simp only [hany]
      rfl

/-- Witness for C12: piece 1 of three cannot be read; pieces 0 and 2 are
registered in this order and the function succeeds. -/
theorem ComputePieceSubExtents_registers_witness :
    (ComputePieceSubExtents unreadablePiece
      { Reader.initial with
        NumberOfPieces := 3
        UpdateExtent := ⟨0, 5, 0, 0, 0, 0⟩
        ExtentSplitter := ⟨[(7, 0, emptyExtent)], [], []⟩ }).1.ExtentSplitter.Sources =
      [(0, 0, ⟨0, 3, 0, 0, 0, 0⟩), (2, 0, ⟨3, 9, 0, 0, 0, 0⟩)] ∧
    (ComputePieceSubExtents unreadablePiece
      { Reader.initial with
        NumberOfPieces := 3
        UpdateExtent := ⟨0, 5, 0, 0, 0, 0⟩
        ExtentSplitter := ⟨[(7, 0, emptyExtent)], [], []⟩ }).2 = 1 := by
  have h := ComputePieceSubExtents_registers unreadablePiece
    { Reader.initial with
      NumberOfPieces := 3
      UpdateExtent := ⟨0, 5, 0, 0, 0, 0⟩
      ExtentSplitter := ⟨[(7, 0, emptyExtent)], [], []⟩ }
  exact ⟨h.1.trans (by decide), h.2.2.2.trans (by decide)⟩

/-! ## Order of the piece reads -/

/-- Once the abort or the error flag is set the loop does nothing more. -/
theorem readLoop_stop (env : Collaborators) (rest : List Nat) (r : Reader)
    (h : ¬ (r.AbortExecute = 0 ∧ r.DataError = 0)) : readLoop env rest r = r := by
  cases rest with
  | nil => rfl
  | cons i rest =>
    unfold readLoop
    rw [if_neg h]

/-- Running the loop over a list of rounds is running it over a first part
and then over the rest. -/
theorem readLoop_append (env : Collaborators) (l1 l2 : List Nat) :
    ∀ r : Reader, readLoop env (l1 ++ l2) r = readLoop env l2 (readLoop env l1 r) := by
  induction l1 with
  | nil => intro r; rfl
  | cons i l1 ih =>
    intro r
    by_cases h : r.AbortExecute = 0 ∧ r.DataError = 0
    · rw [List.cons_append, readLoop, if_pos h, ih, readLoop, if_pos h]
    · rw [readLoop_stop env _ r h, readLoop_stop env _ r h, readLoop_stop env _ r h]

/-- One round of the loop attempts the read of sub-extent `i` from its source
piece, and leaves the splitter alone. -/
theorem readStep_log (env : Collaborators) (i : Nat) (r : Reader) :
    attemptedReads (readStep env i r).Log = attemptedReads r.Log ++
      [(r.ExtentSplitter.GetSubExtentSource i, r.ExtentSplitter.GetSubExtent i)] ∧
    (readStep env i r).ExtentSplitter = r.ExtentSplitter := by
  unfold readStep SuperclassReadPieceData ReadPieceData
  simp only []
  split_ifs <;> simp [attemptedReads, List.filterMap_append]

/-- A round whose piece read returns 0 ends with `DataError` set. -/
theorem readStep_failure (env : Collaborators) (i : Nat) (r : Reader)
    (h : readReturn env i r = 0) : (readStep env i r).DataError = 1 := by
  unfold readReturn at h
  unfold readStep
  simp only [h, if_true]

/-- The loop over rounds `0..m-1`: the attempted reads are those of a prefix
`0..k-1`, and the loop is over when the prefix is proper. -/
theorem readLoop_reads_first (env : Collaborators) (r : Reader) (m : Nat) :
    (readLoop env (List.range m) r).ExtentSplitter = r.ExtentSplitter ∧
    ∃ k ≤ m, attemptedReads (readLoop env (List.range m) r).Log = attemptedReads r.Log ++
        (List.range k).map (fun (i : Nat) =>
          (r.ExtentSplitter.GetSubExtentSource i, r.ExtentSplitter.GetSubExtent i)) ∧
      (k < m → ¬ ((readLoop env (List.range m) r).AbortExecute = 0 ∧
        (readLoop env (List.range m) r).DataError = 0)) := by
  induction m with
  | zero =>
    exact ⟨rfl, 0, le_refl _, by simp [readLoop], fun h => absurd h (lt_irrefl _)⟩
  | succ m ih =>
    obtain ⟨hs, k, hk, hlog, hstop⟩ := ih
    rw [List.range_succ, readLoop_append]
    by_cases hclear : (readLoop env (List.range m) r).AbortExecute = 0 ∧
        (readLoop env (List.range m) r).DataError = 0
    · have hkm : k = m := by
        by_contra hne
        exact hstop (by omega) hclear
      subst hkm
      have hstep := readStep_log env k (readLoop env (List.range k) r)
      rw [readLoop, if_pos hclear, readLoop]
      refine ⟨hstep.2.trans hs, k + 1, le_refl _, ?_, fun h => absurd h (lt_irrefl _)⟩
      rw [hstep.1, hlog, hs, List.range_succ, List.map_append, List.append_assoc]
      rfl
    · rw [readLoop_stop env _ _ hclear]
      exact ⟨hs, k, by omega, hlog, fun _ => hclear⟩

/-- A round that ends with both flags clear has copied its sub-extent. -/
theorem readStep_copied (env : Collaborators) (i : Nat) (r : Reader)
    (h : (readStep env i r).AbortExecute = 0 ∧ (readStep env i r).DataError = 0) :
    copiedReads (readStep env i r).Log = copiedReads r.Log ++
      [(r.ExtentSplitter.GetSubExtentSource i, r.ExtentSplitter.GetSubExtent i)] := by
  unfold readStep SuperclassReadPieceData ReadPieceData at h ⊢
  simp only [] at h ⊢
  split_ifs at h ⊢ <;> simp_all [copiedReads, List.filterMap_append]

/-- A loop that ends with both flags clear has read and copied every
sub-extent of its rounds. -/
theorem readLoop_complete (env : Collaborators) (r : Reader) (m : Nat)
    (h : (readLoop env (List.range m) r).AbortExecute = 0 ∧
      (readLoop env (List.range m) r).DataError = 0) :
    copiedReads (readLoop env (List.range m) r).Log = copiedReads r.Log ++
      (List.range m).map (fun (i : Nat) =>
        (r.ExtentSplitter.GetSubExtentSource i, r.ExtentSplitter.GetSubExtent i)) := by
  induction m with
  | zero => simp [readLoop]
  | succ m ih =>
    rw [List.range_succ, readLoop_append] at h ⊢
    by_cases hclear : (readLoop env (List.range m) r).AbortExecute = 0 ∧
        (readLoop env (List.range m) r).DataError = 0
    · rw [readLoop, if_pos hclear, readLoop] at h ⊢
      rw [readStep_copied env m _ h, ih hclear, (readLoop_reads_first env r m).1,
        List.map_append, List.append_assoc]
      rfl
    · rw [readLoop_stop env _ _ hclear] at h
      exact absurd h hclear

/-- C15, evaluated at a failing input: two pieces cover the two halves of the
request and the read of piece 0 fails.  `ReadXMLData` still sets the output
extent to the update extent, although the second sub-extent was never read
and the only copy made belongs to the failed read. -/
theorem ReadXMLData_output_extent_unfilled :
    (ReadXMLData firstReadFails { Reader.initial with NumberOfPieces := 2 }).ExtentSplitter.SubExtents
      = [(⟨0, 4, 0, 9, 0, 0⟩, 0), (⟨5, 9, 0, 9, 0, 0⟩, 1)] ∧
    (ReadXMLData firstReadFails { Reader.initial with NumberOfPieces := 2 }).UpdateExtent =
      ⟨0, 9, 0, 9, 0, 0⟩ ∧
    (ReadXMLData firstReadFails { Reader.initial with NumberOfPieces := 2 }).OutputExtent =
      ⟨0, 9, 0, 9, 0, 0⟩ ∧
    (ReadXMLData firstReadFails { Reader.initial with NumberOfPieces := 2 }).DataError = 1 ∧
    attemptedReads
      (ReadXMLData firstReadFails { Reader.initial with NumberOfPieces := 2 }).Log =
      [(0, ⟨0, 4, 0, 9, 0, 0⟩)] ∧
    copiedReads (ReadXMLData firstReadFails { Reader.initial with NumberOfPieces := 2 }).Log =
      [(0, ⟨0, 4, 0, 9, 0, 0⟩)] := by
  decide

/-- A round whose piece read returns success leaves `DataError` as it was. -/
theorem readStep_success (env : Collaborators) (i : Nat) (r : Reader)
    (h : readReturn env i r ≠ 0) : (readStep env i r).DataError = r.DataError := by
  unfold readReturn at h
  unfold readStep
  simp only [h, if_false]
  unfold SuperclassReadPieceData ReadPieceData
  simp only []
  split_ifs <;> rfl

/-- Round `m` of the loop is run exactly when both flags are clear after the
rounds before it. -/
theorem readLoop_succ (env : Collaborators) (r : Reader) (m : Nat) :
    readLoop env (List.range (m + 1)) r =
      if (readLoop env (List.range m) r).AbortExecute = 0 ∧
          (readLoop env (List.range m) r).DataError = 0 then
        readStep env m (readLoop env (List.range m) r)
      else readLoop env (List.range m) r := by
  rw [List.range_succ, readLoop_append]
  by_cases h : (readLoop env (List.range m) r).AbortExecute = 0 ∧
      (readLoop env (List.range m) r).DataError = 0
  · rw [if_pos h, readLoop, if_pos h, readLoop]
  · rw [if_neg h, readLoop_stop env _ _ h]

/-- The loop over rounds `0..m-1` runs the first `k` of them, where `k` is
`m` or the first round before which a flag is set: the reads attempted are
those of the sub-extents `0..k-1`, in this order. -/
theorem readLoop_rounds (env : Collaborators) (r : Reader) (m : Nat) :
    ∃ k ≤ m,
      attemptedReads (readLoop env (List.range m) r).Log = attemptedReads r.Log ++
        (List.range k).map (fun (i : Nat) =>
          (r.ExtentSplitter.GetSubExtentSource i, r.ExtentSplitter.GetSubExtent i)) ∧
      readLoop env (List.range m) r = readLoop env (List.range k) r ∧
      (∀ j < k, (readLoop env (List.range j) r).AbortExecute = 0 ∧
        (readLoop env (List.range j) r).DataError = 0) ∧
      (k < m → ¬ ((readLoop env (List.range k) r).AbortExecute = 0 ∧
        (readLoop env (List.range k) r).DataError = 0)) := by
  induction m with
  | zero =>
    exact ⟨0, le_refl _, by simp [readLoop], rfl, fun j hj => absurd hj (Nat.not_lt_zero j),
      fun h => absurd h (lt_irrefl _)⟩
  | succ m ih =>
    obtain ⟨k, hk, hlog, hsame, hclear, hstop⟩ := ih
    by_cases hc : (readLoop env (List.range m) r).AbortExecute = 0 ∧
        (readLoop env (List.range m) r).DataError = 0
    · have hkm : k = m := by
        by_contra hne
        exact hstop (by omega) (by rw [← hsame]; exact hc)
      subst hkm
      have hstep := readStep_log env k (readLoop env (List.range k) r)
      have hs := (readLoop_reads_first env r k).1
      refine ⟨k + 1, le_refl _, ?_, rfl, ?_, fun h => absurd h (lt_irrefl _)⟩
      · rw [readLoop_succ, if_pos hc, hstep.1, hlog, hs, List.range_succ, List.map_append,
          List.append_assoc]
        rfl
      · intro j hj
        by_cases hjk : j < k
        · exact hclear j hjk
        · have : j = k := by omega
          rw [this]
          exact hc
    · refine ⟨k, by omega, ?_, ?_, hclear, fun _ => by rw [← hsame]; exact hc⟩
      · rw [readLoop_succ, if_neg hc]
        exact hlog
      · rw [readLoop_succ, if_neg hc]
        exact hsame

/-- `ComputePieceSubExtents` reads no piece. -/
theorem ComputePieceSubExtents_log (env : Collaborators) (r : Reader) :
    (ComputePieceSubExtents env r).1.Log = r.Log := by
  unfold ComputePieceSubExtents
  simp only []
  split <;> rfl

/-- When the splitter covers the request, `ReadXMLData` ends in the state the
read loop leaves, with the output extent set. -/
theorem ReadXMLData_covered (env : Collaborators) (r : Reader)
    (h : (ComputePieceSubExtents env (prepareUpdate env r)).2 ≠ 0) :
    ReadXMLData env r =
      { readLoop env (List.range (ComputePieceSubExtents env
          (prepareUpdate env r)).1.ExtentSplitter.GetNumberOfSubExtents.toNat)
          (ComputePieceSubExtents env (prepareUpdate env r)).1 with
        OutputExtent := (readLoop env (List.range (ComputePieceSubExtents env
          (prepareUpdate env r)).1.ExtentSplitter.GetNumberOfSubExtents.toNat)
          (ComputePieceSubExtents env (prepareUpdate env r)).1).UpdateExtent } := by
  unfold ReadXMLData
  simp only [h, if_false]

/-- C19: `ReadXMLData` reads sub-extents in the splitter's order and stops at
the first failure.  A loop round attempts exactly the read of its sub-extent
from its source piece, sets `DataError` to 1 when that read returns failure
and leaves `DataError` as it was otherwise.  Round `m` is run exactly when
both flags are clear after the rounds before it.  After `m` rounds of the loop
the loop has run the rounds `0..k-1` and the reads attempted are those of the
sub-extents `0..k-1` in this order, where `k` is `m` or the first round before
which a flag was set.  A round whose piece read returns failure is the last
round.  Over the whole of `ReadXMLData`, when the splitter covers the request,
the reads attempted are those of the first `k` sub-extents of the splitter's
list, no round being skipped while both flags are clear, and all of the list
when the call ends with both flags clear; when the splitter does not cover the
request no piece is read. -/
theorem ReadXMLData_reads_in_order (env : Collaborators) (r : Reader) :
    (∀ i : Nat,
      attemptedReads (readStep env i r).Log = attemptedReads r.Log ++
        [(r.ExtentSplitter.GetSubExtentSource i, r.ExtentSplitter.GetSubExtent i)] ∧
      (readStep env i r).ExtentSplitter = r.ExtentSplitter ∧
      (readReturn env i r = 0 → (readStep env i r).DataError = 1) ∧
      (readReturn env i r ≠ 0 → (readStep env i r).DataError = r.DataError)) ∧
    (∀ m : Nat, readLoop env (List.range (m + 1)) r =
      if (readLoop env (List.range m) r).AbortExecute = 0 ∧
          (readLoop env (List.range m) r).DataError = 0 then
        readStep env m (readLoop env (List.range m) r)
      else readLoop env (List.range m) r) ∧
    (∀ m : Nat, ∃ k ≤ m,
      attemptedReads (readLoop env (List.range m) r).Log = attemptedReads r.Log ++
        (List.range k).map (fun (i : Nat) =>
          (r.ExtentSplitter.GetSubExtentSource i, r.ExtentSplitter.GetSubExtent i)) ∧
      readLoop env (List.range m) r = readLoop env (List.range k) r ∧
      (∀ j < k, (readLoop env (List.range j) r).AbortExecute = 0 ∧
        (readLoop env (List.range j) r).DataError = 0) ∧
      (k < m → ¬ ((readLoop env (List.range k) r).AbortExecute = 0 ∧
        (readLoop env (List.range k) r).DataError = 0))) ∧
    (∀ (i : Nat) (rest : List Nat), r.AbortExecute = 0 → r.DataError = 0 →
      readReturn env i r = 0 →
      (readStep env i r).DataError = 1 ∧
      readLoop env (i :: rest) r = readStep env i r ∧
      attemptedReads (readLoop env (i :: rest) r).Log = attemptedReads r.Log ++
        [(r.ExtentSplitter.GetSubExtentSource i, r.ExtentSplitter.GetSubExtent i)]) ∧
    ((ComputePieceSubExtents env (prepareUpdate env r)).2 ≠ 0 →
      ∃ k : Nat, (k : Int) ≤ (ReadXMLData env r).ExtentSplitter.GetNumberOfSubExtents ∧
        attemptedReads (ReadXMLData env r).Log = attemptedReads r.Log ++
          (List.range k).map (fun (i : Nat) =>
            ((ReadXMLData env r).ExtentSplitter.GetSubExtentSource i,
              (ReadXMLData env r).ExtentSplitter.GetSubExtent i)) ∧
        (∀ j < k,
          (readLoop env (List.range j)
            (ComputePieceSubExtents env (prepareUpdate env r)).1).AbortExecute = 0 ∧
          (readLoop env (List.range j)
            (ComputePieceSubExtents env (prepareUpdate env r)).1).DataError = 0) ∧
        ((k : Int) < (ReadXMLData env r).ExtentSplitter.GetNumberOfSubExtents →
          ¬ ((readLoop env (List.range k)
              (ComputePieceSubExtents env (prepareUpdate env r)).1).AbortExecute = 0 ∧
            (readLoop env (List.range k)
              (ComputePieceSubExtents env (prepareUpdate env r)).1).DataError = 0)) ∧
        ((ReadXMLData env r).AbortExecute = 0 ∧ (ReadXMLData env r).DataError = 0 →
          (k : Int) = (ReadXMLData env r).ExtentSplitter.GetNumberOfSubExtents)) ∧
    ((ComputePieceSubExtents env (prepareUpdate env r)).2 = 0 →
      attemptedReads (ReadXMLData env r).Log = attemptedReads r.Log) := by
  refine ⟨?_, readLoop_succ env r, readLoop_rounds env r, ?_, ?_, ?_⟩
  · intro i
    exact ⟨(readStep_log env i r).1, (readStep_log env i r).2, readStep_failure env i r,
      readStep_success env i r⟩
  · intro i rest ha hd hfail
    have hde := readStep_failure env i r hfail
    have hloop : readLoop env (i :: rest) r = readStep env i r := by
      rw [readLoop, if_pos ⟨ha, hd⟩]
      exact readLoop_stop env rest _ (fun hc => by rw [hde] at hc; exact absurd hc.2 (by decide))
    exact ⟨hde, hloop, by rw [hloop]; exact (readStep_log env i r).1⟩
  · intro h0
    have hcomp := ComputePieceSubExtents_log env (prepareUpdate env r)
    have e := ReadXMLData_covered env r h0
    have hs := (readLoop_reads_first env (ComputePieceSubExtents env (prepareUpdate env r)).1
      (ComputePieceSubExtents env
        (prepareUpdate env r)).1.ExtentSplitter.GetNumberOfSubExtents.toNat).1
    obtain ⟨k, hk, hlog, hsame, hclear, hstop⟩ := readLoop_rounds env
      (ComputePieceSubExtents env (prepareUpdate env r)).1
      (ComputePieceSubExtents env
        (prepareUpdate env r)).1.ExtentSplitter.GetNumberOfSubExtents.toNat
    have hn : (0 : Int) ≤ (ComputePieceSubExtents env
        (prepareUpdate env r)).1.ExtentSplitter.GetNumberOfSubExtents := by
      simp [vtkExtentSplitter.GetNumberOfSubExtents]
    have hsp : (ReadXMLData env r).ExtentSplitter =
        (ComputePieceSubExtents env (prepareUpdate env r)).1.ExtentSplitter := by
      rw [e]
      exact hs
    have hlg : (ReadXMLData env r).Log = (readLoop env (List.range (ComputePieceSubExtents env
        (prepareUpdate env r)).1.ExtentSplitter.GetNumberOfSubExtents.toNat)
        (ComputePieceSubExtents env (prepareUpdate env r)).1).Log := by
      rw [e]
    have hab : (ReadXMLData env r).AbortExecute = (readLoop env (List.range
        (ComputePieceSubExtents env
          (prepareUpdate env r)).1.ExtentSplitter.GetNumberOfSubExtents.toNat)
        (ComputePieceSubExtents env (prepareUpdate env r)).1).AbortExecute := by
      rw [e]
    have hde : (ReadXMLData env r).DataError = (readLoop env (List.range
        (ComputePieceSubExtents env
          (prepareUpdate env r)).1.ExtentSplitter.GetNumberOfSubExtents.toNat)
        (ComputePieceSubExtents env (prepareUpdate env r)).1).DataError := by
      rw [e]
    refine ⟨k, ?_, ?_, hclear, ?_, ?_⟩
    · rw [hsp]
      omega
    · rw [hlg, hlog, hsp, hcomp]
      rfl
    · intro hlt
      rw [hsp] at hlt
      exact hstop (by omega)
    · intro hfin
      rw [hab, hde, hsame] at hfin
      rw [hsp]
      by_contra hne
      exact hstop (by omega) hfin
  · intro h0
    have e : ReadXMLData env r =
        { (ComputePieceSubExtents env (prepareUpdate env r)).1 with DataError := 1 } := by
      unfold ReadXMLData
      simp only [h0, if_true]
    rw [e]
    show attemptedReads (ComputePieceSubExtents env (prepareUpdate env r)).1.Log = _
    rw [ComputePieceSubExtents_log]
    rfl

/-- Witness for C19: the read of the first of two sub-extents fails and ends
the loop; a read that succeeds leaves `DataError` clear; and where the
splitter does not cover the request no piece is read. -/
theorem ReadXMLData_reads_in_order_witness :
    ((readStep firstReadFails 0
      { Reader.initial with
        ExtentSplitter := ⟨[], [], [(⟨0, 4, 0, 9, 0, 0⟩, 0), (⟨5, 9, 0, 9, 0, 0⟩, 1)]⟩ }).DataError
      = 1 ∧
    readLoop firstReadFails [0, 1]
      { Reader.initial with
        ExtentSplitter := ⟨[], [], [(⟨0, 4, 0, 9, 0, 0⟩, 0), (⟨5, 9, 0, 9, 0, 0⟩, 1)]⟩ } =
      readStep firstReadFails 0
        { Reader.initial with
          ExtentSplitter := ⟨[], [], [(⟨0, 4, 0, 9, 0, 0⟩, 0), (⟨5, 9, 0, 9, 0, 0⟩, 1)]⟩ }) ∧
    (readStep deliversWholePiece 0
      { Reader.initial with
        ExtentSplitter := ⟨[], [], [(⟨1, 1, 0, 0, 0, 0⟩, 0), (⟨2, 2, 0, 0, 0, 0⟩, 1)]⟩ }).DataError
      = (Reader.initial).DataError ∧
    attemptedReads
      (ReadXMLData halfCoverage { Reader.initial with NumberOfPieces := 1 }).Log =
      attemptedReads ({ Reader.initial with NumberOfPieces := 1 } : Reader).Log :=
  ⟨⟨((ReadXMLData_reads_in_order firstReadFails
      { Reader.initial with
        ExtentSplitter := ⟨[], [], [(⟨0, 4, 0, 9, 0, 0⟩, 0), (⟨5, 9, 0, 9, 0, 0⟩, 1)]⟩ }).2.2.2.1
      0 [1] rfl rfl (by decide)).1,
    ((ReadXMLData_reads_in_order firstReadFails
      { Reader.initial with
        ExtentSplitter := ⟨[], [], [(⟨0, 4, 0, 9, 0, 0⟩, 0), (⟨5, 9, 0, 9, 0, 0⟩, 1)]⟩ }).2.2.2.1
      0 [1] rfl rfl (by decide)).2.1⟩,
    ((ReadXMLData_reads_in_order deliversWholePiece
      { Reader.initial with
        ExtentSplitter := ⟨[], [], [(⟨1, 1, 0, 0, 0, 0⟩, 0), (⟨2, 2, 0, 0, 0, 0⟩, 1)]⟩ }).1
      0).2.2.2 (by decide),
    (ReadXMLData_reads_in_order halfCoverage
      { Reader.initial with NumberOfPieces := 1 }).2.2.2.2.2 (by decide)⟩

/-! ## Set-up of the pieces -/

theorem getD_set_int (l : List Int) (i j : Nat) (a : Int) :
    (l.set i a).getD j 0 = if i = j ∧ i < l.length then a else l.getD j 0 := by
  simp only [List.getD_eq_getElem?_getD, List.getElem?_set]
  by_cases h : i = j
  · subst h
    by_cases hi : i < l.length
    · simp [hi]
    · simp [hi]
      rw [List.getElem?_eq_none (by omega)]
      rfl
  · simp [h]

/-- The initialisation loop of `SetupPieces`: after `m` rounds the first `m`
pieces hold `(0,-1, 0,-1, 0,-1)`. -/
theorem setupLoop_spec (N : Nat) (l0 : List Int) (hlen : l0.length = 6 * N) (m : Nat)
    (hm : m ≤ N) :
    ((List.range m).foldl
      (fun (extents : List Int) (i : Nat) =>
        (((((extents.set (i * 6 + 0) 0).set (i * 6 + 1) (-1)).set (i * 6 + 2) 0).set
          (i * 6 + 3) (-1)).set (i * 6 + 4) 0).set (i * 6 + 5) (-1)) l0).length = 6 * N ∧
    ∀ i < m,
      ((List.range m).foldl
        (fun (extents : List Int) (i : Nat) =>
          (((((extents.set (i * 6 + 0) 0).set (i * 6 + 1) (-1)).set (i * 6 + 2) 0).set
            (i * 6 + 3) (-1)).set (i * 6 + 4) 0).set (i * 6 + 5) (-1)) l0).getD (i * 6 + 0) 0
        = 0 ∧
      ((List.range m).foldl
        (fun (extents : List Int) (i : Nat) =>
          (((((extents.set (i * 6 + 0) 0).set (i * 6 + 1) (-1)).set (i * 6 + 2) 0).set
            (i * 6 + 3) (-1)).set (i * 6 + 4) 0).set (i * 6 + 5) (-1)) l0).getD (i * 6 + 1) 0
        = -1 ∧
      ((List.range m).foldl
        (fun (extents : List Int) (i : Nat) =>
          (((((extents.set (i * 6 + 0) 0).set (i * 6 + 1) (-1)).set (i * 6 + 2) 0).set
            (i * 6 + 3) (-1)).set (i * 6 + 4) 0).set (i * 6 + 5) (-1)) l0).getD (i * 6 + 2) 0
        = 0 ∧
      ((List.range m).foldl
        (fun (extents : List Int) (i : Nat) =>
          (((((extents.set (i * 6 + 0) 0).set (i * 6 + 1) (-1)).set (i * 6 + 2) 0).set
            (i * 6 + 3) (-1)).set (i * 6 + 4) 0).set (i * 6 + 5) (-1)) l0).getD (i * 6 + 3) 0
        = -1 ∧
      ((List.range m).foldl
        (fun (extents : List Int) (i : Nat) =>
          (((((extents.set (i * 6 + 0) 0).set (i * 6 + 1) (-1)).set (i * 6 + 2) 0).set
            (i * 6 + 3) (-1)).set (i * 6 + 4) 0).set (i * 6 + 5) (-1)) l0).getD (i * 6 + 4) 0
        = 0 ∧
      ((List.range m).foldl
        (fun (extents : List Int) (i : Nat) =>
          (((((extents.set (i * 6 + 0) 0).set (i * 6 + 1) (-1)).set (i * 6 + 2) 0).set
            (i * 6 + 3) (-1)).set (i * 6 + 4) 0).set (i * 6 + 5) (-1)) l0).getD (i * 6 + 5) 0
        = -1 := by
  induction m with
  | zero => exact ⟨hlen, fun i hi => absurd hi (Nat.not_lt_zero i)⟩
  | succ m ih =>
    obtain ⟨ihl, ihv⟩ := ih (by omega)
    rw [List.range_succ, List.foldl_append, List.foldl_cons, List.foldl_nil]
    generalize List.foldl _ l0 (List.range m) = f at ihl ihv ⊢
    refine ⟨by simp only [List.length_set]; exact ihl, fun i hi => ?_⟩
    simp only [getD_set_int, List.length_set, ihl]
    by_cases him : i = m
    · subst him
      refine ⟨?_, ?_, ?_, ?_, ?_, ?_⟩ <;> simp <;> omega
    · obtain ⟨h0, h1, h2, h3, h4, h5⟩ := ihv i (by omega)
      refine ⟨?_, ?_, ?_, ?_, ?_, ?_⟩
      · rw [if_neg (by omega), if_neg (by omega), if_neg (by omega), if_neg (by omega),
          if_neg (by omega), if_neg (by omega)]; exact h0
      · rw [if_neg (by omega), if_neg (by omega), if_neg (by omega), if_neg (by omega),
          if_neg (by omega), if_neg (by omega)]; exact h1
      · rw [if_neg (by omega), if_neg (by omega), if_neg (by omega), if_neg (by omega),
          if_neg (by omega), if_neg (by omega)]; exact h2
      · rw [if_neg (by omega), if_neg (by omega), if_neg (by omega), if_neg (by omega),
          if_neg (by omega), if_neg (by omega)]; exact h3
      · rw [if_neg (by omega), if_neg (by omega), if_neg (by omega), if_neg (by omega),
          if_neg (by omega), if_neg (by omega)]; exact h4
      · rw [if_neg (by omega), if_neg (by omega), if_neg (by omega), if_neg (by omega),
          if_neg (by omega), if_neg (by omega)]; exact h5

/-- C14: after `SetupPieces(numPieces)` the reader has `numPieces` pieces and,
for every piece index `i` in `[0, NumberOfPieces)`, the stored extent of piece
`i` is `(0,-1, 0,-1, 0,-1)`, an empty extent: `lo > hi` and point dimension
`hi - lo + 1 = 0` on every axis. -/
theorem SetupPieces_empty_extents (numPieces : Int) (r : ReaderSetup) (i : Nat)
    (hi : (i : Int) < (SetupPieces numPieces r).NumberOfPieces) :
    (SetupPieces numPieces r).NumberOfPieces = numPieces ∧
    GetPieceExtent (SetupPieces numPieces r) i = ⟨0, -1, 0, -1, 0, -1⟩ ∧
    (GetPieceExtent (SetupPieces numPieces r) i).e0 >
      (GetPieceExtent (SetupPieces numPieces r) i).e1 ∧
    (GetPieceExtent (SetupPieces numPieces r) i).e2 >
      (GetPieceExtent (SetupPieces numPieces r) i).e3 ∧
    (GetPieceExtent (SetupPieces numPieces r) i).e4 >
      (GetPieceExtent (SetupPieces numPieces r) i).e5 ∧
    ComputeDimensions (GetPieceExtent (SetupPieces numPieces r) i) true = ⟨0, 0, 0⟩ := by
  have hN : (SetupPieces numPieces r).NumberOfPieces = numPieces := rfl
  rw [hN] at hi
  have hext : GetPieceExtent (SetupPieces numPieces r) i = ⟨0, -1, 0, -1, 0, -1⟩ := by
    obtain ⟨_, hv⟩ := setupLoop_spec numPieces.toNat
      (List.replicate (6 * numPieces).toNat 0) (by rw [List.length_replicate]; omega)
      numPieces.toNat (le_refl _)
    obtain ⟨h0, h1, h2, h3, h4, h5⟩ := hv i (by omega)
    simp only [GetPieceExtent, SetupPieces, SuperclassSetupPieces, h0, h1, h2, h3, h4, h5]
  rw [hext]
  exact ⟨rfl, rfl, by decide, by decide, by decide, by decide⟩

/-- Witness for C14: the second of three pieces. -/
theorem SetupPieces_empty_extents_witness :
    (SetupPieces 3 ReaderSetup.initial).NumberOfPieces = 3 ∧
    GetPieceExtent (SetupPieces 3 ReaderSetup.initial) 1 = ⟨0, -1, 0, -1, 0, -1⟩ ∧
    (GetPieceExtent (SetupPieces 3 ReaderSetup.initial) 1).e0 >
      (GetPieceExtent (SetupPieces 3 ReaderSetup.initial) 1).e1 ∧
    (GetPieceExtent (SetupPieces 3 ReaderSetup.initial) 1).e2 >
      (GetPieceExtent (SetupPieces 3 ReaderSetup.initial) 1).e3 ∧
    (GetPieceExtent (SetupPieces 3 ReaderSetup.initial) 1).e4 >
      (GetPieceExtent (SetupPieces 3 ReaderSetup.initial) 1).e5 ∧
    ComputeDimensions (GetPieceExtent (SetupPieces 3 ReaderSetup.initial) 1) true = ⟨0, 0, 0⟩ :=
  SetupPieces_empty_extents 3 ReaderSetup.initial 1 (by decide)

/-- C13: an extent attribute with fewer than 6 integers is rejected at the
boundary.  `ReadPiece` returns 0 and leaves the extent translator as it was
when the piece's `Extent` attribute yields fewer than 6 integers;
`ReadPrimaryElement` returns 0 and does not set the output's whole extent when
`WholeExtent` yields fewer than 6 integers; with 6 integers and a successful
superclass call each returns 1, `ReadPiece` having registered the piece's
stored extent and availability and `ReadPrimaryElement` having set the whole
extent to the six integers. -/
theorem ReadPiece_rejects_short_extent (env : SetupCollaborators) (e : vtkXMLDataElement)
    (r : ReaderSetup) :
    ((e.VectorAttribute "Extent").length < 6 →
      (ReadPiece env e r).2 = 0 ∧
      (ReadPiece env e r).1.ExtentTranslator = r.ExtentTranslator) ∧
    ((e.VectorAttribute "WholeExtent").length < 6 →
      (ReadPrimaryElement env e r).2 = 0 ∧
      (ReadPrimaryElement env e r).1.OutputWholeExtent = r.OutputWholeExtent) ∧
    (env.SuperclassReadPiece e ≠ 0 → (e.VectorAttribute "Extent").length = 6 →
      (ReadPiece env e r).2 = 1 ∧
      (ReadPiece env e r).1.ExtentTranslator =
        (r.ExtentTranslator.SetExtentForPiece r.Piece
          (GetPieceExtent (ReadPiece env e r).1 r.Piece.toNat)).SetPieceAvailable r.Piece
          (env.CanReadPiece r.Piece)) ∧
    (env.SuperclassReadPrimaryElement e ≠ 0 → (e.VectorAttribute "WholeExtent").length = 6 →
      (ReadPrimaryElement env e r).2 = 1 ∧
      (ReadPrimaryElement env e r).1.OutputWholeExtent =
        ⟨(e.VectorAttribute "WholeExtent").getD 0 0, (e.VectorAttribute "WholeExtent").getD 1 0,
          (e.VectorAttribute "WholeExtent").getD 2 0, (e.VectorAttribute "WholeExtent").getD 3 0,
          (e.VectorAttribute "WholeExtent").getD 4 0,
          (e.VectorAttribute "WholeExtent").getD 5 0⟩) := by
  refine ⟨?_, ?_, ?_, ?_⟩
  · intro hshort
    have hs : ((e.VectorAttribute "Extent").length : Int) < 6 := by omega
    unfold ReadPiece
    by_cases hsup : env.SuperclassReadPiece e = 0
    · rw [if_pos hsup]
      exact ⟨rfl, rfl⟩
    · rw [if_neg hsup]
      simp only [hs, if_true]
      exact ⟨trivial, trivial⟩
  · intro hshort
    have hs : ((e.VectorAttribute "WholeExtent").length : Int) < 6 := by omega
    unfold ReadPrimaryElement
    by_cases hsup : env.SuperclassReadPrimaryElement e = 0
    · rw [if_pos hsup]
      exact ⟨rfl, rfl⟩
    · rw [if_neg hsup]
      simp only [hs, if_true]
      exact ⟨trivial, trivial⟩
  · intro hsup hsix
    have hs : ¬ ((e.VectorAttribute "Extent").length : Int) < 6 := by omega
    unfold ReadPiece
    simp only [if_neg hsup, if_neg hs]
    exact ⟨trivial, rfl⟩
  · intro hsup hsix
    have hs : ¬ ((e.VectorAttribute "WholeExtent").length : Int) < 6 := by omega
    unfold ReadPrimaryElement
    simp only [if_neg hsup, if_neg hs]
    exact ⟨trivial, trivial⟩

/-- Witness for C13: an element with five integers in `Extent` and in
`WholeExtent`, and one with six. -/
theorem ReadPiece_rejects_short_extent_witness :
    ((ReadPiece setupSucceeds ⟨fun _ => [0, 4, 0, 9, 0]⟩
        (SetupPieces 2 ReaderSetup.initial)).2 = 0 ∧
      (ReadPiece setupSucceeds ⟨fun _ => [0, 4, 0, 9, 0]⟩
        (SetupPieces 2 ReaderSetup.initial)).1.ExtentTranslator =
        (SetupPieces 2 ReaderSetup.initial).ExtentTranslator) ∧
    ((ReadPrimaryElement setupSucceeds ⟨fun _ => [0, 4, 0, 9, 0]⟩
        (SetupPieces 2 ReaderSetup.initial)).2 = 0 ∧
      (ReadPrimaryElement setupSucceeds ⟨fun _ => [0, 4, 0, 9, 0]⟩
        (SetupPieces 2 ReaderSetup.initial)).1.OutputWholeExtent =
        (SetupPieces 2 ReaderSetup.initial).OutputWholeExtent) ∧
    (ReadPiece setupSucceeds ⟨fun _ => [0, 4, 0, 9, 0, 0]⟩
      (SetupPieces 2 ReaderSetup.initial)).2 = 1 ∧
    (ReadPrimaryElement setupSucceeds ⟨fun _ => [0, 4, 0, 9, 0, 0]⟩
      (SetupPieces 2 ReaderSetup.initial)).2 = 1 :=
  ⟨(ReadPiece_rejects_short_extent setupSucceeds ⟨fun _ => [0, 4, 0, 9, 0]⟩
      (SetupPieces 2 ReaderSetup.initial)).1 (by decide),
    (ReadPiece_rejects_short_extent setupSucceeds ⟨fun _ => [0, 4, 0, 9, 0]⟩
      (SetupPieces 2 ReaderSetup.initial)).2.1 (by decide),
    ((ReadPiece_rejects_short_extent setupSucceeds ⟨fun _ => [0, 4, 0, 9, 0, 0]⟩
      (SetupPieces 2 ReaderSetup.initial)).2.2.1 (by decide) (by decide)).1,
    ((ReadPiece_rejects_short_extent setupSucceeds ⟨fun _ => [0, 4, 0, 9, 0, 0]⟩
      (SetupPieces 2 ReaderSetup.initial)).2.2.2 (by decide) (by decide)).1⟩

/-! ## `ParseColorNames` splits at every linefeed -/


theorem splitLinefeed_ne_nil (s : List Char) : splitLinefeed s ≠ [] := by
  cases s with
  | nil => simp [splitLinefeed]
  | cons c cs =>
    unfold splitLinefeed
    split
    · simp
    · split <;> simp

theorem splitLinefeed_length (s : List Char) :
    (splitLinefeed s).length = s.count linefeed + 1 := by
  induction s with
  | nil => simp [splitLinefeed]
  | cons c cs ih =>
    unfold splitLinefeed
    by_cases hc : c = linefeed
    · rw [if_pos hc, hc, List.count_cons_self, List.length_cons, ih]
    · rw [if_neg hc, List.count_cons_of_ne (Ne.symm hc)]
      cases h : splitLinefeed cs with
      | nil => exact absurd h (splitLinefeed_ne_nil cs)
      | cons name names =>
        rw [h] at ih
        simpa using ih

theorem splitLinefeed_no_linefeed (s : List Char) :
    ∀ name ∈ splitLinefeed s, linefeed ∉ name := by
  induction s with
  | nil => simp [splitLinefeed]
  | cons c cs ih =>
    unfold splitLinefeed
    by_cases hc : c = linefeed
    · rw [if_pos hc]
      intro name hname
      rcases List.mem_cons.mp hname with rfl | h
      · simp
      · exact ih name h
    · rw [if_neg hc]
      cases h : splitLinefeed cs with
      | nil => exact absurd h (splitLinefeed_ne_nil cs)
      | cons name names =>
        rw [h] at ih
        intro n hn
        rcases List.mem_cons.mp hn with rfl | hn'
        · intro hmem
          rcases List.mem_cons.mp hmem with hl | hl
          · exact hc hl.symm
          · exact ih name (List.mem_cons_self _ _) hl
        · exact ih n (List.mem_cons_of_mem _ hn')

theorem splitLinefeed_intercalate (s : List Char) :
    [linefeed].intercalate (splitLinefeed s) = s := by
  induction s with
  | nil => simp [splitLinefeed, List.intercalate]
  | cons c cs ih =>
    unfold splitLinefeed
    by_cases hc : c = linefeed
    · rw [if_pos hc]
      cases h : splitLinefeed cs with
      | nil => exact absurd h (splitLinefeed_ne_nil cs)
      | cons name names =>
        rw [h] at ih
        rw [hc]
        simp only [List.intercalate, List.intersperse, List.flatten, List.nil_append,
          List.singleton_append] at ih ⊢
        rw [ih]
    · rw [if_neg hc]
      cases h : splitLinefeed cs with
      | nil => exact absurd h (splitLinefeed_ne_nil cs)
      | cons name names =>
        rw [h] at ih
        cases names with
        | nil =>
          simp only [List.intercalate, List.intersperse, List.flatten, List.append_nil] at ih ⊢
          rw [ih]
        | cons n2 rest =>
          simp only [List.intercalate, List.intersperse, List.flatten, List.cons_append] at ih ⊢
          rw [ih]

theorem firstLinefeed_none (l : List Char) (h : firstLinefeed l = none) : linefeed ∉ l := by
  induction l with
  | nil => simp
  | cons c cs ih =>
    unfold firstLinefeed at h
    by_cases hc : c = linefeed
    · rw [if_pos hc] at h
      exact absurd h (by simp)
    · rw [if_neg hc] at h
      intro hmem
      rcases List.mem_cons.mp hmem with hl | hl
      · exact hc hl.symm
      · exact ih (by simpa using h) hl

theorem firstLinefeed_some (l : List Char) (i : Nat) (h : firstLinefeed l = some i) :
    i < l.length ∧ linefeed ∉ l.take i ∧ l = l.take i ++ linefeed :: l.drop (i + 1) := by
  induction l generalizing i with
  | nil => simp [firstLinefeed] at h
  | cons c cs ih =>
    unfold firstLinefeed at h
    by_cases hc : c = linefeed
    · rw [if_pos hc] at h
      injection h with h
      subst h
      simp [hc]
    · rw [if_neg hc] at h
      cases hf : firstLinefeed cs with
      | none => rw [hf] at h; simp at h
      | some k =>
        rw [hf] at h
        simp only [Option.map_some', Option.some.injEq] at h
        subst h
        obtain ⟨h1, h2, h3⟩ := ih k hf
        refine ⟨by simp only [List.length_cons]; omega, ?_, ?_⟩
        · rw [List.take_succ_cons]
          intro hmem
          rcases List.mem_cons.mp hmem with hl | hl
          · exact hc hl.symm
          · exact h2 hl
        · rw [List.take_succ_cons, List.drop_succ_cons, List.cons_append, ← h3]

theorem splitLinefeed_of_not_mem (seg : List Char) (h : linefeed ∉ seg) :
    splitLinefeed seg = [seg] := by
  induction seg with
  | nil => rfl
  | cons c cs ih =>
    have hc : c ≠ linefeed := fun hc => h (by rw [hc]; exact List.mem_cons_self _ _)
    have hcs : linefeed ∉ cs := fun hm => h (List.mem_cons_of_mem _ hm)
    unfold splitLinefeed
    rw [if_neg hc, ih hcs]

theorem splitLinefeed_append (seg rest : List Char) (h : linefeed ∉ seg) :
    splitLinefeed (seg ++ linefeed :: rest) = seg :: splitLinefeed rest := by
  induction seg with
  | nil =>
    rw [List.nil_append, splitLinefeed, if_pos rfl]
  | cons c cs ih =>
    have hc : c ≠ linefeed := fun hc => h (by rw [hc]; exact List.mem_cons_self _ _)
    have hcs : linefeed ∉ cs := fun hm => h (List.mem_cons_of_mem _ hm)
    rw [List.cons_append, splitLinefeed, if_neg hc, ih hcs]

/-- The loop of `ParseColorNames` ends within the fuel, and the names pushed
so far together with the rest of the string are the reference split. -/
theorem parseLoop_spec (s : List Char) :
    ∀ (fuel start : Nat) (cn : List (List Char)), start ≤ s.length →
      s.length - start < fuel →
      ∃ start' cn', parseLoop s fuel start (find s start) cn = some (start', cn') ∧
        start' ≤ s.length ∧
        cn' ++ [s.drop start'] = cn ++ splitLinefeed (s.drop start) := by
  intro fuel
  induction fuel with
  | zero => intro start cn _ h; omega
  | succ fuel ih =>
    intro start cn hstart hfuel
    cases hf : firstLinefeed (s.drop start) with
    | none =>
      have hfind : find s start = none := by
        unfold find
        rw [if_pos hstart, hf]
        rfl
      refine ⟨start, cn, by rw [hfind]; simp [parseLoop], hstart, ?_⟩
      rw [splitLinefeed_of_not_mem _ (firstLinefeed_none _ hf)]
    | some i =>
      have hfind : find s start = some (i + start) := by
        unfold find
        rw [if_pos hstart, hf]
        rfl
      obtain ⟨hi, hseg, hdecomp⟩ := firstLinefeed_some _ i hf
      rw [List.length_drop] at hi
      have hrest : (s.drop start).drop (i + 1) = s.drop (i + start + 1) := by
        rw [List.drop_drop]
        congr 1
        omega
      obtain ⟨start', cn', hloop, hle, hinv⟩ := ih (i + start + 1)
        (cn ++ [substr s start (i + start - start)]) (by omega) (by omega)
      refine ⟨start', cn', ?_, hle, ?_⟩
      · rw [hfind, parseLoop]
        exact hloop
      · rw [hinv, hdecomp, splitLinefeed_append _ _ hseg, hrest, List.append_assoc]
        simp only [substr, Nat.add_sub_cancel, List.singleton_append]

/-- `ParseColorNames` returns nothing for the empty string and the reference
split for every other string. -/
theorem ParseColorNames_eq (s : List Char) :
    ParseColorNames s = some (if s = [] then [] else splitLinefeed s) := by
  obtain ⟨start', cn', hloop, hle, hinv⟩ := parseLoop_spec s (s.length + 1) 0 [] (Nat.zero_le _)
    (by omega)
  unfold ParseColorNames
  rw [hloop]
  simp only [List.drop_zero, List.nil_append] at hinv
  by_cases hs : s = []
  · subst hs
    have : cn' = [] := by
      have hsplit : splitLinefeed [] = [[]] := rfl
      rw [hsplit] at hinv
      have hl := congrArg List.length hinv
      simp at hl
      exact hl
    simp [this]
  · have hsub : substr s start' (s.length - start') = s.drop start' := by
      unfold substr
      rw [List.take_of_length_le (by rw [List.length_drop])]
    simp only [ne_eq, hs, not_false_eq_true, if_true, if_false, hsub, hinv]

/-- C20: `ParseColorNames` splits its argument at every linefeed.  For every
string the call returns; the result is empty if and only if the string is
empty; for a non-empty string the number of names is the number of linefeeds
plus one, no returned name contains a linefeed, and joining the returned
names with a single linefeed gives back the string. -/
theorem ParseColorNames_splits (s : List Char) :
    ∃ names, ParseColorNames s = some names ∧
      (names = [] ↔ s = []) ∧
      (s ≠ [] →
        names.length = s.count linefeed + 1 ∧
        (∀ name ∈ names, linefeed ∉ name) ∧
        [linefeed].intercalate names = s) := by
  refine ⟨_, ParseColorNames_eq s, ?_, ?_⟩
  · by_cases hs : s = []
    · simp [hs]
    · simp only [hs, if_false, iff_false]
      exact splitLinefeed_ne_nil s
  · intro hs
    rw [if_neg hs]
    exact ⟨splitLinefeed_length s, splitLinefeed_no_linefeed s, splitLinefeed_intercalate s⟩

/-- Witness for C20: two names and a trailing linefeed. -/
theorem ParseColorNames_splits_witness :
    ∃ names, ParseColorNames [Char.ofNat 97, linefeed, Char.ofNat 98, Char.ofNat 99, linefeed]
        = some names ∧
      (names = [] ↔
        [Char.ofNat 97, linefeed, Char.ofNat 98, Char.ofNat 99, linefeed] = []) ∧
      ([Char.ofNat 97, linefeed, Char.ofNat 98, Char.ofNat 99, linefeed] ≠ [] →
        names.length =
          [Char.ofNat 97, linefeed, Char.ofNat 98, Char.ofNat 99, linefeed].count linefeed + 1 ∧
        (∀ name ∈ names, linefeed ∉ name) ∧
        [linefeed].intercalate names =
          [Char.ofNat 97, linefeed, Char.ofNat 98, Char.ofNat 99, linefeed]) :=
  ParseColorNames_splits [Char.ofNat 97, linefeed, Char.ofNat 98, Char.ofNat 99, linefeed]

end VTK
